import Mathlib

/-!
# DetourNavigator: RecastMeshManager and NavMeshTilesCache

A shallow embedding of `components/detournavigator/recastmeshmanager.cpp` and
of `components/detournavigator/navmeshtilescache.hpp`.

* `std::map` is a list of entries kept strictly ascending by key (`StdMap`).
* `std::size_t` values are natural numbers; `++mRevision` and `mRevision + 1`
  are computed modulo `sizeModulus = 2 ^ 64`.
* `std::optional` is `Option`; a member function becomes a function from the
  manager state to its result paired with the state it leaves behind.
* `btCollisionShape`, `btTransform`, `AreaType`, `TileBounds` and `Settings`
  are used opaquely by the manager and are type parameters.
-/

namespace DetourNavigator

/-! ## Machine integers -/

/-- Number of values of `std::size_t` (64-bit target). -/
def sizeModulus : Nat := 2 ^ 64

/-- The value of `n + 1` computed in `std::size_t`. -/
def sizeSucc (n : Nat) : Nat := (n + 1) % sizeModulus

/-! ## `std::map` as a strictly ascending association list -/

/-- `std::map::find` on the entry list: the value stored under `k`, if any. -/
def findEntry {K V : Type} [DecidableEq K] (k : K) : List (K × V) → Option V
  | [] => none
  | e :: t => if e.1 = k then some e.2 else findEntry k t

/-- `std::map::lower_bound` on the entry list: the first entry whose key is
not less than `k`, or `none` for `end()`. -/
def lowerBoundEntry {K V : Type} [LinearOrder K] (k : K) : List (K × V) → Option (K × V)
  | [] => none
  | e :: t => if e.1 < k then lowerBoundEntry k t else some e

/-- Insertion of `(k, v)` at its ordered position; an entry already stored
under `k` is kept and nothing is inserted (`std::map::emplace`). -/
def insertEntry {K V : Type} [LinearOrder K] (k : K) (v : V) : List (K × V) → List (K × V)
  | [] => [(k, v)]
  | e :: t =>
    if e.1 < k then e :: insertEntry k v t
    else if k < e.1 then (k, v) :: e :: t
    else e :: t

/-- Removal of the entry stored under `k` (`std::map::erase` of its iterator). -/
def eraseEntry {K V : Type} [DecidableEq K] (k : K) : List (K × V) → List (K × V)
  | [] => []
  | e :: t => if e.1 = k then t else e :: eraseEntry k t

/-- In-place assignment to the value stored under `k`. -/
def assignEntry {K V : Type} [DecidableEq K] (k : K) (v : V) : List (K × V) → List (K × V)
  | [] => []
  | e :: t => if e.1 = k then (e.1, v) :: t else e :: assignEntry k v t

/-- Strictly ascending keys: the representation invariant of `std::map`. -/
def Ascending {K V : Type} [LinearOrder K] (l : List (K × V)) : Prop :=
  l.Pairwise (fun a b => a.1 < b.1)

theorem ascending_insertEntry {K V : Type} [LinearOrder K] (k : K) (v : V) :
    ∀ l : List (K × V), Ascending l → Ascending (insertEntry k v l)
  | [], _ => by simp [insertEntry, Ascending]
  | e :: t, h => by
    have ht : Ascending t := (List.pairwise_cons.mp h).2
    have he : ∀ b ∈ t, e.1 < b.1 := (List.pairwise_cons.mp h).1
    have ih := ascending_insertEntry k v t ht
    unfold insertEntry
    by_cases h1 : e.1 < k
    · simp only [h1, if_true]
      refine List.pairwise_cons.mpr ⟨?_, ih⟩
      have key : ∀ (l : List (K × V)), (∀ b ∈ l, e.1 < b.1) →
          ∀ b ∈ insertEntry k v l, e.1 < b.1 := by
        intro l
        induction l with
        | nil =>
          intro _ b hb
          simp [insertEntry] at hb
          subst hb
          exact h1
        | cons a l ihl =>
          intro hl b hb
          unfold insertEntry at hb
          by_cases h2 : a.1 < k
          · simp only [h2, if_true, List.mem_cons] at hb
            rcases hb with hb | hb
            · subst hb; exact hl _ (List.mem_cons_self _ _)
            · exact ihl (fun c hc => hl c (List.mem_cons_of_mem _ hc)) b hb
          · by_cases h3 : k < a.1
            · simp only [h2, h3, if_true, if_false, List.mem_cons] at hb
              rcases hb with hb | hb | hb
              · subst hb; exact h1
              · subst hb; exact hl _ (List.mem_cons_self _ _)
              · exact hl b (List.mem_cons_of_mem _ hb)
            · simp only [h2, h3, if_false] at hb
              exact hl b hb
      exact key t he
    · by_cases h2 : k < e.1
      · simp only [h1, h2, if_true, if_false]
        refine List.pairwise_cons.mpr ⟨?_, h⟩
        intro b hb
        rcases List.mem_cons.mp hb with hb | hb
        · subst hb; exact h2
        · exact lt_trans h2 (he b hb)
      · simp only [h1, h2, if_false]
        exact h

theorem ascending_eraseEntry {K V : Type} [LinearOrder K] (k : K) :
    ∀ l : List (K × V), Ascending l → Ascending (eraseEntry k l)
  | [], _ => by simp [eraseEntry, Ascending]
  | e :: t, h => by
    have ht : Ascending t := (List.pairwise_cons.mp h).2
    have he : ∀ b ∈ t, e.1 < b.1 := (List.pairwise_cons.mp h).1
    have ih := ascending_eraseEntry k t ht
    have sub : ∀ l : List (K × V), ∀ b ∈ eraseEntry k l, b ∈ l := by
      intro l
      induction l with
      | nil => intro b hb; simp [eraseEntry] at hb
      | cons a l ihl =>
        intro b hb
        unfold eraseEntry at hb
        by_cases h2 : a.1 = k
        · simp only [h2, if_true] at hb
          exact List.mem_cons_of_mem _ hb
        · simp only [h2, if_false, List.mem_cons] at hb
          rcases hb with hb | hb
          · subst hb; exact List.mem_cons_self _ _
          · exact List.mem_cons_of_mem _ (ihl b hb)
    unfold eraseEntry
    by_cases h1 : e.1 = k
    · simp only [h1, if_true]; exact ht
    · simp only [h1, if_false]
      exact List.pairwise_cons.mpr ⟨fun b hb => he b (sub t b hb), ih⟩

theorem ascending_assignEntry {K V : Type} [LinearOrder K] (k : K) (v : V) :
    ∀ l : List (K × V), Ascending l → Ascending (assignEntry k v l)
  | [], _ => by simp [assignEntry, Ascending]
  | e :: t, h => by
    have ht : Ascending t := (List.pairwise_cons.mp h).2
    have he : ∀ b ∈ t, e.1 < b.1 := (List.pairwise_cons.mp h).1
    have ih := ascending_assignEntry k v t ht
    have keys : ∀ l : List (K × V), ∀ b ∈ assignEntry k v l, ∃ c ∈ l, c.1 = b.1 := by
      intro l
      induction l with
      | nil => intro b hb; simp [assignEntry] at hb
      | cons a l ihl =>
        intro b hb
        unfold assignEntry at hb
        by_cases h2 : a.1 = k
        · simp only [h2, if_true, List.mem_cons] at hb
          rcases hb with hb | hb
          · exact ⟨a, List.mem_cons_self _ _, by rw [hb]; exact h2⟩
          · exact ⟨b, List.mem_cons_of_mem _ hb, rfl⟩
        · simp only [h2, if_false, List.mem_cons] at hb
          rcases hb with hb | hb
          · exact ⟨a, List.mem_cons_self _ _, by rw [hb]⟩
          · obtain ⟨c, hc, hcb⟩ := ihl b hb
            exact ⟨c, List.mem_cons_of_mem _ hc, hcb⟩
    unfold assignEntry
    by_cases h1 : e.1 = k
    · simp only [h1, if_true]
      refine List.pairwise_cons.mpr ⟨fun b hb => ?_, ht⟩
      have := he b hb
      rw [h1] at this
      exact this
    · simp only [h1, if_false]
      refine List.pairwise_cons.mpr ⟨fun b hb => ?_, ih⟩
      obtain ⟨c, hc, hcb⟩ := keys t b hb
      rw [← hcb]
      exact he c hc

/-- The container `std::map<K, V>`: entries in strictly ascending key order. -/
structure StdMap (K V : Type) [LinearOrder K] where
  entries : List (K × V)
  ascending : Ascending entries

namespace StdMap

variable {K V : Type} [LinearOrder K]

/-- A default-constructed map. -/
def empty : StdMap K V := ⟨[], List.Pairwise.nil⟩

/-- The call `m.find(k)`, as the value found (`none` for `end()`). -/
def find (m : StdMap K V) (k : K) : Option V := findEntry k m.entries

/-- The call `m.lower_bound(k)`, as the entry found (`none` for `end()`). -/
def lowerBound (m : StdMap K V) (k : K) : Option (K × V) := lowerBoundEntry k m.entries

/-- The calls `m.emplace(k, v)` and `m.emplace_hint(hint, k, v)`: the map
afterwards, and whether an insertion took place. -/
def emplace (m : StdMap K V) (k : K) (v : V) : StdMap K V × Bool :=
  (⟨insertEntry k v m.entries, ascending_insertEntry k v m.entries m.ascending⟩,
    (findEntry k m.entries).isNone)

/-- The call `m.erase(it)` for the iterator `it` at key `k`. -/
def erase (m : StdMap K V) (k : K) : StdMap K V :=
  ⟨eraseEntry k m.entries, ascending_eraseEntry k m.entries m.ascending⟩

/-- Mutation through the iterator at key `k`: its mapped value becomes `v`. -/
def assign (m : StdMap K V) (k : K) (v : V) : StdMap K V :=
  ⟨assignEntry k v m.entries, ascending_assignEntry k v m.entries m.ascending⟩

/-- The call `m.empty()`. -/
def isEmpty (m : StdMap K V) : Bool := m.entries.isEmpty

end StdMap

/-! ## Data model -/

/-- The key type `ObjectId` of the object map: an identifier compared as an
unsigned integer. -/
abbrev ObjectId : Type := Nat

/-- The grid cell key `osg::Vec2i`: two `int` coordinates. -/
structure Vec2i where
  x : Int
  y : Int
  deriving DecidableEq, Repr

/-- The comparison `osg::Vec2i::operator<`: by `x`, then by `y`. -/
def Vec2i.lt (a b : Vec2i) : Bool :=
  if a.x < b.x then true
  else if b.x < a.x then false
  else decide (a.y < b.y)

instance : LinearOrder Vec2i where
  le a b := b.lt a = false
  lt a b := a.lt b = true
  le_refl a := by simp [Vec2i.lt]
  le_trans a b c := by
    simp only [Vec2i.lt]
    intro h1 h2
    split_ifs at h1 h2 ⊢ <;> simp_all <;> omega
  lt_iff_le_not_le a b := by
    simp only [Vec2i.lt]
    split_ifs <;> simp_all <;> omega
  le_antisymm a b := by
    simp only [Vec2i.lt]
    intro h1 h2
    cases a; cases b
    simp only [Vec2i.mk.injEq]
    split_ifs at h1 h2
    simp_all
    omega
  le_total a b := by
    simp only [Vec2i.lt]
    split_ifs <;> simp_all <;> omega
  decidableLE a b := inferInstanceAs (Decidable (b.lt a = false))
  decidableLT a b := inferInstanceAs (Decidable (a.lt b = true))
  decidableEq := inferInstance

/-- The version record `Version`: generation and revision, both `std::size_t`. -/
structure Version where
  mGeneration : Nat
  mRevision : Nat
  deriving DecidableEq, Repr

/-- Modelled from the spec: the comparison `operator<` of `Version`, whose
declaration is not among the sources; versions compare lexicographically by
(generation, revision). -/
def Version.lt (a b : Version) : Bool :=
  decide (a.mGeneration < b.mGeneration) ||
    (decide (a.mGeneration = b.mGeneration) && decide (a.mRevision < b.mRevision))

/-- Lexicographic "earlier than or equal to" on versions. -/
def Version.le (a b : Version) : Prop :=
  a.mGeneration < b.mGeneration ∨ (a.mGeneration = b.mGeneration ∧ a.mRevision ≤ b.mRevision)

instance (a b : Version) : Decidable (a.le b) := by
  unfold Version.le; exact inferInstance

/-- Modelled from the spec: the tracked object `RecastMeshObject`, whose class
declaration is not among the sources: a shape reference, a transform and an
area type, as passed to its constructor and read back by `getShape`,
`getTransform` and `getAreaType`. -/
structure RecastMeshObject (Shape Transform AreaType : Type) where
  mShape : Shape
  mTransform : Transform
  mAreaType : AreaType
  deriving DecidableEq, Repr

/-- Modelled from the spec: the debounced object `OscillatingRecastMeshObject`,
whose class declaration is not among the sources: the wrapped object returned
by `getImpl` and the revision handed to its constructor. -/
structure OscillatingRecastMeshObject (Shape Transform AreaType : Type) where
  mImpl : RecastMeshObject Shape Transform AreaType
  mLastChangeRevision : Nat
  deriving DecidableEq, Repr

/-- The debounce rule `OscillatingRecastMeshObject::update(transform, areaType,
lastChangeRevision, bounds)`, defined outside the sources and taken as a
parameter: the value it returns and the object it leaves behind. -/
abbrev UpdateRule (Bounds Shape Transform AreaType : Type) : Type :=
  OscillatingRecastMeshObject Shape Transform AreaType → Transform → AreaType → Nat → Bounds →
    Bool × OscillatingRecastMeshObject Shape Transform AreaType

/-- The result type `RemovedRecastMeshObject` of `removeObject`. -/
structure RemovedRecastMeshObject (Shape Transform : Type) where
  mShape : Shape
  mTransform : Transform
  deriving DecidableEq, Repr

/-- The record `RecastMeshManager::Water`. -/
structure Water (Transform : Type) where
  mCellSize : Int
  mTransform : Transform
  deriving DecidableEq, Repr

/-- The record stored in `mLastNavMeshReport` and `mLastNavMeshReportedChange`:
the recast mesh revision of a report and the navmesh version it produced. -/
structure Report where
  mRevision : Nat
  mNavMeshVersion : Version
  deriving DecidableEq, Repr

/-- The state of a `RecastMeshManager`. -/
structure RecastMeshManager (Settings Bounds Shape Transform AreaType : Type) where
  mSettings : Settings
  mGeneration : Nat
  mRevision : Nat
  mTileBounds : Bounds
  mObjects : StdMap ObjectId (OscillatingRecastMeshObject Shape Transform AreaType)
  mWater : StdMap Vec2i (Water Transform)
  mLastNavMeshReportedChange : Option Report
  mLastNavMeshReport : Option Report

/-! ## Operations of `RecastMeshManager` -/

section Operations

variable {Settings Bounds Shape Transform AreaType : Type}

/-- The test `it != m.end() && it->first == k` on the result of a lookup. -/
def pointsAt {K V : Type} [DecidableEq K] (it : Option (K × V)) (k : K) : Bool :=
  match it with
  | none => false
  | some e => decide (e.1 = k)

/-- The member function `RecastMeshManager::addObject`. -/
def addObject (s : RecastMeshManager Settings Bounds Shape Transform AreaType)
    (id : ObjectId) (shape : Shape) (transform : Transform) (areaType : AreaType) :
    Bool × RecastMeshManager Settings Bounds Shape Transform AreaType :=
  let object := s.mObjects.lowerBound id
  if pointsAt object id then (false, s)
  else
    let inserted := s.mObjects.emplace id
      ⟨⟨shape, transform, areaType⟩, sizeSucc s.mRevision⟩
    (true, { s with mObjects := inserted.1, mRevision := sizeSucc s.mRevision })

/-- The threshold `lastChangeRevision` computed by `updateObject`. -/
def lastChangeRevision (s : RecastMeshManager Settings Bounds Shape Transform AreaType) : Nat :=
  match s.mLastNavMeshReportedChange with
  | some change => change.mRevision
  | none => s.mRevision

/-- The member function `RecastMeshManager::updateObject`; the debounce rule
acts on the stored object in place. -/
def updateObject (update : UpdateRule Bounds Shape Transform AreaType)
    (s : RecastMeshManager Settings Bounds Shape Transform AreaType)
    (id : ObjectId) (transform : Transform) (areaType : AreaType) :
    Bool × RecastMeshManager Settings Bounds Shape Transform AreaType :=
  match s.mObjects.find id with
  | none => (false, s)
  | some object =>
    let outcome := update object transform areaType (lastChangeRevision s) s.mTileBounds
    let s1 := { s with mObjects := s.mObjects.assign id outcome.2 }
    if !outcome.1 then (false, s1)
    else (true, { s1 with mRevision := sizeSucc s1.mRevision })

/-- The member function `RecastMeshManager::removeObject`. -/
def removeObject (s : RecastMeshManager Settings Bounds Shape Transform AreaType)
    (id : ObjectId) :
    Option (RemovedRecastMeshObject Shape Transform) ×
      RecastMeshManager Settings Bounds Shape Transform AreaType :=
  match s.mObjects.find id with
  | none => (none, s)
  | some object =>
    (some ⟨object.mImpl.mShape, object.mImpl.mTransform⟩,
      { s with mObjects := s.mObjects.erase id, mRevision := sizeSucc s.mRevision })

/-- The member function `RecastMeshManager::addWater`. -/
def addWater (s : RecastMeshManager Settings Bounds Shape Transform AreaType)
    (cellPosition : Vec2i) (cellSize : Int) (transform : Transform) :
    Bool × RecastMeshManager Settings Bounds Shape Transform AreaType :=
  let emplaced := s.mWater.emplace cellPosition ⟨cellSize, transform⟩
  let s1 := { s with mWater := emplaced.1 }
  if !emplaced.2 then (false, s1)
  else (true, { s1 with mRevision := sizeSucc s1.mRevision })

/-- The member function `RecastMeshManager::removeWater`. -/
def removeWater (s : RecastMeshManager Settings Bounds Shape Transform AreaType)
    (cellPosition : Vec2i) :
    Option (Water Transform) × RecastMeshManager Settings Bounds Shape Transform AreaType :=
  match s.mWater.find cellPosition with
  | none => (none, s)
  | some water =>
    (some water,
      { s with mRevision := sizeSucc s.mRevision, mWater := s.mWater.erase cellPosition })

/-- The member function `RecastMeshManager::isEmpty`. -/
def isEmpty (s : RecastMeshManager Settings Bounds Shape Transform AreaType) : Bool :=
  s.mObjects.isEmpty

/-- The test `r.has_value() && v < r->mNavMeshVersion`. -/
def reportedLater (r : Option Report) (v : Version) : Bool :=
  match r with
  | none => false
  | some report => v.lt report.mNavMeshVersion

/-- The test `!r.has_value() || r->mNavMeshVersion < v`. -/
def reportedEarlier (r : Option Report) (v : Version) : Bool :=
  match r with
  | none => true
  | some report => report.mNavMeshVersion.lt v

/-- The member function `RecastMeshManager::reportNavMeshChange`. -/
def reportNavMeshChange (s : RecastMeshManager Settings Bounds Shape Transform AreaType)
    (recastMeshVersion navMeshVersion : Version) :
    RecastMeshManager Settings Bounds Shape Transform AreaType :=
  if recastMeshVersion.mGeneration ≠ s.mGeneration then s
  else if reportedLater s.mLastNavMeshReport navMeshVersion then s
  else
    let s1 := { s with mLastNavMeshReport := some ⟨recastMeshVersion.mRevision, navMeshVersion⟩ }
    if reportedEarlier s1.mLastNavMeshReportedChange navMeshVersion then
      { s1 with mLastNavMeshReportedChange := s1.mLastNavMeshReport }
    else s1

/-- The member function `RecastMeshManager::getVersion`. -/
def getVersion (s : RecastMeshManager Settings Bounds Shape Transform AreaType) : Version :=
  ⟨s.mGeneration, s.mRevision⟩

/-- One mutating call on the geometry of a manager, with its arguments. -/
inductive GeometryCall (Shape Transform AreaType : Type) where
  | addObject (id : ObjectId) (shape : Shape) (transform : Transform) (areaType : AreaType)
  | updateObject (id : ObjectId) (transform : Transform) (areaType : AreaType)
  | removeObject (id : ObjectId)
  | addWater (cellPosition : Vec2i) (cellSize : Int) (transform : Transform)
  | removeWater (cellPosition : Vec2i)

/-- Performs one call: whether it reported success (returned `true`, or a
non-empty optional) and the state it leaves behind. -/
def perform (update : UpdateRule Bounds Shape Transform AreaType)
    (s : RecastMeshManager Settings Bounds Shape Transform AreaType) :
    GeometryCall Shape Transform AreaType →
      Bool × RecastMeshManager Settings Bounds Shape Transform AreaType
  | .addObject id shape transform areaType => addObject s id shape transform areaType
  | .updateObject id transform areaType => updateObject update s id transform areaType
  | .removeObject id => ((removeObject s id).1.isSome, (removeObject s id).2)
  | .addWater cellPosition cellSize transform => addWater s cellPosition cellSize transform
  | .removeWater cellPosition =>
    ((removeWater s cellPosition).1.isSome, (removeWater s cellPosition).2)

/-- Performs a sequence of calls, left to right. -/
def performAll (update : UpdateRule Bounds Shape Transform AreaType)
    (s : RecastMeshManager Settings Bounds Shape Transform AreaType) :
    List (GeometryCall Shape Transform AreaType) →
      RecastMeshManager Settings Bounds Shape Transform AreaType
  | [] => s
  | call :: rest => performAll update (perform update s call).2 rest

/-- Whether the revision counter overflows while `calls` are performed from
`s`: some successful call is made when `mRevision + 1` does not fit
`std::size_t`. -/
def counterOverflows (update : UpdateRule Bounds Shape Transform AreaType)
    (s : RecastMeshManager Settings Bounds Shape Transform AreaType) :
    List (GeometryCall Shape Transform AreaType) → Bool
  | [] => false
  | call :: rest =>
    ((perform update s call).1 && decide (sizeModulus ≤ s.mRevision + 1)) ||
      counterOverflows update (perform update s call).2 rest

end Operations

/-! ## Concrete managers for evaluation -/

/-- A debounce rule for evaluation on concrete inputs: it rejects an update
that repeats the stored transform and area type, and otherwise stores the new
values together with the threshold revision and accepts. -/
def sampleUpdate : UpdateRule Unit Nat Int Nat :=
  fun object transform areaType lastChangeRevision _ =>
    if object.mImpl.mTransform = transform ∧ object.mImpl.mAreaType = areaType then
      (false, object)
    else (true, ⟨⟨object.mImpl.mShape, transform, areaType⟩, lastChangeRevision⟩)

/-- A manager of generation 0 at revision 3 holding object 7, water on cell
(0, 0) and a report of navmesh version (0, 5) built from revision 1. -/
def sampleManager : RecastMeshManager Unit Unit Nat Int Nat where
  mSettings := ()
  mGeneration := 0
  mRevision := 3
  mTileBounds := ()
  mObjects := ⟨[(7, ⟨⟨70, 1, 4⟩, 1⟩)], List.pairwise_singleton _ _⟩
  mWater := ⟨[(⟨0, 0⟩, ⟨8192, 0⟩)], List.pairwise_singleton _ _⟩
  mLastNavMeshReportedChange := some ⟨1, ⟨0, 5⟩⟩
  mLastNavMeshReport := some ⟨1, ⟨0, 5⟩⟩

/-- A manager of generation 2 at revision 0 with no object, no water and no
report. -/
def emptyManager : RecastMeshManager Unit Unit Nat Int Nat where
  mSettings := ()
  mGeneration := 2
  mRevision := 0
  mTileBounds := ()
  mObjects := StdMap.empty
  mWater := StdMap.empty
  mLastNavMeshReportedChange := none
  mLastNavMeshReport := none

/-- A sequence of calls in which every kind of call both fails and succeeds. -/
def sampleCalls : List (GeometryCall Nat Int Nat) :=
  [ .addObject 7 71 2 4, .addObject 8 80 2 4, .updateObject 8 2 4, .updateObject 8 3 4,
    .updateObject 9 3 4, .removeObject 9, .removeObject 7, .addWater ⟨0, 0⟩ 8192 1,
    .addWater ⟨1, 0⟩ 8192 1, .removeWater ⟨1, 0⟩, .removeWater ⟨5, 5⟩ ]

/-! ## Snapshot building and the life of a manager -/

section Snapshot

variable {Settings Bounds Shape Transform AreaType : Type}

/-- One call that `getMesh` makes on its `RecastMeshBuilder`. -/
inductive BuilderCall (Shape Transform AreaType : Type) where
  | addWater (cellSize : Int) (transform : Transform)
  | addObject (shape : Shape) (transform : Transform) (areaType : AreaType)
  deriving DecidableEq, Repr

/-- Everything `getMesh` hands to its `RecastMeshBuilder` (whose class is
defined outside the sources): the bounds given to the constructor, the calls
made in order, and the two arguments of the final `create`. -/
structure BuilderSession (Bounds Shape Transform AreaType : Type) where
  mBounds : Bounds
  mCalls : List (BuilderCall Shape Transform AreaType)
  mGeneration : Nat
  mRevision : Nat
  deriving DecidableEq, Repr

/-- The member function `RecastMeshManager::getMesh`: the builder session it
runs and the state it leaves behind. The floating-point division of the tile
bounds by `mSettings.mRecastScaleFactor` is the parameter `rescale`. -/
def getMesh (rescale : Bounds → Settings → Bounds)
    (s : RecastMeshManager Settings Bounds Shape Transform AreaType) :
    BuilderSession Bounds Shape Transform AreaType ×
      RecastMeshManager Settings Bounds Shape Transform AreaType :=
  let tileBounds := rescale s.mTileBounds s.mSettings
  let water := s.mWater.entries.map (fun kv => BuilderCall.addWater kv.2.mCellSize kv.2.mTransform)
  let objects := s.mObjects.entries.map (fun kv =>
    BuilderCall.addObject kv.2.mImpl.mShape kv.2.mImpl.mTransform kv.2.mImpl.mAreaType)
  (⟨tileBounds, water ++ objects, s.mGeneration, s.mRevision⟩, s)

/-- The constructor `RecastMeshManager(settings, bounds, generation)`. The
maps and the optional records start empty; the initial value of `mRevision`
is set by the class declaration, which is not among the sources, and is the
parameter `initialRevision`. -/
def RecastMeshManager.construct (settings : Settings) (bounds : Bounds) (generation : Nat)
    (initialRevision : Nat) : RecastMeshManager Settings Bounds Shape Transform AreaType where
  mSettings := settings
  mGeneration := generation
  mRevision := initialRevision
  mTileBounds := bounds
  mObjects := StdMap.empty
  mWater := StdMap.empty
  mLastNavMeshReportedChange := none
  mLastNavMeshReport := none

/-- One call on a manager: a geometry call, `getMesh`, or
`reportNavMeshChange` with its two versions. -/
inductive ManagerCall (Shape Transform AreaType : Type) where
  | geometry (call : GeometryCall Shape Transform AreaType)
  | getMesh
  | reportNavMeshChange (recastMeshVersion navMeshVersion : Version)

/-- The state a manager is left in by one call. -/
def applyCall (rescale : Bounds → Settings → Bounds)
    (update : UpdateRule Bounds Shape Transform AreaType)
    (s : RecastMeshManager Settings Bounds Shape Transform AreaType) :
    ManagerCall Shape Transform AreaType →
      RecastMeshManager Settings Bounds Shape Transform AreaType
  | .geometry call => (perform update s call).2
  | .getMesh => (getMesh rescale s).2
  | .reportNavMeshChange recastMeshVersion navMeshVersion =>
    reportNavMeshChange s recastMeshVersion navMeshVersion

/-- The state a manager is left in by a sequence of calls, left to right. -/
def applyCalls (rescale : Bounds → Settings → Bounds)
    (update : UpdateRule Bounds Shape Transform AreaType)
    (s : RecastMeshManager Settings Bounds Shape Transform AreaType) :
    List (ManagerCall Shape Transform AreaType) →
      RecastMeshManager Settings Bounds Shape Transform AreaType
  | [] => s
  | call :: rest => applyCalls rescale update (applyCall rescale update s call) rest

/-- One call that fills a manager: `addObject` or `addWater` with its
arguments. -/
inductive Placement (Shape Transform AreaType : Type) where
  | object (id : ObjectId) (shape : Shape) (transform : Transform) (areaType : AreaType)
  | water (cellPosition : Vec2i) (cellSize : Int) (transform : Transform)
  deriving DecidableEq, Repr

/-- Performs one filling call: its result and the state it leaves behind. -/
def place (s : RecastMeshManager Settings Bounds Shape Transform AreaType) :
    Placement Shape Transform AreaType →
      Bool × RecastMeshManager Settings Bounds Shape Transform AreaType
  | .object id shape transform areaType => addObject s id shape transform areaType
  | .water cellPosition cellSize transform => addWater s cellPosition cellSize transform

/-- Performs a sequence of filling calls, left to right. -/
def placeAll (s : RecastMeshManager Settings Bounds Shape Transform AreaType) :
    List (Placement Shape Transform AreaType) →
      RecastMeshManager Settings Bounds Shape Transform AreaType
  | [] => s
  | p :: rest => placeAll (place s p).2 rest

/-- Whether every call of a sequence of filling calls returns `true`. -/
def placementsSucceed (s : RecastMeshManager Settings Bounds Shape Transform AreaType) :
    List (Placement Shape Transform AreaType) → Bool
  | [] => true
  | p :: rest => (place s p).1 && placementsSucceed (place s p).2 rest

end Snapshot

/-- A manager holding water on two cells and no object. -/
def waterOnlyManager : RecastMeshManager Unit Unit Nat Int Nat :=
  (addWater (addWater emptyManager ⟨0, 0⟩ 8192 0).2 ⟨0, 1⟩ 8192 0).2

/-- Three filling calls, and the same calls in another order. -/
def samplePlacements : List (Placement Nat Int Nat) :=
  [.object 9 90 1 4, .water ⟨1, 0⟩ 8192 0, .object 7 70 2 3]

/-- The calls of `samplePlacements` in another order. -/
def samplePlacementsReordered : List (Placement Nat Int Nat) :=
  [.object 7 70 2 3, .object 9 90 1 4, .water ⟨1, 0⟩ 8192 0]

/-! ## `NavMeshTilesCache`: keys, handles and items

Bytes (`unsigned char`) are natural numbers; `TilePosition` is `osg::Vec2i`;
`osg::Vec3f` agent half extents are compared for equality only and are a type
parameter. A `std::list` node is paired with its identity, which is what an
`ItemIterator` designates. -/

section TilesCache

variable {Probe Owner Agent : Type}

/-- The C library call `memcmp(lhs, rhs, count)` on byte sequences: zero when
the first `count` bytes agree, otherwise the difference of the first two
bytes that differ (callers use the sign of the result only). -/
def memcmp : List Nat → List Nat → Nat → Int
  | a :: lhs, b :: rhs, count + 1 =>
    if a = b then memcmp lhs rhs count else (a : Int) - (b : Int)
  | _, _, _ => 0

/-- The member function `KeyView::compare` of a view over the bytes `value`. -/
def compareBytes (value other : List Nat) : Int :=
  let valueSize := value.length
  let otherSize := other.length
  let result := memcmp value other (min valueSize otherSize)
  if result ≠ 0 then result
  else if valueSize < otherSize then -1
  else if valueSize > otherSize then 1
  else 0

/-- A key view: a `KeyView` over stored bytes, or the derived class
`RecastMeshKeyView`, whose base part holds no bytes. -/
inductive KeyView (Probe : Type) where
  | stored (value : List Nat)
  | recastMesh (probe : Probe)

/-- The member function `KeyView::getValue`; `none` when `assert(mValue)`
fails. -/
def KeyView.getValue : KeyView Probe → Option (List Nat)
  | .stored value => some value
  | .recastMesh _ => none

/-- The virtual member function `compare`. The override
`RecastMeshKeyView::compare` is defined outside the sources and is the
parameter `probeCompare`. -/
def KeyView.compare (probeCompare : Probe → List Nat → Int) :
    KeyView Probe → List Nat → Int
  | .stored value, other => compareBytes value other
  | .recastMesh probe, other => probeCompare probe other

/-- The virtual member function `isLess`: `KeyView::isLess` for a stored key
and the override `RecastMeshKeyView::isLess` for a probe; `none` when
`getValue` fails its assertion. -/
def KeyView.isLess (probeCompare : Probe → List Nat → Int) :
    KeyView Probe → KeyView Probe → Option Bool
  | .stored value, other => some (decide (other.compare probeCompare value > 0))
  | .recastMesh probe, other =>
    other.getValue.map (fun value => decide (probeCompare probe value < 0))

/-- The comparison `operator<(const KeyView&, const KeyView&)`. -/
def KeyView.less (probeCompare : Probe → List Nat → Int) (lhs rhs : KeyView Probe) :
    Option Bool :=
  lhs.isLess probeCompare rhs

/-- What an `ItemIterator` designates: the identity of a list node, or
nothing for a value-initialised iterator. -/
abbrev ItemIterator : Type := Option Nat

/-- The call `std::map<KeyView, ItemIterator>::find(query)` on the entries of
a `TileMap` in key order, with `operator<` as the ordering: the entry at the
lower bound of the query, if the query is not less than its key. -/
def TileMap.find (probeCompare : Probe → List Nat → Int) (query : KeyView Probe) :
    List (List Nat × ItemIterator) → Option ItemIterator
  | [] => none
  | entry :: rest =>
    if KeyView.less probeCompare (.stored entry.1) query = some true then
      TileMap.find probeCompare query rest
    else if KeyView.less probeCompare query (.stored entry.1) = some true then none
    else some entry.2

/-- The handle class `NavMeshTilesCache::Value`: `mOwner` is `none` for
`nullptr`. -/
structure Value (Owner : Type) where
  mOwner : Option Owner
  mIterator : ItemIterator
  deriving DecidableEq, Repr

/-- The default constructor `Value()`. -/
def Value.empty : Value Owner := ⟨none, none⟩

/-- The constructor `Value(owner, iterator)`. -/
def Value.make (owner : Owner) (iterator : ItemIterator) : Value Owner :=
  ⟨some owner, iterator⟩

/-- The conversion `operator bool`. -/
def Value.toBool (v : Value Owner) : Bool := v.mOwner.isSome

/-- The destructor `~Value()`: the `releaseItem` calls it makes, each as the
owner called and the iterator passed. -/
def Value.destroy (v : Value Owner) : List (Owner × ItemIterator) :=
  match v.mOwner with
  | some owner => [(owner, v.mIterator)]
  | none => []

/-- The move constructor `Value(Value&& other)`: the new handle and what is
left of `other`. -/
def Value.moveConstruct (other : Value Owner) : Value Owner × Value Owner :=
  (⟨other.mOwner, other.mIterator⟩, { other with mOwner := none })

/-- The move assignment `self = std::move(other)` of two distinct handles:
the `releaseItem` calls it makes, the assigned handle and what is left of
`other`. -/
def Value.moveAssign (self other : Value Owner) :
    List (Owner × ItemIterator) × Value Owner × Value Owner :=
  let released :=
    match self.mOwner with
    | some owner => [(owner, self.mIterator)]
    | none => []
  (released, ⟨other.mOwner, other.mIterator⟩, { other with mOwner := none })

/-- Modelled from the spec: the payload `NavMeshData`, declared outside the
sources: the opaque tile bytes and their size, an `int`. -/
structure NavMeshData where
  mValue : List Nat
  mSize : Int
  deriving DecidableEq, Repr

/-- The record `NavMeshDataRef`; the pointer to the bytes is modelled by the
bytes. -/
structure NavMeshDataRef where
  mValue : List Nat
  mSize : Int
  deriving DecidableEq, Repr

/-- The record `NavMeshTilesCache::Item`. -/
structure Item (Agent : Type) where
  mUseCount : Int
  mAgentHalfExtents : Agent
  mChangedTile : Vec2i
  mNavMeshKey : List Nat
  mNavMeshData : NavMeshData
  deriving DecidableEq, Repr

/-- The conversion `static_cast<std::size_t>` of an `int`. -/
def sizeCast (i : Int) : Nat := (i % (sizeModulus : Int)).toNat

/-- The static member function `NavMeshTilesCache::getSize`, in `std::size_t`
arithmetic. -/
def getSize (item : Item Agent) : Nat :=
  (sizeCast item.mNavMeshData.mSize + (2 * item.mNavMeshKey.length) % sizeModulus) % sizeModulus

/-- The state of a `NavMeshTilesCache`. The index `mValues` is determined by
the two lists and is represented by searching them; the mutex has no
sequential content. -/
structure NavMeshTilesCache (Agent : Type) where
  mMaxNavMeshDataSize : Nat
  mUsedNavMeshDataSize : Nat
  mFreeNavMeshDataSize : Nat
  mBusyItems : List (Nat × Item Agent)
  mFreeItems : List (Nat × Item Agent)
  deriving DecidableEq, Repr

end TilesCache

/-! ## `NavMeshTilesCache`: operations

The member functions of the cache are declared in the header and defined
outside the sources; they are modelled from the specification. -/

section TilesCacheOperations

variable {Owner Agent Mesh Connections : Type} [DecidableEq Agent]

/-- Modelled from the spec: the constructor `NavMeshTilesCache(maxNavMeshDataSize)`,
defined outside the sources: an empty cache with the configured maximum. -/
def NavMeshTilesCache.create (maxNavMeshDataSize : Nat) : NavMeshTilesCache Agent :=
  ⟨maxNavMeshDataSize, 0, 0, [], []⟩

/-- The sum of the charged sizes (`getSize`) of the items of a list. -/
def chargedSize (items : List (Nat × Item Agent)) : Nat :=
  (items.map (fun e => getSize e.2)).sum

/-- The sum of the charged sizes of all live entries, Busy and Free. -/
def NavMeshTilesCache.totalSize (c : NavMeshTilesCache Agent) : Nat :=
  chargedSize c.mBusyItems + chargedSize c.mFreeItems

/-- Modelled from the spec: the lookup through the keying structure `mValues`
(defined outside the sources): entries are found by exact agent half extents,
exact tile position and key bytes. The first live node with that triple. -/
def findItem (agent : Agent) (tile : Vec2i) (key : List Nat) :
    List (Nat × Item Agent) → Option Nat
  | [] => none
  | e :: rest =>
    if e.2.mAgentHalfExtents = agent ∧ e.2.mChangedTile = tile ∧ e.2.mNavMeshKey = key then
      some e.1
    else findItem agent tile key rest

/-- Modelled from the spec: the node cached under a triple, searched among all
live entries. -/
def NavMeshTilesCache.lookup (c : NavMeshTilesCache Agent) (agent : Agent) (tile : Vec2i)
    (key : List Nat) : Option Nat :=
  findItem agent tile key (c.mBusyItems ++ c.mFreeItems)

/-- The identity of a newly allocated list node: different from every live
node. -/
def NavMeshTilesCache.freshNode (c : NavMeshTilesCache Agent) : Nat :=
  ((c.mBusyItems ++ c.mFreeItems).map (fun e => e.1)).foldr max 0 + 1

/-- Modelled from the spec: `acquireItemUnsafe`, defined outside the sources:
the borrow count of the entry is incremented; a Free entry becomes Busy, a
Busy entry stays Busy. -/
def acquireItemUnsafe (c : NavMeshTilesCache Agent) : ItemIterator → NavMeshTilesCache Agent
  | none => c
  | some node =>
    match findEntry node c.mBusyItems with
    | some item =>
      { c with mBusyItems :=
          assignEntry node { item with mUseCount := item.mUseCount + 1 } c.mBusyItems }
    | none =>
      match findEntry node c.mFreeItems with
      | some item =>
        { c with
          mFreeItems := eraseEntry node c.mFreeItems,
          mBusyItems := c.mBusyItems ++ [(node, { item with mUseCount := item.mUseCount + 1 })],
          mFreeNavMeshDataSize := c.mFreeNavMeshDataSize - getSize item }
      | none => c

/-- Modelled from the spec: `releaseItem`, defined outside the sources: the
borrow count of the entry is decremented; on reaching zero the entry becomes
Free and is appended to the tail of the eviction order. -/
def releaseItem (c : NavMeshTilesCache Agent) : ItemIterator → NavMeshTilesCache Agent
  | none => c
  | some node =>
    match findEntry node c.mBusyItems with
    | none => c
    | some item =>
      if item.mUseCount - 1 = 0 then
        { c with
          mBusyItems := eraseEntry node c.mBusyItems,
          mFreeItems := c.mFreeItems ++ [(node, { item with mUseCount := item.mUseCount - 1 })],
          mFreeNavMeshDataSize := c.mFreeNavMeshDataSize + getSize item }
      else
        { c with mBusyItems :=
            assignEntry node { item with mUseCount := item.mUseCount - 1 } c.mBusyItems }

/-- Modelled from the spec: `removeLeastRecentlyUsed`, defined outside the
sources: the Free entry that became Free earliest is destroyed and its
charged size is given back. -/
def removeLeastRecentlyUsed (c : NavMeshTilesCache Agent) : NavMeshTilesCache Agent :=
  match c.mFreeItems with
  | [] => c
  | e :: rest =>
    { c with
      mFreeItems := rest,
      mUsedNavMeshDataSize := c.mUsedNavMeshDataSize - getSize e.2,
      mFreeNavMeshDataSize := c.mFreeNavMeshDataSize - getSize e.2 }

/-- Modelled from the spec: the eviction loop of `set`: Free entries are
evicted oldest-first until the insertion fits or no Free entries remain.
At most `fuel` rounds are made. -/
def evictLoop (itemSize : Nat) : Nat → NavMeshTilesCache Agent → NavMeshTilesCache Agent
  | 0, c => c
  | fuel + 1, c =>
    if c.mFreeItems.isEmpty = false ∧
        c.mUsedNavMeshDataSize + itemSize > c.mMaxNavMeshDataSize then
      evictLoop itemSize fuel (removeLeastRecentlyUsed c)
    else c

/-- The eviction loop run to its end: one round per Free entry suffices. -/
def makeRoom (itemSize : Nat) (c : NavMeshTilesCache Agent) : NavMeshTilesCache Agent :=
  evictLoop itemSize c.mFreeItems.length c

/-- Modelled from the spec: `NavMeshTilesCache::get`, defined outside the
sources. The probe built from the snapshot and the connections compares as
their serialized key `makeNavMeshKey mesh connections` would. On a match the
entry is acquired and a borrowing handle is returned; on a miss an empty
handle is returned. -/
def NavMeshTilesCache.get (self : Owner) (makeNavMeshKey : Mesh → Connections → List Nat)
    (c : NavMeshTilesCache Agent) (agentHalfExtents : Agent) (changedTile : Vec2i)
    (recastMesh : Mesh) (offMeshConnections : Connections) :
    Value Owner × NavMeshTilesCache Agent :=
  match c.lookup agentHalfExtents changedTile (makeNavMeshKey recastMesh offMeshConnections) with
  | none => (Value.empty, c)
  | some node => (Value.make self (some node), acquireItemUnsafe c (some node))

/-- Modelled from the spec: `NavMeshTilesCache::set`, defined outside the
sources. The serialized key is materialized and the entry is charged
`getSize`. Free entries are evicted oldest-first until the entry fits or none
remain; if it still does not fit an empty handle is returned and the payload
is dropped, else a new Busy entry with borrow count 1 is inserted and its
handle returned. No other outcome is described, also not for a triple that
already has a live entry, so an empty handle is returned for lack of room
only. -/
def NavMeshTilesCache.set (self : Owner) (makeNavMeshKey : Mesh → Connections → List Nat)
    (c : NavMeshTilesCache Agent) (agentHalfExtents : Agent) (changedTile : Vec2i)
    (recastMesh : Mesh) (offMeshConnections : Connections) (value : NavMeshData) :
    Value Owner × NavMeshTilesCache Agent :=
  let navMeshKey := makeNavMeshKey recastMesh offMeshConnections
  let item : Item Agent := ⟨1, agentHalfExtents, changedTile, navMeshKey, value⟩
  let itemSize := getSize item
  let c1 := makeRoom itemSize c
  if c1.mUsedNavMeshDataSize + itemSize > c1.mMaxNavMeshDataSize then (Value.empty, c1)
  else
    (Value.make self (some c1.freshNode),
      { c1 with
        mBusyItems := c1.mBusyItems ++ [(c1.freshNode, item)],
        mUsedNavMeshDataSize := c1.mUsedNavMeshDataSize + itemSize })

/-- The member function `Value::get` of a handle on cache `c`: the payload of
the entry its iterator designates, `none` when it designates no live entry. -/
def Value.get (c : NavMeshTilesCache Agent) (v : Value Owner) : Option NavMeshDataRef :=
  match v.mIterator with
  | none => none
  | some node =>
    (findEntry node (c.mBusyItems ++ c.mFreeItems)).map
      (fun item => ⟨item.mNavMeshData.mValue, item.mNavMeshData.mSize⟩)

/-- One call on a cache: `get`, `set`, or the release (destruction) of the
handle returned by an earlier call, given by the position of that call. -/
inductive CacheCall (Agent Mesh Connections : Type) where
  | get (agentHalfExtents : Agent) (changedTile : Vec2i) (recastMesh : Mesh)
      (offMeshConnections : Connections)
  | set (agentHalfExtents : Agent) (changedTile : Vec2i) (recastMesh : Mesh)
      (offMeshConnections : Connections) (value : NavMeshData)
  | release (handle : Nat)

/-- A cache together with the handles returned so far, in order; a released
handle is left empty. -/
structure CacheSession (Owner Agent : Type) where
  cache : NavMeshTilesCache Agent
  handles : List (Value Owner)

/-- The `releaseItem` calls made by a destructor, applied to the cache. -/
def applyReleases (c : NavMeshTilesCache Agent) (released : List (Owner × ItemIterator)) :
    NavMeshTilesCache Agent :=
  released.foldl (fun cache e => releaseItem cache e.2) c

/-- Performs one call in a session. -/
def CacheSession.step (self : Owner) (makeNavMeshKey : Mesh → Connections → List Nat)
    (σ : CacheSession Owner Agent) : CacheCall Agent Mesh Connections → CacheSession Owner Agent
  | .get agentHalfExtents changedTile recastMesh offMeshConnections =>
    let r := NavMeshTilesCache.get self makeNavMeshKey σ.cache agentHalfExtents changedTile
      recastMesh offMeshConnections
    ⟨r.2, σ.handles ++ [r.1]⟩
  | .set agentHalfExtents changedTile recastMesh offMeshConnections value =>
    let r := NavMeshTilesCache.set self makeNavMeshKey σ.cache agentHalfExtents changedTile
      recastMesh offMeshConnections value
    ⟨r.2, σ.handles ++ [r.1]⟩
  | .release handle =>
    match σ.handles.get? handle with
    | none => σ
    | some v => ⟨applyReleases σ.cache v.destroy, σ.handles.set handle Value.empty⟩

/-- Performs a sequence of calls in a session, left to right. -/
def CacheSession.run (self : Owner) (makeNavMeshKey : Mesh → Connections → List Nat)
    (σ : CacheSession Owner Agent) :
    List (CacheCall Agent Mesh Connections) → CacheSession Owner Agent
  | [] => σ
  | call :: rest => CacheSession.run self makeNavMeshKey (σ.step self makeNavMeshKey call) rest

/-- The accounting and borrow-count invariant of a cache: the used size is
the sum of the charged sizes of all live entries and does not exceed the
maximum, every Busy entry has a positive borrow count and every Free entry
has borrow count zero. -/
def CacheInvariant (c : NavMeshTilesCache Agent) : Prop :=
  c.mUsedNavMeshDataSize = c.totalSize ∧
  c.mUsedNavMeshDataSize ≤ c.mMaxNavMeshDataSize ∧
  (∀ e ∈ c.mBusyItems, 1 ≤ e.2.mUseCount) ∧
  (∀ e ∈ c.mFreeItems, e.2.mUseCount = 0)

/-- The cache reached from an empty cache of maximum `maxNavMeshDataSize` by
a sequence of `get`, `set` and handle releases. -/
def reachedCache (self : Owner) (makeNavMeshKey : Mesh → Connections → List Nat)
    (maxNavMeshDataSize : Nat) (calls : List (CacheCall Agent Mesh Connections)) :
    NavMeshTilesCache Agent :=
  (CacheSession.run self makeNavMeshKey
    (⟨NavMeshTilesCache.create maxNavMeshDataSize, []⟩ : CacheSession Owner Agent) calls).cache

end TilesCacheOperations

/-- A probe comparison for evaluation on concrete inputs: the probe is its own
serialized key and reports twice the byte comparison. -/
def sampleProbeCompare : List Nat → List Nat → Int :=
  fun probe other => 2 * compareBytes probe other

/-- A serialization for evaluation on concrete inputs: the mesh is a list of
bytes and the connections are one more byte. -/
def sampleKey : List Nat → Nat → List Nat := fun mesh connection => mesh ++ [connection]

/-- A sequence of cache calls on a cache of maximum 40: three insertions of
charge 14 each, with releases that make the first two entries Free, so that
the third insertion evicts the entry released first. -/
def sampleCacheCalls : List (CacheCall Nat (List Nat) Nat) :=
  [ .set 1 ⟨0, 0⟩ [1] 0 ⟨[9, 9, 9, 9, 9, 9, 9, 9, 9, 9], 10⟩,
    .set 1 ⟨0, 1⟩ [2] 0 ⟨[8, 8, 8, 8, 8, 8, 8, 8, 8, 8], 10⟩,
    .release 1, .release 0,
    .get 1 ⟨0, 0⟩ [1] 0,
    .set 1 ⟨0, 2⟩ [3] 0 ⟨[7, 7, 7, 7, 7, 7, 7, 7, 7, 7], 10⟩,
    .get 1 ⟨0, 1⟩ [2] 0 ]

/-! ## The build reports recorded along a sequence of calls -/

section ReportHistory

variable {Settings Bounds Shape Transform AreaType : Type}

/-- Whether `reportNavMeshChange` gets past its two guards in state `s`: the
generation is the manager's and no later navmesh version is recorded. -/
def recordsReport (s : RecastMeshManager Settings Bounds Shape Transform AreaType)
    (recastMeshVersion navMeshVersion : Version) : Bool :=
  decide (recastMeshVersion.mGeneration = s.mGeneration) &&
    !reportedLater s.mLastNavMeshReport navMeshVersion

/-- The report that one call records in state `s`, if it records one. -/
def recordedBy (s : RecastMeshManager Settings Bounds Shape Transform AreaType) :
    ManagerCall Shape Transform AreaType → List Report
  | .reportNavMeshChange recastMeshVersion navMeshVersion =>
    if recordsReport s recastMeshVersion navMeshVersion then
      [⟨recastMeshVersion.mRevision, navMeshVersion⟩]
    else []
  | _ => []

/-- The reports recorded while `calls` are applied from `s`, in order. -/
def acceptedReports (rescale : Bounds → Settings → Bounds)
    (update : UpdateRule Bounds Shape Transform AreaType)
    (s : RecastMeshManager Settings Bounds Shape Transform AreaType) :
    List (ManagerCall Shape Transform AreaType) → List Report
  | [] => []
  | call :: rest =>
    recordedBy s call ++ acceptedReports rescale update (applyCall rescale update s call) rest

/-- The first report of a history that carries the navmesh version of its
last report. -/
def firstOfLastVersion (history : List Report) : Option Report :=
  history.getLast?.bind (fun last =>
    history.find? (fun r => decide (r.mNavMeshVersion = last.mNavMeshVersion)))

end ReportHistory

/-- A sequence of calls on a manager in which navmesh version (0, 5) is
reported twice, built from revisions 1 and 2, around a stale report and a
report of another generation. -/
def sampleReportCalls : List (ManagerCall Nat Int Nat) :=
  [ .geometry (.addObject 7 70 1 4), .reportNavMeshChange ⟨2, 1⟩ ⟨0, 5⟩,
    .reportNavMeshChange ⟨2, 0⟩ ⟨0, 3⟩, .getMesh, .reportNavMeshChange ⟨9, 4⟩ ⟨0, 9⟩,
    .geometry (.addWater ⟨0, 0⟩ 8192 0), .reportNavMeshChange ⟨2, 2⟩ ⟨0, 5⟩ ]

/-! ## Programs over handles -/

section HandleMoves

variable {Owner : Type}

/-- The move assignment `self = std::move(self)` of a handle to itself: the
statements of `operator=(Value&&)` executed with `other` bound to the same
object. The `releaseItem` calls it makes and what is left of the handle. -/
def Value.moveAssignSelf (self : Value Owner) : List (Owner × ItemIterator) × Value Owner :=
  let released :=
    match self.mOwner with
    | some owner => [(owner, self.mIterator)]
    | none => []
  (released, { self with mOwner := none })

/-- One statement of a program that works on handles. Handles are named by
the position at which they were constructed. -/
inductive HandleOp (Owner : Type) where
  | make (owner : Owner) (iterator : ItemIterator)
  | makeEmpty
  | moveConstruct (source : Nat)
  | moveAssign (target source : Nat)
  | destroy (slot : Nat)
  deriving DecidableEq, Repr

/-- The handles of a program, `none` for one that has been destroyed, and
the `releaseItem` calls made so far, oldest first. -/
structure HandleStore (Owner : Type) where
  mHandles : List (Option (Value Owner))
  mReleased : List (Owner × ItemIterator)
  deriving DecidableEq, Repr

/-- The start of a program: no handle constructed, no call made. -/
def HandleStore.initial : HandleStore Owner := ⟨[], []⟩

/-- One statement executed: `make` and `makeEmpty` run the two ordinary
constructors, `moveConstruct` the move constructor, `moveAssign` the move
assignment (of a handle to itself when the two positions agree) and
`destroy` the destructor. A statement naming a handle that was never
constructed or is already destroyed is not executed. -/
def HandleStore.step (σ : HandleStore Owner) : HandleOp Owner → HandleStore Owner
  | .make owner iterator =>
    { σ with mHandles := σ.mHandles ++ [some (Value.make owner iterator)] }
  | .makeEmpty => { σ with mHandles := σ.mHandles ++ [some Value.empty] }
  | .moveConstruct source =>
    match σ.mHandles[source]? with
    | some (some other) =>
      { σ with
        mHandles := σ.mHandles.set source (some (Value.moveConstruct other).2) ++
          [some (Value.moveConstruct other).1] }
    | _ => σ
  | .moveAssign target source =>
    match σ.mHandles[target]?, σ.mHandles[source]? with
    | some (some self), some (some other) =>
      if target = source then
        { mHandles := σ.mHandles.set target (some (Value.moveAssignSelf self).2)
          mReleased := σ.mReleased ++ (Value.moveAssignSelf self).1 }
      else
        { mHandles :=
            (σ.mHandles.set target (some (Value.moveAssign self other).2.1)).set source
              (some (Value.moveAssign self other).2.2)
          mReleased := σ.mReleased ++ (Value.moveAssign self other).1 }
    | _, _ => σ
  | .destroy slot =>
    match σ.mHandles[slot]? with
    | some (some v) =>
      { mHandles := σ.mHandles.set slot none
        mReleased := σ.mReleased ++ v.destroy }
    | _ => σ

/-- A program executed statement by statement. -/
def HandleStore.run (σ : HandleStore Owner) (ops : List (HandleOp Owner)) : HandleStore Owner :=
  ops.foldl HandleStore.step σ

/-- The borrow a handle holds: the `releaseItem` call its destructor would
make; nothing for an empty or destroyed handle. -/
def heldBy : Option (Value Owner) → List (Owner × ItemIterator)
  | some v => v.destroy
  | none => []

/-- The borrows held by the handles of a program. -/
def held : List (Option (Value Owner)) → List (Owner × ItemIterator)
  | [] => []
  | handle :: rest => heldBy handle ++ held rest

/-- The handle a statement constructs from `(owner, iterator)`, if it is a
`make`. -/
def createdBy : HandleOp Owner → List (Owner × ItemIterator)
  | .make owner iterator => [(owner, iterator)]
  | _ => []

/-- The handles a program constructs from `(owner, iterator)`, in order. -/
def created : List (HandleOp Owner) → List (Owner × ItemIterator)
  | [] => []
  | op :: rest => createdBy op ++ created rest

/-- Whether every handle of the program has been destroyed. -/
def HandleStore.allDestroyed (σ : HandleStore Owner) : Bool :=
  σ.mHandles.all Option.isNone

end HandleMoves

/-- A program over handles: two borrows, a move construction, a move
assignment over a held borrow, a self-assignment, a move assignment between
empty handles, and every handle destroyed (one of them twice). -/
def sampleHandleOps : List (HandleOp Nat) :=
  [ .make 1 (some 10), .make 1 (some 11), .makeEmpty, .moveConstruct 0, .moveAssign 1 3,
    .moveAssign 1 1, .moveAssign 2 0, .destroy 0, .destroy 1, .destroy 2, .destroy 3,
    .destroy 3 ]

/-! ## The tile store -/

/-- Modelled from the spec: the record `StoredTileRow` of the tile store
`NavMeshDb`, whose header and implementation (`navmeshdb.hpp`,
`navmeshdb.cpp` of the component) are outside the sources; only its test
suite is among them. A row holds the assigned id, the world region, the tile
position, the version, the hash of the build input and the payload. -/
structure StoredTileRow where
  mTileId : Int
  mWorldspace : String
  mTilePosition : Vec2i
  mVersion : Int
  mInput : List Nat
  mData : List Nat
  deriving DecidableEq, Repr

/-- Modelled from the spec: the state of the store `NavMeshDb`, declared
outside the sources: its rows, oldest first. -/
structure NavMeshDb where
  mRows : List StoredTileRow
  deriving DecidableEq, Repr

/-- Modelled from the spec: the failure of a store call, raised outside the
sources as an exception: a uniqueness conflict. -/
inductive DbError where
  | conflict
  deriving DecidableEq, Repr

/-- Modelled from the spec: the result of `findTile`, declared outside the
sources, with the members the tests read. -/
structure Tile where
  mTileId : Int
  mVersion : Int
  deriving DecidableEq, Repr

/-- Modelled from the spec: the result of `getTileData`, declared outside
the sources, with the members the tests read. -/
structure TileData where
  mTileId : Int
  mVersion : Int
  mData : List Nat
  deriving DecidableEq, Repr

/-- Modelled from the spec: the store opened on a new database, as the tests
do with `":memory:"`; the constructor is outside the sources. -/
def NavMeshDb.create : NavMeshDb := ⟨[]⟩

/-- Modelled from the spec: the natural key of a row, which the store
(outside the sources) uses for lookups: region, tile position and input
hash. -/
def StoredTileRow.key (row : StoredTileRow) : String × Vec2i × List Nat :=
  (row.mWorldspace, row.mTilePosition, row.mInput)

/-- Modelled from the spec: whether a row of the store (outside the sources)
has the given id. -/
def NavMeshDb.hasId (db : NavMeshDb) (tileId : Int) : Bool :=
  db.mRows.any (fun row => decide (row.mTileId = tileId))

/-- Modelled from the spec: whether a row of the store (outside the sources)
has the given natural key. -/
def NavMeshDb.hasKey (db : NavMeshDb) (worldspace : String) (tilePosition : Vec2i)
    (input : List Nat) : Bool :=
  db.mRows.any (fun row => decide (row.key = (worldspace, tilePosition, input)))

/-- Modelled from the spec: `NavMeshDb::getMaxTileId`, defined outside the
sources: 0 for a store without rows, else the greatest id of a row. -/
def NavMeshDb.getMaxTileId (db : NavMeshDb) : Int :=
  match db.mRows with
  | [] => 0
  | row :: rest => rest.foldl (fun best other => max best other.mTileId) row.mTileId

/-- Modelled from the spec: `NavMeshDb::insertTile`, defined outside the
sources: a conflict error, the store unchanged, when the id or the natural
key is already stored (both are unique in the store); otherwise one row is
added and the number of rows added, 1, is returned. -/
def NavMeshDb.insertTile (db : NavMeshDb) (tileId : Int) (worldspace : String)
    (tilePosition : Vec2i) (version : Int) (input data : List Nat) :
    Except DbError Nat × NavMeshDb :=
  if db.hasId tileId || db.hasKey worldspace tilePosition input then
    (.error .conflict, db)
  else
    (.ok 1, ⟨db.mRows ++ [⟨tileId, worldspace, tilePosition, version, input, data⟩]⟩)

/-- Modelled from the spec: `NavMeshDb::updateTile`, defined outside the
sources: every row with the id gets the version and the payload; the number
of rows changed is returned. -/
def NavMeshDb.updateTile (db : NavMeshDb) (tileId : Int) (version : Int) (data : List Nat) :
    Nat × NavMeshDb :=
  ((db.mRows.filter (fun row => decide (row.mTileId = tileId))).length,
    ⟨db.mRows.map (fun row =>
      if row.mTileId = tileId then { row with mVersion := version, mData := data } else row)⟩)

/-- Modelled from the spec: `NavMeshDb::findTile`, defined outside the
sources: the id and version of the row with the natural key, if any. -/
def NavMeshDb.findTile (db : NavMeshDb) (worldspace : String) (tilePosition : Vec2i)
    (input : List Nat) : Option Tile :=
  (db.mRows.find? (fun row => decide (row.key = (worldspace, tilePosition, input)))).map
    (fun row => ⟨row.mTileId, row.mVersion⟩)

/-- Modelled from the spec: `NavMeshDb::getTileData`, defined outside the
sources: the same lookup as `findTile`, returning the payload too. -/
def NavMeshDb.getTileData (db : NavMeshDb) (worldspace : String) (tilePosition : Vec2i)
    (input : List Nat) : Option TileData :=
  (db.mRows.find? (fun row => decide (row.key = (worldspace, tilePosition, input)))).map
    (fun row => ⟨row.mTileId, row.mVersion, row.mData⟩)

/-- One call that writes to the store. -/
inductive DbCall where
  | insertTile (tileId : Int) (worldspace : String) (tilePosition : Vec2i) (version : Int)
      (input data : List Nat)
  | updateTile (tileId : Int) (version : Int) (data : List Nat)
  deriving DecidableEq, Repr

/-- The store after one call, whether it succeeded or not. -/
def NavMeshDb.apply (db : NavMeshDb) : DbCall → NavMeshDb
  | .insertTile tileId worldspace tilePosition version input data =>
    (db.insertTile tileId worldspace tilePosition version input data).2
  | .updateTile tileId version data => (db.updateTile tileId version data).2

/-- The store after a sequence of calls. -/
def NavMeshDb.run (db : NavMeshDb) (calls : List DbCall) : NavMeshDb :=
  calls.foldl NavMeshDb.apply db

/-- The uniqueness invariant of the store: no two rows share an id, and no
two rows share a natural key. -/
def NavMeshDb.WellFormed (db : NavMeshDb) : Prop :=
  (db.mRows.map (fun row => row.mTileId)).Nodup ∧ (db.mRows.map StoredTileRow.key).Nodup

/-- The calls of the tests: tile 53 inserted, inserted again, tile 54
inserted, tile 13 inserted and updated, an update of a missing tile. -/
def sampleDbCalls : List DbCall :=
  [ .insertTile 53 "sys::default" ⟨3, 4⟩ 1 [1, 2, 3] [4, 5, 6],
    .insertTile 53 "sys::default" ⟨3, 4⟩ 1 [1, 2, 3] [4, 5, 6],
    .insertTile 54 "sys::default" ⟨3, 4⟩ 1 [7, 8, 9] [10, 11],
    .insertTile 13 "sys::default" ⟨3, 4⟩ 1 [12, 13] [14, 15],
    .updateTile 13 2 [16, 17],
    .updateTile 99 5 [18] ]

/-! ## Lexicographic order on byte sequences -/

/-- Strict lexicographic less-than on byte sequences, as the specification
words it: at the first position where the two sequences differ the byte of
`a` is the smaller one, or `a` ends first (it is a proper prefix of `b`).
This definition is written from the specification, to be compared with
`compareBytes`. -/
def lexLess : List Nat → List Nat → Bool
  | [], [] => false
  | [], _ :: _ => true
  | _ :: _, [] => false
  | x :: a, y :: b => if x = y then lexLess a b else decide (x < y)

/-! ## Lookup lemmas for the entry list -/

section EntryLemmas

variable {K V : Type} [LinearOrder K]

theorem lowerBoundEntry_of_findEntry_some (k : K) (v : V) :
    ∀ l : List (K × V), Ascending l → findEntry k l = some v →
      lowerBoundEntry k l = some (k, v)
  | [], _, h => by simp [findEntry] at h
  | e :: t, ha, h => by
    have ht : Ascending t := (List.pairwise_cons.mp ha).2
    have he : ∀ b ∈ t, e.1 < b.1 := (List.pairwise_cons.mp ha).1
    unfold findEntry at h
    unfold lowerBoundEntry
    by_cases h1 : e.1 = k
    · have hlt : ¬ e.1 < k := by rw [h1]; exact lt_irrefl k
      simp only [h1, if_true, Option.some.injEq] at h
      simp only [hlt, if_false]
      rw [← h, ← h1]
    · simp only [h1, if_false] at h
      have ih := lowerBoundEntry_of_findEntry_some k v t ht h
      by_cases h2 : e.1 < k
      · simp only [h2, if_true]; exact ih
      · exfalso
        have mem : ∀ l : List (K × V), findEntry k l = some v → ∃ b ∈ l, b.1 = k := by
          intro l
          induction l with
          | nil => intro hl; simp [findEntry] at hl
          | cons a l ihl =>
            intro hl
            unfold findEntry at hl
            by_cases h3 : a.1 = k
            · exact ⟨a, List.mem_cons_self _ _, h3⟩
            · simp only [h3, if_false] at hl
              obtain ⟨b, hb, hbk⟩ := ihl hl
              exact ⟨b, List.mem_cons_of_mem _ hb, hbk⟩
        obtain ⟨b, hb, hbk⟩ := mem t h
        have := he b hb
        rw [hbk] at this
        exact h2 this

theorem lowerBoundEntry_key_ne_of_findEntry_none (k : K) :
    ∀ l : List (K × V), findEntry k l = none →
      ∀ e, lowerBoundEntry k l = some e → e.1 ≠ k
  | [], _, e, h => by simp [lowerBoundEntry] at h
  | a :: t, hf, e, h => by
    unfold findEntry at hf
    unfold lowerBoundEntry at h
    by_cases h1 : a.1 = k
    · simp [h1] at hf
    · simp only [h1, if_false] at hf
      by_cases h2 : a.1 < k
      · simp only [h2, if_true] at h
        exact lowerBoundEntry_key_ne_of_findEntry_none k t hf e h
      · simp only [h2, if_false, Option.some.injEq] at h
        rw [← h]; exact h1

theorem findEntry_insertEntry_self (k : K) (v : V) :
    ∀ l : List (K × V), findEntry k l = none → findEntry k (insertEntry k v l) = some v
  | [], _ => by simp [insertEntry, findEntry]
  | a :: t, hf => by
    unfold findEntry at hf
    by_cases h1 : a.1 = k
    · simp [h1] at hf
    · simp only [h1, if_false] at hf
      have ih := findEntry_insertEntry_self k v t hf
      unfold insertEntry
      by_cases h2 : a.1 < k
      · simp only [h2, if_true]
        unfold findEntry
        simp only [h1, if_false]
        exact ih
      · have h3 : k < a.1 := lt_of_le_of_ne (not_lt.mp h2) (fun h => h1 h.symm)
        simp only [h2, h3, if_true, if_false]
        simp [findEntry]

theorem findEntry_insertEntry_other (k k' : K) (v : V) (hk : k' ≠ k) :
    ∀ l : List (K × V), findEntry k' (insertEntry k v l) = findEntry k' l
  | [] => by
    have : ¬ k = k' := fun h => hk h.symm
    simp [insertEntry, findEntry, this]
  | a :: t => by
    have ih := findEntry_insertEntry_other k k' v hk t
    have hne : ¬ k = k' := fun h => hk h.symm
    unfold insertEntry
    by_cases h2 : a.1 < k
    · simp only [h2, if_true]
      unfold findEntry
      rw [ih]
    · by_cases h3 : k < a.1
      · simp only [h2, h3, if_true, if_false]
        conv_lhs => unfold findEntry
        simp only [hne, if_false]
      · simp only [h2, h3, if_false]

theorem insertEntry_of_findEntry_some (k : K) (v w : V) :
    ∀ l : List (K × V), Ascending l → findEntry k l = some w → insertEntry k v l = l
  | [], _, h => by simp [findEntry] at h
  | a :: t, ha, h => by
    have ht : Ascending t := (List.pairwise_cons.mp ha).2
    have hlb := lowerBoundEntry_of_findEntry_some k w (a :: t) ha h
    unfold findEntry at h
    unfold lowerBoundEntry at hlb
    unfold insertEntry
    by_cases h2 : a.1 < k
    · have h1 : ¬ a.1 = k := ne_of_lt h2
      simp only [h1, if_false] at h
      simp only [h2, if_true]
      rw [insertEntry_of_findEntry_some k v w t ht h]
    · simp only [h2, if_false, Option.some.injEq] at hlb
      have h3 : ¬ k < a.1 := by rw [hlb]; exact lt_irrefl k
      simp only [h2, h3, if_false]

theorem findEntry_eraseEntry_self (k : K) :
    ∀ l : List (K × V), Ascending l → findEntry k (eraseEntry k l) = none
  | [], _ => by simp [eraseEntry, findEntry]
  | a :: t, ha => by
    have ht : Ascending t := (List.pairwise_cons.mp ha).2
    have he : ∀ b ∈ t, a.1 < b.1 := (List.pairwise_cons.mp ha).1
    unfold eraseEntry
    by_cases h1 : a.1 = k
    · simp only [h1, if_true]
      have none_of : ∀ l : List (K × V), (∀ b ∈ l, k < b.1) → findEntry k l = none := by
        intro l
        induction l with
        | nil => intro _; rfl
        | cons c l ihl =>
          intro hl
          unfold findEntry
          have hc : ¬ c.1 = k := fun h => by
            have := hl c (List.mem_cons_self _ _)
            rw [h] at this
            exact lt_irrefl k this
          simp only [hc, if_false]
          exact ihl (fun b hb => hl b (List.mem_cons_of_mem _ hb))
      exact none_of t (fun b hb => by rw [← h1]; exact he b hb)
    · simp only [h1, if_false]
      unfold findEntry
      simp only [h1, if_false]
      exact findEntry_eraseEntry_self k t ht

theorem findEntry_eraseEntry_other (k k' : K) (hk : k' ≠ k) :
    ∀ l : List (K × V), findEntry k' (eraseEntry k l) = findEntry k' l
  | [] => by simp [eraseEntry]
  | a :: t => by
    have ih := findEntry_eraseEntry_other k k' hk t
    unfold eraseEntry
    by_cases h1 : a.1 = k
    · have h2 : ¬ a.1 = k' := fun h => hk (h.symm.trans h1)
      simp only [h1, if_true]
      conv_rhs => unfold findEntry
      simp only [h2, if_false]
    · simp only [h1, if_false]
      unfold findEntry
      rw [ih]

theorem findEntry_assignEntry_self (k : K) (v w : V) :
    ∀ l : List (K × V), findEntry k l = some w → findEntry k (assignEntry k v l) = some v
  | [], h => by simp [findEntry] at h
  | a :: t, h => by
    unfold findEntry at h
    unfold assignEntry
    by_cases h1 : a.1 = k
    · simp only [h1, if_true]
      simp [findEntry]
    · simp only [h1, if_false] at h
      simp only [h1, if_false]
      unfold findEntry
      simp only [h1, if_false]
      exact findEntry_assignEntry_self k v w t h

theorem StdMap.ext_entries {m n : StdMap K V} (h : m.entries = n.entries) : m = n := by
  cases m; cases n; cases h; rfl

end EntryLemmas

/-! ## Objects: `addObject`, `updateObject`, `removeObject` -/

section ObjectTheorems

variable {Settings Bounds Shape Transform AreaType : Type}

theorem pointsAt_lowerBound_of_find_some
    {V : Type} (m : StdMap ObjectId V) (id : ObjectId) (v : V)
    (h : m.find id = some v) : pointsAt (m.lowerBound id) id = true := by
  have hlb := lowerBoundEntry_of_findEntry_some id v m.entries m.ascending h
  simp [StdMap.lowerBound, hlb, pointsAt]

theorem pointsAt_lowerBound_of_find_none
    {V : Type} (m : StdMap ObjectId V) (id : ObjectId)
    (h : m.find id = none) : pointsAt (m.lowerBound id) id = false := by
  have hne := lowerBoundEntry_key_ne_of_findEntry_none id m.entries h
  unfold StdMap.lowerBound pointsAt
  cases hlb : lowerBoundEntry id m.entries with
  | none => rfl
  | some e => simpa using hne e hlb

/-- C2: `addObject` with an id that is already registered returns `false`
and leaves the whole manager state (object map with the entry stored under
the id, water map, revision, both report records) exactly as it was. -/
theorem addObject_registered_returns_false_and_keeps_state
    (s : RecastMeshManager Settings Bounds Shape Transform AreaType)
    (id : ObjectId) (shape : Shape) (transform : Transform) (areaType : AreaType)
    (h : s.mObjects.find id ≠ none) :
    addObject s id shape transform areaType = (false, s) := by
  obtain ⟨v, hv⟩ := Option.ne_none_iff_exists'.mp h
  unfold addObject
  simp [pointsAt_lowerBound_of_find_some s.mObjects id v hv]

/-- Witness for C2 on `sampleManager`, where object 7 is registered. -/
theorem addObject_registered_returns_false_and_keeps_state_witness :
    sampleManager.mObjects.find 7 ≠ none ∧
    addObject sampleManager 7 71 2 4 = (false, sampleManager) :=
  ⟨by decide,
    addObject_registered_returns_false_and_keeps_state sampleManager 7 71 2 4 (by decide)⟩

/-- C3: `addObject` with an id that is not registered returns `true`;
afterwards the id is registered with exactly the given shape, transform and
area type, every other id maps to what it mapped to before, and the revision
is the previous revision plus one (computed in `std::size_t`, which is the
plain successor whenever the counter is below its largest value). -/
theorem addObject_unregistered_registers_and_bumps
    (s : RecastMeshManager Settings Bounds Shape Transform AreaType)
    (id : ObjectId) (shape : Shape) (transform : Transform) (areaType : AreaType)
    (h : s.mObjects.find id = none) :
    (addObject s id shape transform areaType).1 = true ∧
    (∃ object, (addObject s id shape transform areaType).2.mObjects.find id = some object ∧
      object.mImpl = ⟨shape, transform, areaType⟩) ∧
    (∀ other, other ≠ id →
      (addObject s id shape transform areaType).2.mObjects.find other = s.mObjects.find other) ∧
    (addObject s id shape transform areaType).2.mRevision = sizeSucc s.mRevision ∧
    (s.mRevision + 1 < sizeModulus →
      (addObject s id shape transform areaType).2.mRevision = s.mRevision + 1) := by
  have hp := pointsAt_lowerBound_of_find_none s.mObjects id h
  have hs : addObject s id shape transform areaType =
      (true, { s with
        mObjects := (s.mObjects.emplace id ⟨⟨shape, transform, areaType⟩, sizeSucc s.mRevision⟩).1,
        mRevision := sizeSucc s.mRevision }) := by
    unfold addObject
    simp [hp]
  rw [hs]
  refine ⟨rfl, ⟨_, findEntry_insertEntry_self id _ s.mObjects.entries h, rfl⟩, ?_, rfl, ?_⟩
  · intro other hne
    exact findEntry_insertEntry_other id other _ hne s.mObjects.entries
  · intro hlt
    exact Nat.mod_eq_of_lt hlt

/-- Witness for C3 on `sampleManager`, where object 8 is not registered and
the revision is 3. -/
theorem addObject_unregistered_registers_and_bumps_witness :
    sampleManager.mObjects.find 8 = none ∧
    (addObject sampleManager 8 80 2 4).1 = true ∧
    (addObject sampleManager 8 80 2 4).2.mObjects.find 7 = sampleManager.mObjects.find 7 ∧
    (addObject sampleManager 8 80 2 4).2.mRevision = 3 + 1 :=
  ⟨by decide,
    (addObject_unregistered_registers_and_bumps sampleManager 8 80 2 4 (by decide)).1,
    (addObject_unregistered_registers_and_bumps sampleManager 8 80 2 4 (by decide)).2.2.1 7
      (by decide),
    (addObject_unregistered_registers_and_bumps sampleManager 8 80 2 4 (by decide)).2.2.2.2
      (by decide)⟩

/-- C4: `updateObject` with an id that is not registered returns `false`
and leaves the manager state as it was, so `getVersion`, the object map, the
water map and both report records are the same after the call. -/
theorem updateObject_unregistered_returns_false_and_keeps_state
    (update : UpdateRule Bounds Shape Transform AreaType)
    (s : RecastMeshManager Settings Bounds Shape Transform AreaType)
    (id : ObjectId) (transform : Transform) (areaType : AreaType)
    (h : s.mObjects.find id = none) :
    updateObject update s id transform areaType = (false, s) ∧
    getVersion (updateObject update s id transform areaType).2 = getVersion s := by
  have hs : updateObject update s id transform areaType = (false, s) := by
    unfold updateObject
    rw [h]
  rw [hs]
  exact ⟨rfl, rfl⟩

/-- Witness for C4 on `sampleManager`, where object 9 is not registered. -/
theorem updateObject_unregistered_returns_false_and_keeps_state_witness :
    sampleManager.mObjects.find 9 = none ∧
    updateObject sampleUpdate sampleManager 9 3 4 = (false, sampleManager) ∧
    getVersion (updateObject sampleUpdate sampleManager 9 3 4).2 = getVersion sampleManager :=
  ⟨by decide,
    updateObject_unregistered_returns_false_and_keeps_state sampleUpdate sampleManager 9 3 4
      (by decide)⟩

/-- C5: for a registered id, `updateObject` applies the debounce rule to the
stored object with the tile bounds and with the threshold revision taken from
the last reported navmesh change when there is one and from the current
revision otherwise; it returns what the rule returns, stores the object the
rule leaves behind, and increments the revision by one exactly when the rule
accepts. -/
theorem updateObject_registered_delegates_to_rule
    (update : UpdateRule Bounds Shape Transform AreaType)
    (s : RecastMeshManager Settings Bounds Shape Transform AreaType)
    (id : ObjectId) (transform : Transform) (areaType : AreaType)
    (object : OscillatingRecastMeshObject Shape Transform AreaType)
    (h : s.mObjects.find id = some object) :
    (updateObject update s id transform areaType).1 =
      (update object transform areaType
        ((s.mLastNavMeshReportedChange.map Report.mRevision).getD s.mRevision) s.mTileBounds).1 ∧
    (updateObject update s id transform areaType).2.mObjects.find id =
      some (update object transform areaType
        ((s.mLastNavMeshReportedChange.map Report.mRevision).getD s.mRevision) s.mTileBounds).2 ∧
    ((updateObject update s id transform areaType).1 = true →
      (updateObject update s id transform areaType).2.mRevision = sizeSucc s.mRevision ∧
      (s.mRevision + 1 < sizeModulus →
        (updateObject update s id transform areaType).2.mRevision = s.mRevision + 1)) ∧
    ((updateObject update s id transform areaType).1 = false →
      (updateObject update s id transform areaType).2.mRevision = s.mRevision) := by
  have hthr : lastChangeRevision s =
      (s.mLastNavMeshReportedChange.map Report.mRevision).getD s.mRevision := by
    unfold lastChangeRevision
    cases s.mLastNavMeshReportedChange <;> rfl
  rw [← hthr]
  have hfind : ∀ o, findEntry id (assignEntry id o s.mObjects.entries) = some o :=
    fun o => findEntry_assignEntry_self id o object s.mObjects.entries h
  unfold updateObject
  rw [h]
  cases hacc : (update object transform areaType (lastChangeRevision s) s.mTileBounds).1
  · simp [hacc, StdMap.find, StdMap.assign, hfind]
  · simp only [hacc, Bool.not_true, Bool.false_eq_true, if_false, true_implies]
    refine ⟨trivial, hfind _, ⟨trivial, fun hlt => Nat.mod_eq_of_lt hlt⟩, ?_⟩
    intro hc
    cases hc

/-- Witness for C5 on `sampleManager`: object 7 is registered, the last
reported change was built from revision 1, and `sampleUpdate` accepts the new
transform. -/
theorem updateObject_registered_delegates_to_rule_witness :
    sampleManager.mObjects.find 7 = some ⟨⟨70, 1, 4⟩, 1⟩ ∧
    (updateObject sampleUpdate sampleManager 7 2 4).1 =
      (sampleUpdate ⟨⟨70, 1, 4⟩, 1⟩ 2 4 1 ()).1 ∧
    (updateObject sampleUpdate sampleManager 7 2 4).2.mRevision = 3 + 1 :=
  ⟨by decide,
    (updateObject_registered_delegates_to_rule sampleUpdate sampleManager 7 2 4
      ⟨⟨70, 1, 4⟩, 1⟩ (by decide)).1,
    ((updateObject_registered_delegates_to_rule sampleUpdate sampleManager 7 2 4
      ⟨⟨70, 1, 4⟩, 1⟩ (by decide)).2.2.1 (by decide)).2 (by decide)⟩

/-- C6: `removeObject` with an id that is not registered returns the empty
result and leaves the state as it was; with a registered id it returns the
shape and transform stored for that id, the id is no longer registered
afterwards, every other id maps to what it mapped to before, and the revision
is the previous revision plus one (computed in `std::size_t`). -/
theorem removeObject_absent_or_present
    (s : RecastMeshManager Settings Bounds Shape Transform AreaType) (id : ObjectId) :
    (s.mObjects.find id = none → removeObject s id = (none, s)) ∧
    (∀ object, s.mObjects.find id = some object →
      (removeObject s id).1 = some ⟨object.mImpl.mShape, object.mImpl.mTransform⟩ ∧
      (removeObject s id).2.mObjects.find id = none ∧
      (∀ other, other ≠ id →
        (removeObject s id).2.mObjects.find other = s.mObjects.find other) ∧
      (removeObject s id).2.mRevision = sizeSucc s.mRevision ∧
      (s.mRevision + 1 < sizeModulus → (removeObject s id).2.mRevision = s.mRevision + 1)) := by
  constructor
  · intro h
    unfold removeObject
    rw [h]
  · intro object h
    have hs : removeObject s id =
        (some ⟨object.mImpl.mShape, object.mImpl.mTransform⟩,
          { s with mObjects := s.mObjects.erase id, mRevision := sizeSucc s.mRevision }) := by
      unfold removeObject
      rw [h]
    rw [hs]
    refine ⟨rfl, findEntry_eraseEntry_self id s.mObjects.entries s.mObjects.ascending, ?_, rfl, ?_⟩
    · intro other hne
      exact findEntry_eraseEntry_other id other hne s.mObjects.entries
    · intro hlt
      exact Nat.mod_eq_of_lt hlt

/-- Witness for C6 on `sampleManager`: object 9 is absent, object 7 is
registered with shape 70 and transform 1. -/
theorem removeObject_absent_or_present_witness :
    (sampleManager.mObjects.find 9 = none ∧
      removeObject sampleManager 9 = (none, sampleManager)) ∧
    (sampleManager.mObjects.find 7 = some ⟨⟨70, 1, 4⟩, 1⟩ ∧
      (removeObject sampleManager 7).1 = some ⟨70, 1⟩ ∧
      (removeObject sampleManager 7).2.mObjects.find 7 = none ∧
      (removeObject sampleManager 7).2.mRevision = 3 + 1) :=
  ⟨⟨by decide, (removeObject_absent_or_present sampleManager 9).1 (by decide)⟩,
    by decide,
    ((removeObject_absent_or_present sampleManager 7).2 ⟨⟨70, 1, 4⟩, 1⟩ (by decide)).1,
    ((removeObject_absent_or_present sampleManager 7).2 ⟨⟨70, 1, 4⟩, 1⟩ (by decide)).2.1,
    ((removeObject_absent_or_present sampleManager 7).2 ⟨⟨70, 1, 4⟩, 1⟩ (by decide)).2.2.2.2
      (by decide)⟩

end ObjectTheorems

/-! ## Water: `addWater`, `removeWater` -/

section WaterTheorems

variable {Settings Bounds Shape Transform AreaType : Type}

/-- C7: water follows the insert/remove/bump discipline of objects on the
same revision counter. `addWater` on a cell that already has water returns
`false` and changes nothing (the stored water is kept); on a free cell it
stores `Water {cellSize, transform}` under the cell, keeps every other cell,
returns `true` and increments the revision by one. `removeWater` on a cell
without water returns the empty result and changes nothing; otherwise it
returns the stored water, removes it, keeps every other cell and increments
the revision by one. -/
theorem water_add_remove_discipline
    (s : RecastMeshManager Settings Bounds Shape Transform AreaType)
    (cellPosition : Vec2i) (cellSize : Int) (transform : Transform) :
    (s.mWater.find cellPosition ≠ none →
      addWater s cellPosition cellSize transform = (false, s)) ∧
    (s.mWater.find cellPosition = none →
      (addWater s cellPosition cellSize transform).1 = true ∧
      (addWater s cellPosition cellSize transform).2.mWater.find cellPosition =
        some ⟨cellSize, transform⟩ ∧
      (∀ other, other ≠ cellPosition →
        (addWater s cellPosition cellSize transform).2.mWater.find other = s.mWater.find other) ∧
      (addWater s cellPosition cellSize transform).2.mObjects = s.mObjects ∧
      (addWater s cellPosition cellSize transform).2.mRevision = sizeSucc s.mRevision ∧
      (s.mRevision + 1 < sizeModulus →
        (addWater s cellPosition cellSize transform).2.mRevision = s.mRevision + 1)) ∧
    (s.mWater.find cellPosition = none → removeWater s cellPosition = (none, s)) ∧
    (∀ water, s.mWater.find cellPosition = some water →
      (removeWater s cellPosition).1 = some water ∧
      (removeWater s cellPosition).2.mWater.find cellPosition = none ∧
      (∀ other, other ≠ cellPosition →
        (removeWater s cellPosition).2.mWater.find other = s.mWater.find other) ∧
      (removeWater s cellPosition).2.mObjects = s.mObjects ∧
      (removeWater s cellPosition).2.mRevision = sizeSucc s.mRevision ∧
      (s.mRevision + 1 < sizeModulus →
        (removeWater s cellPosition).2.mRevision = s.mRevision + 1)) := by
  refine ⟨?_, ?_, ?_, ?_⟩
  · intro h
    obtain ⟨w, hw⟩ := Option.ne_none_iff_exists'.mp h
    have hkeep : (s.mWater.emplace cellPosition ⟨cellSize, transform⟩).1 = s.mWater :=
      StdMap.ext_entries
        (insertEntry_of_findEntry_some cellPosition _ w s.mWater.entries s.mWater.ascending hw)
    have hflag : (s.mWater.emplace cellPosition ⟨cellSize, transform⟩).2 = false := by
      have hw2 : findEntry cellPosition s.mWater.entries = some w := hw
      simp [StdMap.emplace, hw2]
    unfold addWater
    simp only [hflag, hkeep, Bool.not_false, if_true]
  · intro h
    have hflag : (s.mWater.emplace cellPosition ⟨cellSize, transform⟩).2 = true := by
      have h2 : findEntry cellPosition s.mWater.entries = none := h
      simp [StdMap.emplace, h2]
    have hs : addWater s cellPosition cellSize transform =
        (true, { s with
          mWater := (s.mWater.emplace cellPosition ⟨cellSize, transform⟩).1,
          mRevision := sizeSucc s.mRevision }) := by
      unfold addWater
      simp [hflag]
    rw [hs]
    refine ⟨rfl, findEntry_insertEntry_self cellPosition _ s.mWater.entries h, ?_, rfl, rfl, ?_⟩
    · intro other hne
      exact findEntry_insertEntry_other cellPosition other _ hne s.mWater.entries
    · intro hlt
      exact Nat.mod_eq_of_lt hlt
  · intro h
    unfold removeWater
    rw [h]
  · intro water h
    have hs : removeWater s cellPosition =
        (some water,
          { s with mRevision := sizeSucc s.mRevision, mWater := s.mWater.erase cellPosition }) := by
      unfold removeWater
      rw [h]
    rw [hs]
    refine ⟨rfl, findEntry_eraseEntry_self cellPosition s.mWater.entries s.mWater.ascending,
      ?_, rfl, rfl, ?_⟩
    · intro other hne
      exact findEntry_eraseEntry_other cellPosition other hne s.mWater.entries
    · intro hlt
      exact Nat.mod_eq_of_lt hlt

/-- Witness for C7 on `sampleManager`: cell (0, 0) has water of size 8192,
cell (1, 0) has none. -/
theorem water_add_remove_discipline_witness :
    (sampleManager.mWater.find ⟨0, 0⟩ ≠ none ∧
      addWater sampleManager ⟨0, 0⟩ 4096 1 = (false, sampleManager)) ∧
    (sampleManager.mWater.find ⟨1, 0⟩ = none ∧
      (addWater sampleManager ⟨1, 0⟩ 4096 1).1 = true ∧
      (addWater sampleManager ⟨1, 0⟩ 4096 1).2.mWater.find ⟨1, 0⟩ = some ⟨4096, 1⟩ ∧
      (addWater sampleManager ⟨1, 0⟩ 4096 1).2.mRevision = 3 + 1) ∧
    removeWater sampleManager ⟨1, 0⟩ = (none, sampleManager) ∧
    (sampleManager.mWater.find ⟨0, 0⟩ = some ⟨8192, 0⟩ ∧
      (removeWater sampleManager ⟨0, 0⟩).1 = some ⟨8192, 0⟩ ∧
      (removeWater sampleManager ⟨0, 0⟩).2.mWater.find ⟨0, 0⟩ = none ∧
      (removeWater sampleManager ⟨0, 0⟩).2.mRevision = 3 + 1) :=
  ⟨⟨by decide, (water_add_remove_discipline sampleManager ⟨0, 0⟩ 4096 1).1 (by decide)⟩,
    ⟨by decide,
      ((water_add_remove_discipline sampleManager ⟨1, 0⟩ 4096 1).2.1 (by decide)).1,
      ((water_add_remove_discipline sampleManager ⟨1, 0⟩ 4096 1).2.1 (by decide)).2.1,
      ((water_add_remove_discipline sampleManager ⟨1, 0⟩ 4096 1).2.1 (by decide)).2.2.2.2.2
        (by decide)⟩,
    (water_add_remove_discipline sampleManager ⟨1, 0⟩ 4096 1).2.2.1 (by decide),
    ⟨by decide,
      ((water_add_remove_discipline sampleManager ⟨0, 0⟩ 4096 1).2.2.2 ⟨8192, 0⟩ (by decide)).1,
      ((water_add_remove_discipline sampleManager ⟨0, 0⟩ 4096 1).2.2.2 ⟨8192, 0⟩ (by decide)).2.1,
      ((water_add_remove_discipline sampleManager ⟨0, 0⟩ 4096 1).2.2.2 ⟨8192, 0⟩
        (by decide)).2.2.2.2.2 (by decide)⟩⟩

end WaterTheorems

/-! ## Build reports: `reportNavMeshChange` -/

section ReportTheorems

variable {Settings Bounds Shape Transform AreaType : Type}

theorem Version.lt_iff (a b : Version) :
    a.lt b = true ↔
      a.mGeneration < b.mGeneration ∨ (a.mGeneration = b.mGeneration ∧ a.mRevision < b.mRevision) := by
  simp [Version.lt]

theorem Version.le_iff_lt_or_eq (a b : Version) : a.le b ↔ a.lt b = true ∨ a = b := by
  rw [Version.lt_iff]
  cases a; cases b
  simp only [Version.le, Version.mk.injEq]
  omega

theorem Version.le_of_not_lt (a b : Version) (h : a.lt b = false) : b.le a := by
  have h2 : ¬ (a.lt b = true) := by simp [h]
  rw [Version.lt_iff] at h2
  unfold Version.le
  omega

theorem Version.le_refl (a : Version) : a.le a := Or.inr ⟨rfl, Nat.le_refl _⟩

theorem Version.le_of_lt (a b : Version) (h : a.lt b = true) : a.le b :=
  (Version.le_iff_lt_or_eq a b).mpr (Or.inl h)

theorem Version.lt_irrefl (a : Version) : a.lt a = false := by
  simp [Version.lt]

/-- C9: a report whose recast mesh generation differs from the generation of
the manager leaves the manager state as it was (both report records,
revision, objects, water), so a later `updateObject` computes the same
threshold and behaves as if the report had not been made. -/
theorem reportNavMeshChange_other_generation_ignored
    (s : RecastMeshManager Settings Bounds Shape Transform AreaType)
    (recastMeshVersion navMeshVersion : Version)
    (h : recastMeshVersion.mGeneration ≠ s.mGeneration) :
    reportNavMeshChange s recastMeshVersion navMeshVersion = s ∧
    lastChangeRevision (reportNavMeshChange s recastMeshVersion navMeshVersion) =
      lastChangeRevision s ∧
    ∀ (update : UpdateRule Bounds Shape Transform AreaType) id transform areaType,
      updateObject update (reportNavMeshChange s recastMeshVersion navMeshVersion)
        id transform areaType = updateObject update s id transform areaType := by
  have hs : reportNavMeshChange s recastMeshVersion navMeshVersion = s := by
    unfold reportNavMeshChange
    rw [if_pos h]
  rw [hs]
  exact ⟨rfl, rfl, fun _ _ _ _ => rfl⟩

/-- Witness for C9 on `sampleManager` (generation 0) with a report from
generation 1. -/
theorem reportNavMeshChange_other_generation_ignored_witness :
    (1 : Nat) ≠ sampleManager.mGeneration ∧
    reportNavMeshChange sampleManager ⟨1, 2⟩ ⟨0, 9⟩ = sampleManager ∧
    lastChangeRevision (reportNavMeshChange sampleManager ⟨1, 2⟩ ⟨0, 9⟩) = 1 :=
  ⟨by decide,
    (reportNavMeshChange_other_generation_ignored sampleManager ⟨1, 2⟩ ⟨0, 9⟩ (by decide)).1,
    (reportNavMeshChange_other_generation_ignored sampleManager ⟨1, 2⟩ ⟨0, 9⟩ (by decide)).2.1⟩

/-- C10: no call of `reportNavMeshChange` makes a recorded navmesh version
regress: a version recorded in `mLastNavMeshReport` before the call is
followed by a recorded version that is later or equal, and so is a version
recorded in `mLastNavMeshReportedChange`, the record from which
`updateObject` takes its threshold. -/
theorem reportNavMeshChange_records_do_not_regress
    (s : RecastMeshManager Settings Bounds Shape Transform AreaType)
    (recastMeshVersion navMeshVersion : Version) :
    (∀ report, s.mLastNavMeshReport = some report →
      ∃ report', (reportNavMeshChange s recastMeshVersion navMeshVersion).mLastNavMeshReport
          = some report' ∧
        report.mNavMeshVersion.le report'.mNavMeshVersion) ∧
    (∀ change, s.mLastNavMeshReportedChange = some change →
      ∃ change', (reportNavMeshChange s recastMeshVersion navMeshVersion).mLastNavMeshReportedChange
          = some change' ∧
        change.mNavMeshVersion.le change'.mNavMeshVersion) := by
  unfold reportNavMeshChange
  by_cases hg : recastMeshVersion.mGeneration ≠ s.mGeneration
  · rw [if_pos hg]
    exact ⟨fun r hr => ⟨r, hr, Version.le_refl _⟩, fun c hc => ⟨c, hc, Version.le_refl _⟩⟩
  · rw [if_neg hg]
    cases hl : reportedLater s.mLastNavMeshReport navMeshVersion
    · simp only [Bool.false_eq_true, if_false]
      constructor
      · intro r hr
        rw [hr] at hl
        have hle : r.mNavMeshVersion.le navMeshVersion := Version.le_of_not_lt _ _ hl
        cases he : reportedEarlier s.mLastNavMeshReportedChange navMeshVersion
        · simp only [Bool.false_eq_true, if_false]
          exact ⟨_, rfl, hle⟩
        · simp only [if_true]
          exact ⟨_, rfl, hle⟩
      · intro c hc
        cases he : reportedEarlier s.mLastNavMeshReportedChange navMeshVersion
        · simp only [Bool.false_eq_true, if_false]
          exact ⟨c, hc, Version.le_refl _⟩
        · simp only [if_true]
          rw [hc] at he
          exact ⟨_, rfl, Version.le_of_lt _ _ he⟩
    · simp only [if_true]
      exact ⟨fun r hr => ⟨r, hr, Version.le_refl _⟩, fun c hc => ⟨c, hc, Version.le_refl _⟩⟩

/-- Witness for C10 on `sampleManager`, where navmesh version (0, 5) is
recorded in both records, with a report of the earlier version (0, 4). -/
theorem reportNavMeshChange_records_do_not_regress_witness :
    sampleManager.mLastNavMeshReport = some ⟨1, ⟨0, 5⟩⟩ ∧
    sampleManager.mLastNavMeshReportedChange = some ⟨1, ⟨0, 5⟩⟩ ∧
    (∃ report', (reportNavMeshChange sampleManager ⟨0, 2⟩ ⟨0, 4⟩).mLastNavMeshReport
        = some report' ∧ Version.le ⟨0, 5⟩ report'.mNavMeshVersion) ∧
    (∃ change', (reportNavMeshChange sampleManager ⟨0, 2⟩ ⟨0, 4⟩).mLastNavMeshReportedChange
        = some change' ∧ Version.le ⟨0, 5⟩ change'.mNavMeshVersion) :=
  ⟨rfl, rfl,
    (reportNavMeshChange_records_do_not_regress sampleManager ⟨0, 2⟩ ⟨0, 4⟩).1 ⟨1, ⟨0, 5⟩⟩ rfl,
    (reportNavMeshChange_records_do_not_regress sampleManager ⟨0, 2⟩ ⟨0, 4⟩).2 ⟨1, ⟨0, 5⟩⟩ rfl⟩

end ReportTheorems

section ReportCorrection

variable {Settings Bounds Shape Transform AreaType : Type}

theorem Version.not_lt_of_le (a b : Version) (h : a.le b) : b.lt a = false := by
  have h2 : ¬ (b.lt a = true) := by
    rw [Version.lt_iff]
    unfold Version.le at h
    omega
  simpa using h2

theorem reportNavMeshChange_recorded
    (s : RecastMeshManager Settings Bounds Shape Transform AreaType)
    (recastMeshVersion v : Version)
    (hg : recastMeshVersion.mGeneration = s.mGeneration)
    (hl : reportedLater s.mLastNavMeshReport v = false) :
    reportNavMeshChange s recastMeshVersion v =
      { s with
        mLastNavMeshReport := some ⟨recastMeshVersion.mRevision, v⟩,
        mLastNavMeshReportedChange :=
          if reportedEarlier s.mLastNavMeshReportedChange v then
            some ⟨recastMeshVersion.mRevision, v⟩
          else s.mLastNavMeshReportedChange } := by
  have hg2 : ¬ (recastMeshVersion.mGeneration ≠ s.mGeneration) := fun hc => hc hg
  have hl2 : ¬ (reportedLater s.mLastNavMeshReport v = true) := by simp [hl]
  unfold reportNavMeshChange
  rw [if_neg hg2, if_neg hl2]
  cases he : reportedEarlier s.mLastNavMeshReportedChange v <;> simp [he]

/-- C8, as stated, fails: with navmesh version (0, 5) recorded from revision
1, a report of the same navmesh version (0, 5) built from revision 2 of the
same generation is not ignored; the last report record now holds revision 2. -/
theorem reportNavMeshChange_equal_version_overwrites_last_report :
    sampleManager.mLastNavMeshReport = some ⟨1, ⟨0, 5⟩⟩ ∧
    Version.le ⟨0, 5⟩ ⟨0, 5⟩ ∧
    (reportNavMeshChange sampleManager ⟨0, 2⟩ ⟨0, 5⟩).mLastNavMeshReport = some ⟨2, ⟨0, 5⟩⟩ ∧
    reportNavMeshChange sampleManager ⟨0, 2⟩ ⟨0, 5⟩ ≠ sampleManager := by
  refine ⟨rfl, by decide, by decide, ?_⟩
  intro h
  have h2 := congrArg (fun m => m.mLastNavMeshReport) h
  revert h2
  decide

/-- C8, amended: with navmesh version `w` recorded in `mLastNavMeshReport`,
a report of a navmesh version `v` strictly earlier than `w` is ignored (the
state is as it was). A report of `v = w` is ignored when its generation
differs; with the generation of the manager it overwrites `mLastNavMeshReport`
with the reported recast mesh revision and `w`, keeps
`mLastNavMeshReportedChange` whenever that record holds a navmesh version
later than or equal to `w`, and keeps objects, water, revision and
generation. -/
theorem reportNavMeshChange_earlier_ignored_equal_rerecorded
    (s : RecastMeshManager Settings Bounds Shape Transform AreaType)
    (recastMeshVersion v w : Version) (revision : Nat)
    (hrec : s.mLastNavMeshReport = some ⟨revision, w⟩) (hle : v.le w) :
    (v ≠ w → reportNavMeshChange s recastMeshVersion v = s) ∧
    (v = w → recastMeshVersion.mGeneration ≠ s.mGeneration →
      reportNavMeshChange s recastMeshVersion v = s) ∧
    (v = w → recastMeshVersion.mGeneration = s.mGeneration →
      (reportNavMeshChange s recastMeshVersion v).mLastNavMeshReport =
        some ⟨recastMeshVersion.mRevision, w⟩ ∧
      (∀ change, s.mLastNavMeshReportedChange = some change →
        w.le change.mNavMeshVersion →
        (reportNavMeshChange s recastMeshVersion v).mLastNavMeshReportedChange = some change) ∧
      (reportNavMeshChange s recastMeshVersion v).mObjects = s.mObjects ∧
      (reportNavMeshChange s recastMeshVersion v).mWater = s.mWater ∧
      (reportNavMeshChange s recastMeshVersion v).mRevision = s.mRevision ∧
      (reportNavMeshChange s recastMeshVersion v).mGeneration = s.mGeneration) := by
  refine ⟨?_, ?_, ?_⟩
  · intro hne
    have hlt : v.lt w = true := by
      rcases (Version.le_iff_lt_or_eq v w).mp hle with h | h
      · exact h
      · exact absurd h hne
    unfold reportNavMeshChange
    by_cases hg : recastMeshVersion.mGeneration ≠ s.mGeneration
    · rw [if_pos hg]
    · rw [if_neg hg]
      have hl : reportedLater s.mLastNavMeshReport v = true := by
        rw [hrec]; exact hlt
      simp [hl]
  · intro _ hg
    unfold reportNavMeshChange
    rw [if_pos hg]
  · intro hvw hg
    subst hvw
    have hl : reportedLater s.mLastNavMeshReport v = false := by
      rw [hrec]; exact Version.lt_irrefl v
    rw [reportNavMeshChange_recorded s recastMeshVersion v hg hl]
    refine ⟨rfl, ?_, rfl, rfl, rfl, rfl⟩
    intro c hc hwc
    have he : reportedEarlier s.mLastNavMeshReportedChange v = false := by
      rw [hc]; exact Version.not_lt_of_le v c.mNavMeshVersion hwc
    simp only [he, Bool.false_eq_true, if_false]
    exact hc

/-- Witness for the amended C8 on `sampleManager`, where navmesh version
(0, 5) is recorded from revision 1: a report of (0, 4) is ignored, a report of
(0, 5) built from revision 2 replaces the last report and keeps the last
reported change. -/
theorem reportNavMeshChange_earlier_ignored_equal_rerecorded_witness :
    sampleManager.mLastNavMeshReport = some ⟨1, ⟨0, 5⟩⟩ ∧
    Version.le ⟨0, 4⟩ ⟨0, 5⟩ ∧
    reportNavMeshChange sampleManager ⟨0, 2⟩ ⟨0, 4⟩ = sampleManager ∧
    (reportNavMeshChange sampleManager ⟨0, 2⟩ ⟨0, 5⟩).mLastNavMeshReport = some ⟨2, ⟨0, 5⟩⟩ ∧
    (reportNavMeshChange sampleManager ⟨0, 2⟩ ⟨0, 5⟩).mLastNavMeshReportedChange =
      some ⟨1, ⟨0, 5⟩⟩ :=
  ⟨rfl, by decide,
    (reportNavMeshChange_earlier_ignored_equal_rerecorded sampleManager ⟨0, 2⟩ ⟨0, 4⟩ ⟨0, 5⟩ 1
      rfl (by decide)).1 (by decide),
    ((reportNavMeshChange_earlier_ignored_equal_rerecorded sampleManager ⟨0, 2⟩ ⟨0, 5⟩ ⟨0, 5⟩ 1
      rfl (by decide)).2.2 rfl rfl).1,
    ((reportNavMeshChange_earlier_ignored_equal_rerecorded sampleManager ⟨0, 2⟩ ⟨0, 5⟩ ⟨0, 5⟩ 1
      rfl (by decide)).2.2 rfl rfl).2.1 ⟨1, ⟨0, 5⟩⟩ rfl (by decide)⟩

end ReportCorrection

/-! ## The revision counter along a sequence of calls -/

section RevisionTheorems

variable {Settings Bounds Shape Transform AreaType : Type}

theorem perform_revision (update : UpdateRule Bounds Shape Transform AreaType)
    (s : RecastMeshManager Settings Bounds Shape Transform AreaType)
    (call : GeometryCall Shape Transform AreaType) :
    (perform update s call).2.mRevision =
      if (perform update s call).1 then sizeSucc s.mRevision else s.mRevision := by
  cases call with
  | addObject id shape transform areaType =>
    simp only [perform, addObject]
    cases hat : pointsAt (s.mObjects.lowerBound id) id <;> simp [hat]
  | updateObject id transform areaType =>
    simp only [perform, updateObject]
    cases s.mObjects.find id with
    | none => simp
    | some object =>
      cases hacc : (update object transform areaType (lastChangeRevision s) s.mTileBounds).1 <;>
        simp [hacc]
  | removeObject id =>
    simp only [perform]
    cases hf : s.mObjects.find id with
    | none =>
      have hs : removeObject s id = (none, s) := by unfold removeObject; rw [hf]
      simp [hs]
    | some object =>
      have hs : removeObject s id =
          (some ⟨object.mImpl.mShape, object.mImpl.mTransform⟩,
            { s with mObjects := s.mObjects.erase id, mRevision := sizeSucc s.mRevision }) := by
        unfold removeObject; rw [hf]
      simp [hs]
  | addWater cellPosition cellSize transform =>
    simp only [perform, addWater]
    cases hflag : (s.mWater.emplace cellPosition ⟨cellSize, transform⟩).2 <;> simp [hflag]
  | removeWater cellPosition =>
    simp only [perform]
    cases hf : s.mWater.find cellPosition with
    | none =>
      have hs : removeWater s cellPosition = (none, s) := by unfold removeWater; rw [hf]
      simp [hs]
    | some water =>
      have hs : removeWater s cellPosition =
          (some water,
            { s with mRevision := sizeSucc s.mRevision,
                     mWater := s.mWater.erase cellPosition }) := by
        unfold removeWater; rw [hf]
      simp [hs]

theorem performAll_append (update : UpdateRule Bounds Shape Transform AreaType) :
    ∀ (a b : List (GeometryCall Shape Transform AreaType))
      (s : RecastMeshManager Settings Bounds Shape Transform AreaType),
      performAll update s (a ++ b) = performAll update (performAll update s a) b
  | [], _, _ => rfl
  | call :: a, b, s => by
    show performAll update s (call :: (a ++ b)) = _
    simp only [performAll]
    exact performAll_append update a b _

theorem counterOverflows_append (update : UpdateRule Bounds Shape Transform AreaType) :
    ∀ (a b : List (GeometryCall Shape Transform AreaType))
      (s : RecastMeshManager Settings Bounds Shape Transform AreaType),
      counterOverflows update s (a ++ b) =
        (counterOverflows update s a || counterOverflows update (performAll update s a) b)
  | [], _, _ => by simp [counterOverflows, performAll]
  | call :: a, b, s => by
    have ih := counterOverflows_append update a b (perform update s call).2
    show counterOverflows update s (call :: (a ++ b)) = _
    simp only [counterOverflows, performAll, ih, Bool.or_assoc]

theorem perform_revision_of_no_overflow (update : UpdateRule Bounds Shape Transform AreaType)
    (s : RecastMeshManager Settings Bounds Shape Transform AreaType)
    (call : GeometryCall Shape Transform AreaType)
    (rest : List (GeometryCall Shape Transform AreaType))
    (h : counterOverflows update s (call :: rest) = false) :
    (perform update s call).2.mRevision =
      if (perform update s call).1 then s.mRevision + 1 else s.mRevision := by
  rw [perform_revision]
  cases hok : (perform update s call).1
  · simp
  · simp only [if_true]
    simp only [counterOverflows, hok, Bool.true_and, Bool.or_eq_false_iff,
      decide_eq_false_iff_not, not_le] at h
    exact Nat.mod_eq_of_lt h.1

theorem revision_le_performAll (update : UpdateRule Bounds Shape Transform AreaType) :
    ∀ (calls : List (GeometryCall Shape Transform AreaType))
      (s : RecastMeshManager Settings Bounds Shape Transform AreaType),
      counterOverflows update s calls = false →
      s.mRevision ≤ (performAll update s calls).mRevision
  | [], _, _ => Nat.le_refl _
  | call :: rest, s, h => by
    have hstep := perform_revision_of_no_overflow update s call rest h
    have hrest : counterOverflows update (perform update s call).2 rest = false := by
      simp only [counterOverflows, Bool.or_eq_false_iff] at h
      exact h.2
    have ih := revision_le_performAll update rest _ hrest
    simp only [performAll]
    split_ifs at hstep <;> omega

/-- C1: along any sequence of `addObject` / `updateObject` / `removeObject` /
`addWater` / `removeWater` calls during which the revision counter does not
overflow, the revision returned by `getVersion` never decreases from one point
of the sequence to a later one, it is strictly greater after a call than
before it exactly when the call reported success, and a call that fails
leaves it equal. -/
theorem revision_nondecreasing_and_strict_iff_success
    (update : UpdateRule Bounds Shape Transform AreaType)
    (s : RecastMeshManager Settings Bounds Shape Transform AreaType)
    (calls : List (GeometryCall Shape Transform AreaType))
    (h : counterOverflows update s calls = false) :
    (∀ before middle after, calls = before ++ middle ++ after →
      (getVersion (performAll update s before)).mRevision ≤
        (getVersion (performAll update s (before ++ middle))).mRevision) ∧
    (∀ before call after, calls = before ++ call :: after →
      ((getVersion (performAll update s before)).mRevision <
          (getVersion (perform update (performAll update s before) call).2).mRevision ↔
        (perform update (performAll update s before) call).1 = true) ∧
      ((perform update (performAll update s before) call).1 = false →
        (getVersion (perform update (performAll update s before) call).2).mRevision =
          (getVersion (performAll update s before)).mRevision)) := by
  constructor
  · intro before middle after hsplit
    rw [hsplit, List.append_assoc, counterOverflows_append, counterOverflows_append] at h
    simp only [Bool.or_eq_false_iff] at h
    rw [performAll_append]
    exact revision_le_performAll update middle _ h.2.1
  · intro before call after hsplit
    rw [hsplit, counterOverflows_append] at h
    simp only [Bool.or_eq_false_iff] at h
    have hstep := perform_revision_of_no_overflow update _ call after h.2
    simp only [getVersion]
    cases hok : (perform update (performAll update s before) call).1
    · rw [hok] at hstep
      simp only [Bool.false_eq_true, if_false] at hstep
      rw [hstep]
      simp
    · rw [hok] at hstep
      simp only [if_true] at hstep
      rw [hstep]
      simp

/-- Witness for C1 on `sampleManager` and `sampleCalls`: the counter does not
overflow, the revision after all calls is not below the revision before them,
and the second call (a successful `addObject`) strictly raises it while the
first call (a failed `addObject`) leaves it equal. -/
theorem revision_nondecreasing_and_strict_iff_success_witness :
    counterOverflows sampleUpdate sampleManager sampleCalls = false ∧
    (getVersion (performAll sampleUpdate sampleManager [])).mRevision ≤
      (getVersion (performAll sampleUpdate sampleManager ([] ++ sampleCalls))).mRevision ∧
    ((getVersion (performAll sampleUpdate sampleManager [.addObject 7 71 2 4])).mRevision <
        (getVersion (perform sampleUpdate
          (performAll sampleUpdate sampleManager [.addObject 7 71 2 4])
          (.addObject 8 80 2 4)).2).mRevision ↔
      (perform sampleUpdate (performAll sampleUpdate sampleManager [.addObject 7 71 2 4])
        (.addObject 8 80 2 4)).1 = true) ∧
    (getVersion (perform sampleUpdate (performAll sampleUpdate sampleManager [])
        (.addObject 7 71 2 4)).2).mRevision =
      (getVersion (performAll sampleUpdate sampleManager [])).mRevision :=
  ⟨by decide,
    (revision_nondecreasing_and_strict_iff_success sampleUpdate sampleManager sampleCalls
      (by decide)).1 [] sampleCalls [] (by simp),
    ((revision_nondecreasing_and_strict_iff_success sampleUpdate sampleManager sampleCalls
      (by decide)).2 [.addObject 7 71 2 4] (.addObject 8 80 2 4) _ rfl).1,
    ((revision_nondecreasing_and_strict_iff_success sampleUpdate sampleManager sampleCalls
      (by decide)).2 [] (.addObject 7 71 2 4) _ rfl).2 (by decide)⟩

end RevisionTheorems

/-! ## Snapshots, emptiness and the generation -/

section SnapshotTheorems

variable {Settings Bounds Shape Transform AreaType : Type}

/-- C11: `getMesh` is read-only and tags its result with the current version:
it leaves the manager state (objects, water, revision, generation, report
records) as it was, finalises the builder with the generation and revision
that `getVersion` returns at the time of the call, and a second call with no
mutation in between runs the same builder session (same bounds, same calls,
same version). -/
theorem getMesh_read_only_and_tagged_with_version
    (rescale : Bounds → Settings → Bounds)
    (s : RecastMeshManager Settings Bounds Shape Transform AreaType) :
    (getMesh rescale s).2 = s ∧
    (⟨(getMesh rescale s).1.mGeneration, (getMesh rescale s).1.mRevision⟩ : Version) =
      getVersion s ∧
    (getMesh rescale (getMesh rescale s).2).1 = (getMesh rescale s).1 := by
  refine ⟨rfl, rfl, rfl⟩

theorem entries_eq_nil_iff_findEntry_none {K V : Type} [DecidableEq K] (l : List (K × V)) :
    l = [] ↔ ∀ k, findEntry k l = none := by
  constructor
  · intro h k
    rw [h]
    rfl
  · intro h
    cases l with
    | nil => rfl
    | cons e t =>
      have := h e.1
      simp [findEntry] at this

/-- C13: `isEmpty` returns `true` exactly when no object is registered, and
its result does not depend on the water map: replacing the water map by any
other leaves the result as it was. -/
theorem isEmpty_iff_no_object_registered
    (s : RecastMeshManager Settings Bounds Shape Transform AreaType) :
    (isEmpty s = true ↔ ∀ id, s.mObjects.find id = none) ∧
    (isEmpty s = false ↔ ∃ id, s.mObjects.find id ≠ none) ∧
    ∀ water : StdMap Vec2i (Water Transform), isEmpty { s with mWater := water } = isEmpty s := by
  have h1 : isEmpty s = true ↔ ∀ id, s.mObjects.find id = none := by
    unfold isEmpty StdMap.isEmpty StdMap.find
    rw [List.isEmpty_iff]
    exact entries_eq_nil_iff_findEntry_none s.mObjects.entries
  refine ⟨h1, ?_, fun _ => rfl⟩
  rw [← Bool.not_eq_true, h1]
  push_neg
  rfl

/-- Witness for C13: `waterOnlyManager` holds two water planes and no object
and is empty, as is `emptyManager` given that water map; `sampleManager`
holds an object and is not empty. -/
theorem isEmpty_iff_no_object_registered_witness :
    waterOnlyManager.mWater.entries.length = 2 ∧
    isEmpty waterOnlyManager = true ∧
    isEmpty { emptyManager with mWater := waterOnlyManager.mWater } = isEmpty emptyManager ∧
    isEmpty sampleManager = false ∧
    ∃ id, sampleManager.mObjects.find id ≠ none :=
  ⟨by decide, by decide,
    (isEmpty_iff_no_object_registered emptyManager).2.2 waterOnlyManager.mWater,
    by decide,
    (isEmpty_iff_no_object_registered sampleManager).2.1.mp (by decide)⟩

theorem perform_keeps_generation (update : UpdateRule Bounds Shape Transform AreaType)
    (s : RecastMeshManager Settings Bounds Shape Transform AreaType)
    (call : GeometryCall Shape Transform AreaType) :
    (perform update s call).2.mGeneration = s.mGeneration := by
  cases call with
  | addObject id shape transform areaType =>
    simp only [perform, addObject]
    cases hat : pointsAt (s.mObjects.lowerBound id) id <;> simp [hat]
  | updateObject id transform areaType =>
    simp only [perform, updateObject]
    cases s.mObjects.find id with
    | none => simp
    | some object =>
      cases hacc : (update object transform areaType (lastChangeRevision s) s.mTileBounds).1 <;>
        simp [hacc]
  | removeObject id =>
    simp only [perform, removeObject]
    cases hf : s.mObjects.find id <;> simp
  | addWater cellPosition cellSize transform =>
    simp only [perform, addWater]
    cases hflag : (s.mWater.emplace cellPosition ⟨cellSize, transform⟩).2 <;> simp [hflag]
  | removeWater cellPosition =>
    simp only [perform, removeWater]
    cases hf : s.mWater.find cellPosition <;> simp

theorem reportNavMeshChange_keeps_generation
    (s : RecastMeshManager Settings Bounds Shape Transform AreaType)
    (recastMeshVersion navMeshVersion : Version) :
    (reportNavMeshChange s recastMeshVersion navMeshVersion).mGeneration = s.mGeneration := by
  by_cases hg : recastMeshVersion.mGeneration = s.mGeneration
  · cases hl : reportedLater s.mLastNavMeshReport navMeshVersion
    · rw [reportNavMeshChange_recorded s recastMeshVersion navMeshVersion hg hl]
    · unfold reportNavMeshChange
      simp [hg, hl]
  · unfold reportNavMeshChange
    rw [if_pos hg]

theorem applyCalls_keeps_generation (rescale : Bounds → Settings → Bounds)
    (update : UpdateRule Bounds Shape Transform AreaType) :
    ∀ (calls : List (ManagerCall Shape Transform AreaType))
      (s : RecastMeshManager Settings Bounds Shape Transform AreaType),
      (applyCalls rescale update s calls).mGeneration = s.mGeneration
  | [], _ => rfl
  | call :: rest, s => by
    simp only [applyCalls]
    rw [applyCalls_keeps_generation rescale update rest]
    cases call with
    | geometry call => exact perform_keeps_generation update s call
    | getMesh => rfl
    | reportNavMeshChange recastMeshVersion navMeshVersion =>
      exact reportNavMeshChange_keeps_generation s recastMeshVersion navMeshVersion

/-- C14: a manager constructed with generation `g` keeps it for life: after
every sequence of `addObject`, `updateObject`, `removeObject`, `addWater`,
`removeWater`, `getMesh` and `reportNavMeshChange` calls, `getVersion`
returns `g` paired with the current revision. -/
theorem getVersion_generation_constant
    (rescale : Bounds → Settings → Bounds)
    (update : UpdateRule Bounds Shape Transform AreaType)
    (settings : Settings) (bounds : Bounds) (generation initialRevision : Nat)
    (calls : List (ManagerCall Shape Transform AreaType)) :
    getVersion (applyCalls rescale update
        (RecastMeshManager.construct settings bounds generation initialRevision) calls) =
      ⟨generation, (applyCalls rescale update
        (RecastMeshManager.construct settings bounds generation initialRevision) calls).mRevision⟩ ∧
    (getVersion (applyCalls rescale update
        (RecastMeshManager.construct settings bounds generation initialRevision)
        calls)).mGeneration = generation := by
  have h := applyCalls_keeps_generation rescale update calls
    (RecastMeshManager.construct settings bounds generation initialRevision)
  unfold getVersion
  rw [h]
  exact ⟨rfl, rfl⟩

end SnapshotTheorems

/-! ## Insertion order and the builder calls -/

section PlacementTheorems

variable {Settings Bounds Shape Transform AreaType : Type}

theorem mem_insertEntry_of_findEntry_none {K V : Type} [LinearOrder K] (k : K) (v : V) :
    ∀ l : List (K × V), findEntry k l = none →
      ∀ e, e ∈ insertEntry k v l ↔ e = (k, v) ∨ e ∈ l
  | [], _, e => by simp [insertEntry]
  | a :: t, hf, e => by
    unfold findEntry at hf
    by_cases h1 : a.1 = k
    · simp [h1] at hf
    · simp only [h1, if_false] at hf
      have ih := mem_insertEntry_of_findEntry_none k v t hf e
      unfold insertEntry
      by_cases h2 : a.1 < k
      · simp only [h2, if_true, List.mem_cons, ih]
        tauto
      · have h3 : k < a.1 := lt_of_le_of_ne (not_lt.mp h2) (fun h => h1 h.symm)
        simp only [h2, h3, if_true, if_false, List.mem_cons]

theorem ne_of_findEntry_none {K V : Type} [DecidableEq K] (k : K) :
    ∀ l : List (K × V), findEntry k l = none → ∀ e ∈ l, e.1 ≠ k
  | [], _, e, he => by cases he
  | a :: t, h, e, he => by
    unfold findEntry at h
    by_cases h1 : a.1 = k
    · simp [h1] at h
    · simp only [h1, if_false] at h
      rcases List.mem_cons.mp he with he | he
      · rw [he]; exact h1
      · exact ne_of_findEntry_none k t h e he

theorem ascending_ext {K V : Type} [LinearOrder K] (l1 l2 : List (K × V))
    (h1 : Ascending l1) (h2 : Ascending l2) (h : ∀ e, e ∈ l1 ↔ e ∈ l2) : l1 = l2 := by
  haveI : IsAntisymm (K × V) (fun a b => a.1 < b.1) :=
    ⟨fun a b hab hba => absurd (lt_trans hab hba) (lt_irrefl _)⟩
  have nodup : ∀ l : List (K × V), Ascending l → l.Nodup := fun l hl =>
    List.Pairwise.imp (fun {a b} hab heq => by rw [heq] at hab; exact lt_irrefl _ hab) hl
  exact List.eq_of_perm_of_sorted
    ((List.perm_ext_iff_of_nodup (nodup l1 h1) (nodup l2 h2)).mpr h) h1 h2

theorem place_object_of_success
    (s : RecastMeshManager Settings Bounds Shape Transform AreaType)
    (id : ObjectId) (shape : Shape) (transform : Transform) (areaType : AreaType)
    (h : (place s (.object id shape transform areaType)).1 = true) :
    findEntry id s.mObjects.entries = none ∧
    (place s (.object id shape transform areaType)).2.mObjects.entries =
      insertEntry id ⟨⟨shape, transform, areaType⟩, sizeSucc s.mRevision⟩ s.mObjects.entries ∧
    (place s (.object id shape transform areaType)).2.mWater = s.mWater ∧
    (place s (.object id shape transform areaType)).2.mTileBounds = s.mTileBounds ∧
    (place s (.object id shape transform areaType)).2.mSettings = s.mSettings := by
  cases hf : s.mObjects.find id with
  | some object =>
    have hp := pointsAt_lowerBound_of_find_some s.mObjects id object hf
    simp [place, addObject, hp] at h
  | none =>
    have hp := pointsAt_lowerBound_of_find_none s.mObjects id hf
    refine ⟨hf, ?_⟩
    simp [place, addObject, hp, StdMap.emplace]

theorem place_water_of_success
    (s : RecastMeshManager Settings Bounds Shape Transform AreaType)
    (cellPosition : Vec2i) (cellSize : Int) (transform : Transform)
    (h : (place s (.water cellPosition cellSize transform)).1 = true) :
    findEntry cellPosition s.mWater.entries = none ∧
    (place s (.water cellPosition cellSize transform)).2.mWater.entries =
      insertEntry cellPosition ⟨cellSize, transform⟩ s.mWater.entries ∧
    (place s (.water cellPosition cellSize transform)).2.mObjects = s.mObjects ∧
    (place s (.water cellPosition cellSize transform)).2.mTileBounds = s.mTileBounds ∧
    (place s (.water cellPosition cellSize transform)).2.mSettings = s.mSettings := by
  cases hf : findEntry cellPosition s.mWater.entries with
  | some water => simp [place, addWater, StdMap.emplace, hf] at h
  | none => simp [place, addWater, StdMap.emplace, hf]

theorem placeAll_contents :
    ∀ (ps : List (Placement Shape Transform AreaType))
      (s : RecastMeshManager Settings Bounds Shape Transform AreaType),
      placementsSucceed s ps = true →
      (∀ id object, (∃ revision, (id, ⟨object, revision⟩) ∈ (placeAll s ps).mObjects.entries) ↔
        ((∃ revision, (id, ⟨object, revision⟩) ∈ s.mObjects.entries) ∨
          Placement.object id object.mShape object.mTransform object.mAreaType ∈ ps)) ∧
      (∀ cell water, (cell, water) ∈ (placeAll s ps).mWater.entries ↔
        ((cell, water) ∈ s.mWater.entries ∨
          Placement.water cell water.mCellSize water.mTransform ∈ ps)) ∧
      (placeAll s ps).mTileBounds = s.mTileBounds ∧
      (placeAll s ps).mSettings = s.mSettings
  | [], s, _ => by simp [placeAll]
  | p :: rest, s, h => by
    simp only [placementsSucceed, Bool.and_eq_true] at h
    obtain ⟨ihO, ihW, ihB, ihS⟩ := placeAll_contents rest (place s p).2 h.2
    simp only [placeAll]
    cases p with
    | object id shape transform areaType =>
      obtain ⟨hnone, hent, hwater, hb, hs⟩ :=
        place_object_of_success s id shape transform areaType h.1
      refine ⟨?_, ?_, by rw [ihB, hb], by rw [ihS, hs]⟩
      · intro k object
        rw [ihO k object, hent]
        simp only [mem_insertEntry_of_findEntry_none id _ s.mObjects.entries hnone,
          List.mem_cons, Prod.mk.injEq, OscillatingRecastMeshObject.mk.injEq,
          Placement.object.injEq]
        constructor
        · rintro (⟨r, (⟨hk, ho, _⟩ | hmem)⟩ | hrest)
          · right; left
            subst hk; subst ho
            exact ⟨rfl, rfl, rfl, rfl⟩
          · left; exact ⟨r, hmem⟩
          · right; right; exact hrest
        · rintro (⟨r, hmem⟩ | ⟨hk, hsh, htr, har⟩ | hrest)
          · left; exact ⟨r, Or.inr hmem⟩
          · left
            refine ⟨sizeSucc s.mRevision, Or.inl ⟨hk, ?_, rfl⟩⟩
            cases object
            simp only at hsh htr har
            subst hsh; subst htr; subst har
            rfl
          · right; exact hrest
      · intro cell water
        rw [ihW cell water, hwater]
        simp
    | water cellPosition cellSize transform =>
      obtain ⟨hnone, hent, hobjects, hb, hs⟩ :=
        place_water_of_success s cellPosition cellSize transform h.1
      refine ⟨?_, ?_, by rw [ihB, hb], by rw [ihS, hs]⟩
      · intro k object
        rw [ihO k object, hobjects]
        simp
      · intro cell water
        rw [ihW cell water, hent]
        simp only [mem_insertEntry_of_findEntry_none cellPosition _ s.mWater.entries hnone,
          List.mem_cons, Prod.mk.injEq, Placement.water.injEq]
        constructor
        · rintro ((⟨hc, hw⟩ | hmem) | hrest)
          · right; left
            subst hc; subst hw
            exact ⟨rfl, rfl, rfl⟩
          · left; exact hmem
          · right; right; exact hrest
        · rintro (hmem | ⟨hc, hsz, htr⟩ | hrest)
          · left; right; exact hmem
          · left; left
            refine ⟨hc, ?_⟩
            cases water
            simp only at hsz htr
            subst hsz; subst htr
            rfl
          · right; exact hrest

theorem mem_map_impl_iff
    (l : List (ObjectId × OscillatingRecastMeshObject Shape Transform AreaType))
    (id : ObjectId) (object : RecastMeshObject Shape Transform AreaType) :
    (id, object) ∈ l.map (fun e => (e.1, e.2.mImpl)) ↔
      ∃ revision, (id, (⟨object, revision⟩ : OscillatingRecastMeshObject _ _ _)) ∈ l := by
  simp only [List.mem_map, Prod.mk.injEq]
  constructor
  · rintro ⟨⟨k, ⟨impl, revision⟩⟩, hmem, hk, ho⟩
    simp only at hk ho
    subst hk; subst ho
    exact ⟨revision, hmem⟩
  · rintro ⟨revision, hmem⟩
    exact ⟨_, hmem, rfl, rfl⟩

/-- C12: the builder calls of `getMesh` do not depend on insertion order.
Two managers constructed with the same settings and tile bounds and filled by
`addObject` / `addWater` calls that all succeed and are permutations of each
other hand the builder the same bounds and the same sequence of calls: every
water plane in ascending cell order, then every object's shape, transform and
area type in ascending id order, whatever change revisions are stored with
the objects. -/
theorem getMesh_calls_independent_of_insertion_order
    (rescale : Bounds → Settings → Bounds) (settings : Settings) (bounds : Bounds)
    (generation1 revision1 generation2 revision2 : Nat)
    (first second : List (Placement Shape Transform AreaType))
    (hperm : first.Perm second)
    (h1 : placementsSucceed
      (RecastMeshManager.construct settings bounds generation1 revision1) first = true)
    (h2 : placementsSucceed
      (RecastMeshManager.construct settings bounds generation2 revision2) second = true) :
    (getMesh rescale (placeAll
        (RecastMeshManager.construct settings bounds generation1 revision1) first)).1.mBounds =
      (getMesh rescale (placeAll
        (RecastMeshManager.construct settings bounds generation2 revision2) second)).1.mBounds ∧
    (getMesh rescale (placeAll
        (RecastMeshManager.construct settings bounds generation1 revision1) first)).1.mCalls =
      (getMesh rescale (placeAll
        (RecastMeshManager.construct settings bounds generation2 revision2) second)).1.mCalls ∧
    ∃ (water : List (Vec2i × Water Transform))
      (objects : List (ObjectId × RecastMeshObject Shape Transform AreaType)),
      Ascending water ∧ Ascending objects ∧
      (∀ cell w, (cell, w) ∈ water ↔ Placement.water cell w.mCellSize w.mTransform ∈ first) ∧
      (∀ id o, (id, o) ∈ objects ↔
        Placement.object id o.mShape o.mTransform o.mAreaType ∈ first) ∧
      (getMesh rescale (placeAll
          (RecastMeshManager.construct settings bounds generation1 revision1) first)).1.mCalls =
        water.map (fun e => BuilderCall.addWater e.2.mCellSize e.2.mTransform) ++
          objects.map (fun e => BuilderCall.addObject e.2.mShape e.2.mTransform e.2.mAreaType) := by
  obtain ⟨hO1, hW1, hB1, hS1⟩ := placeAll_contents first _ h1
  obtain ⟨hO2, hW2, hB2, hS2⟩ := placeAll_contents second _ h2
  have hwater1 : ∀ cell w, (cell, w) ∈ (placeAll
      (RecastMeshManager.construct settings bounds generation1 revision1) first).mWater.entries ↔
      Placement.water cell w.mCellSize w.mTransform ∈ first := by
    intro cell w
    rw [hW1 cell w]
    simp [RecastMeshManager.construct, StdMap.empty]
  have hwater2 : ∀ cell w, (cell, w) ∈ (placeAll
      (RecastMeshManager.construct settings bounds generation2 revision2) second).mWater.entries ↔
      Placement.water cell w.mCellSize w.mTransform ∈ first := by
    intro cell w
    rw [hW2 cell w, hperm.mem_iff]
    simp [RecastMeshManager.construct, StdMap.empty]
  have hobj1 : ∀ id o, (id, o) ∈ ((placeAll
      (RecastMeshManager.construct settings bounds generation1 revision1)
        first).mObjects.entries.map (fun e => (e.1, e.2.mImpl))) ↔
      Placement.object id o.mShape o.mTransform o.mAreaType ∈ first := by
    intro id o
    rw [mem_map_impl_iff, hO1 id o]
    simp [RecastMeshManager.construct, StdMap.empty]
  have hobj2 : ∀ id o, (id, o) ∈ ((placeAll
      (RecastMeshManager.construct settings bounds generation2 revision2)
        second).mObjects.entries.map (fun e => (e.1, e.2.mImpl))) ↔
      Placement.object id o.mShape o.mTransform o.mAreaType ∈ first := by
    intro id o
    rw [mem_map_impl_iff, hO2 id o, hperm.mem_iff]
    simp [RecastMeshManager.construct, StdMap.empty]
  have hasc : ∀ m : RecastMeshManager Settings Bounds Shape Transform AreaType,
      Ascending (m.mObjects.entries.map (fun e => (e.1, e.2.mImpl))) := fun m =>
    List.Pairwise.map _ (fun _ _ hab => hab) m.mObjects.ascending
  have hcalls : ∀ m : RecastMeshManager Settings Bounds Shape Transform AreaType,
      (getMesh rescale m).1.mCalls =
        m.mWater.entries.map (fun e => BuilderCall.addWater e.2.mCellSize e.2.mTransform) ++
          (m.mObjects.entries.map (fun e => (e.1, e.2.mImpl))).map
            (fun e => BuilderCall.addObject e.2.mShape e.2.mTransform e.2.mAreaType) := by
    intro m
    simp [getMesh, List.map_map, Function.comp_def]
  have hweq := ascending_ext _ _ (StdMap.ascending _) (StdMap.ascending _)
    (fun e => (hwater1 e.1 e.2).trans (hwater2 e.1 e.2).symm)
  have hoeq := ascending_ext _ _ (hasc _) (hasc _)
    (fun e => (hobj1 e.1 e.2).trans (hobj2 e.1 e.2).symm)
  refine ⟨?_, ?_, _, _, StdMap.ascending _, hasc _, hwater1, hobj1, hcalls _⟩
  · simp only [getMesh]
    rw [hB1, hS1, hB2, hS2]
    rfl
  · rw [hcalls, hcalls, hweq, hoeq]

/-- Witness for C12: `samplePlacements` and `samplePlacementsReordered` fill
two managers of different generations; the builder calls agree although the
stored objects (with their change revisions) do not. -/
theorem getMesh_calls_independent_of_insertion_order_witness :
    samplePlacements.Perm samplePlacementsReordered ∧
    placementsSucceed (RecastMeshManager.construct () () 0 0) samplePlacements = true ∧
    placementsSucceed (RecastMeshManager.construct () () 1 5) samplePlacementsReordered = true ∧
    (getMesh (fun b _ => b)
        (placeAll (RecastMeshManager.construct () () 0 0) samplePlacements)).1.mCalls =
      (getMesh (fun b _ => b)
        (placeAll (RecastMeshManager.construct () () 1 5) samplePlacementsReordered)).1.mCalls ∧
    (placeAll (RecastMeshManager.construct () () 0 0) samplePlacements).mObjects.entries ≠
      (placeAll (RecastMeshManager.construct () () 1 5)
        samplePlacementsReordered).mObjects.entries :=
  ⟨by decide, by decide, by decide,
    (getMesh_calls_independent_of_insertion_order (fun b _ => b) () () 0 0 1 5
      samplePlacements samplePlacementsReordered (by decide) (by decide) (by decide)).2.1,
    by decide⟩

end PlacementTheorems

/-! ## `NavMeshTilesCache`: charged size, key comparison, handles -/

section KeyAndHandleTheorems

variable {Probe Owner Agent : Type}

/-- C18: the size charged for an entry by `getSize` is its payload size plus
twice the number of bytes of its key, computed in `std::size_t`; whenever the
payload size is not negative and that sum fits `std::size_t`, it is exactly
the payload size plus twice the key length. -/
theorem getSize_eq_payload_plus_twice_key (item : Item Agent) :
    getSize item =
      (sizeCast item.mNavMeshData.mSize + 2 * item.mNavMeshKey.length) % sizeModulus ∧
    (0 ≤ item.mNavMeshData.mSize →
      item.mNavMeshData.mSize + 2 * (item.mNavMeshKey.length : Int) < (sizeModulus : Int) →
      (getSize item : Int) = item.mNavMeshData.mSize + 2 * (item.mNavMeshKey.length : Int)) := by
  constructor
  · unfold getSize
    rw [Nat.add_mod_mod]
  · intro h0 hfit
    have hM : (0 : Int) < (sizeModulus : Int) := by unfold sizeModulus; norm_num
    have hlen : (0 : Int) ≤ (item.mNavMeshKey.length : Int) := Int.ofNat_nonneg _
    have hsz : item.mNavMeshData.mSize < (sizeModulus : Int) := by omega
    have hcast : (sizeCast item.mNavMeshData.mSize : Int) = item.mNavMeshData.mSize := by
      unfold sizeCast
      rw [Int.emod_eq_of_lt h0 hsz]
      exact Int.toNat_of_nonneg h0
    have hnat : sizeCast item.mNavMeshData.mSize + 2 * item.mNavMeshKey.length < sizeModulus := by
      have : ((sizeCast item.mNavMeshData.mSize + 2 * item.mNavMeshKey.length : Nat) : Int)
          < (sizeModulus : Int) := by
        push_cast
        rw [hcast]
        exact hfit
      exact_mod_cast this
    unfold getSize
    rw [Nat.add_mod_mod, Nat.mod_eq_of_lt hnat]
    push_cast
    rw [hcast]

/-- Witness for C18: a payload of 10 bytes under a key of 2 bytes is charged
14. -/
theorem getSize_eq_payload_plus_twice_key_witness :
    getSize (⟨1, (0 : Nat), ⟨0, 0⟩, [1, 0], ⟨[9, 9, 9, 9, 9, 9, 9, 9, 9, 9], 10⟩⟩ : Item Nat)
      = 14 ∧
    ((getSize (⟨1, (0 : Nat), ⟨0, 0⟩, [1, 0], ⟨[9, 9, 9, 9, 9, 9, 9, 9, 9, 9], 10⟩⟩ : Item Nat)
      : Nat) : Int) = 10 + 2 * ((2 : Nat) : Int) :=
  ⟨by decide,
    (getSize_eq_payload_plus_twice_key
      (⟨1, (0 : Nat), ⟨0, 0⟩, [1, 0], ⟨[9, 9, 9, 9, 9, 9, 9, 9, 9, 9], 10⟩⟩ : Item Nat)).2
      (by decide) (by decide)⟩

theorem memcmp_swap : ∀ (a b : List Nat) (count : Nat), memcmp b a count = - memcmp a b count
  | [], [], _ => by simp [memcmp]
  | [], _ :: _, _ => by simp [memcmp]
  | _ :: _, [], _ => by simp [memcmp]
  | _ :: _, _ :: _, 0 => by simp [memcmp]
  | x :: a, y :: b, count + 1 => by
    simp only [memcmp]
    by_cases h : x = y
    · have h2 : y = x := h.symm
      simp only [h, if_true]
      exact memcmp_swap a b count
    · have h2 : ¬ y = x := fun e => h e.symm
      simp only [h, h2, if_false]
      omega

theorem compareBytes_swap_neg_iff_pos (a b : List Nat) :
    compareBytes a b < 0 ↔ compareBytes b a > 0 := by
  have hm : memcmp b a (min b.length a.length) = - memcmp a b (min a.length b.length) := by
    rw [Nat.min_comm b.length a.length]
    exact memcmp_swap a b _
  unfold compareBytes
  simp only [hm]
  generalize memcmp a b (min a.length b.length) = r
  split_ifs <;> omega

/-- C19: a probe whose `compare` has, on every byte sequence, the sign of the
byte comparison of its serialized key `k` orders against every stored key `s`
as `KeyView(k)` does, on either side of `operator<`; an ordered-map lookup
with the probe therefore returns the entry that a lookup with the
materialized key returns. -/
theorem probe_orders_as_serialized_key
    (probeCompare : Probe → List Nat → Int) (probe : Probe) (k : List Nat)
    (hsign : ∀ x, Int.sign (probeCompare probe x) = Int.sign (compareBytes k x)) :
    (∀ s, KeyView.less probeCompare (.recastMesh probe) (.stored s) =
      KeyView.less probeCompare (.stored k) (.stored s)) ∧
    (∀ s, KeyView.less probeCompare (.stored s) (.recastMesh probe) =
      KeyView.less probeCompare (.stored s) (.stored k)) ∧
    (∀ entries, TileMap.find probeCompare (.recastMesh probe) entries =
      TileMap.find probeCompare (.stored k) entries) := by
  have hneg : ∀ x, probeCompare probe x < 0 ↔ compareBytes k x < 0 := by
    intro x
    rw [← Int.sign_eq_neg_one_iff_neg, ← Int.sign_eq_neg_one_iff_neg, hsign x]
  have hpos : ∀ x, probeCompare probe x > 0 ↔ compareBytes k x > 0 := by
    intro x
    show 0 < probeCompare probe x ↔ 0 < compareBytes k x
    rw [← Int.sign_eq_one_iff_pos, ← Int.sign_eq_one_iff_pos, hsign x]
  have h1 : ∀ s, KeyView.less probeCompare (.recastMesh probe) (.stored s) =
      KeyView.less probeCompare (.stored k) (.stored s) := by
    intro s
    simp only [KeyView.less, KeyView.isLess, KeyView.getValue, KeyView.compare, Option.map_some']
    congr 1
    rw [decide_eq_decide, hneg s]
    exact compareBytes_swap_neg_iff_pos k s
  have h2 : ∀ s, KeyView.less probeCompare (.stored s) (.recastMesh probe) =
      KeyView.less probeCompare (.stored s) (.stored k) := by
    intro s
    simp only [KeyView.less, KeyView.isLess, KeyView.compare]
    congr 1
    rw [decide_eq_decide]
    exact hpos s
  refine ⟨h1, h2, ?_⟩
  intro entries
  induction entries with
  | nil => rfl
  | cons entry rest ih =>
    simp only [TileMap.find, h1 entry.1, h2 entry.1, ih]

/-- Witness for C19 with `sampleProbeCompare`: the probe `[1, 2]` is less than
the stored key `[1, 3]`, and a lookup among three stored keys finds the entry
of `[1, 2]`. -/
theorem probe_orders_as_serialized_key_witness :
    (∀ x, Int.sign (sampleProbeCompare [1, 2] x) = Int.sign (compareBytes [1, 2] x)) ∧
    KeyView.less sampleProbeCompare (.recastMesh [1, 2]) (.stored [1, 3]) =
      KeyView.less sampleProbeCompare (.stored [1, 2]) (.stored [1, 3]) ∧
    KeyView.less sampleProbeCompare (.stored [1, 3]) (.recastMesh [1, 2]) =
      KeyView.less sampleProbeCompare (.stored [1, 3]) (.stored [1, 2]) ∧
    TileMap.find sampleProbeCompare (.recastMesh [1, 2])
        [([1], some 4), ([1, 2], some 5), ([1, 3], some 6)] =
      TileMap.find sampleProbeCompare (.stored [1, 2])
        [([1], some 4), ([1, 2], some 5), ([1, 3], some 6)] :=
  ⟨fun x => by simp [sampleProbeCompare, Int.sign_mul, (by decide : Int.sign 2 = 1)],
    (probe_orders_as_serialized_key sampleProbeCompare [1, 2] [1, 2]
      (fun x => by simp [sampleProbeCompare, Int.sign_mul, (by decide : Int.sign 2 = 1)])).1 [1, 3],
    (probe_orders_as_serialized_key sampleProbeCompare [1, 2] [1, 2]
      (fun x => by simp [sampleProbeCompare, Int.sign_mul, (by decide : Int.sign 2 = 1)])).2.1 [1, 3],
    (probe_orders_as_serialized_key sampleProbeCompare [1, 2] [1, 2]
      (fun x => by simp [sampleProbeCompare, Int.sign_mul, (by decide : Int.sign 2 = 1)])).2.2 _⟩

/-- C20: a default-constructed handle owns nothing: it converts to `false`,
its destructor makes no `releaseItem` call, and move-assigning any handle
over it makes no `releaseItem` call either; a handle constructed from an
owner and an iterator converts to `true`. -/
theorem default_handle_owns_nothing (owner : Owner) (iterator : ItemIterator)
    (other : Value Owner) :
    (Value.empty : Value Owner).toBool = false ∧
    (Value.empty : Value Owner).destroy = [] ∧
    ((Value.empty : Value Owner).moveAssign other).1 = [] ∧
    (Value.make owner iterator).toBool = true := by
  refine ⟨rfl, rfl, rfl, rfl⟩

end KeyAndHandleTheorems

/-! ## `NavMeshTilesCache`: accounting and eviction -/

section CacheListLemmas

variable {Agent : Type}

theorem chargedSize_append (l1 l2 : List (Nat × Item Agent)) :
    chargedSize (l1 ++ l2) = chargedSize l1 + chargedSize l2 := by
  simp [chargedSize]

theorem chargedSize_eraseEntry (n : Nat) (item : Item Agent) :
    ∀ l : List (Nat × Item Agent), findEntry n l = some item →
      chargedSize (eraseEntry n l) + getSize item = chargedSize l
  | [], h => by simp [findEntry] at h
  | e :: t, h => by
    unfold findEntry at h
    unfold eraseEntry
    by_cases h1 : e.1 = n
    · simp only [h1, if_true, Option.some.injEq] at h
      simp only [h1, if_true]
      simp [chargedSize, h]
      omega
    · simp only [h1, if_false] at h
      simp only [h1, if_false]
      have ih := chargedSize_eraseEntry n item t h
      simp only [chargedSize, List.map_cons, List.sum_cons] at ih ⊢
      omega

theorem chargedSize_assignEntry (n : Nat) (item item' : Item Agent)
    (hsize : getSize item' = getSize item) :
    ∀ l : List (Nat × Item Agent), findEntry n l = some item →
      chargedSize (assignEntry n item' l) = chargedSize l
  | [], h => by simp [findEntry] at h
  | e :: t, h => by
    unfold findEntry at h
    unfold assignEntry
    by_cases h1 : e.1 = n
    · simp only [h1, if_true, Option.some.injEq] at h
      simp only [h1, if_true]
      simp [chargedSize, h, hsize]
    · simp only [h1, if_false] at h
      simp only [h1, if_false]
      have ih := chargedSize_assignEntry n item item' hsize t h
      simp only [chargedSize, List.map_cons, List.sum_cons] at ih ⊢
      omega

theorem mem_of_mem_eraseEntry {K V : Type} [DecidableEq K] (k : K) :
    ∀ (l : List (K × V)) (e : K × V), e ∈ eraseEntry k l → e ∈ l
  | [], e, h => by simp [eraseEntry] at h
  | a :: t, e, h => by
    unfold eraseEntry at h
    by_cases h1 : a.1 = k
    · simp only [h1, if_true] at h
      exact List.mem_cons_of_mem _ h
    · simp only [h1, if_false, List.mem_cons] at h
      rcases h with h | h
      · rw [h]; exact List.mem_cons_self _ _
      · exact List.mem_cons_of_mem _ (mem_of_mem_eraseEntry k t e h)

theorem mem_assignEntry {K V : Type} [DecidableEq K] (k : K) (v : V) :
    ∀ (l : List (K × V)) (e : K × V), e ∈ assignEntry k v l → e ∈ l ∨ e = (k, v)
  | [], e, h => by simp [assignEntry] at h
  | a :: t, e, h => by
    unfold assignEntry at h
    by_cases h1 : a.1 = k
    · simp only [h1, if_true, List.mem_cons] at h
      rcases h with h | h
      · right; exact h
      · left; exact List.mem_cons_of_mem _ h
    · simp only [h1, if_false, List.mem_cons] at h
      rcases h with h | h
      · left; rw [h]; exact List.mem_cons_self _ _
      · rcases mem_assignEntry k v t e h with h2 | h2
        · left; exact List.mem_cons_of_mem _ h2
        · right; exact h2

theorem mem_of_findEntry_some {K V : Type} [DecidableEq K] (k : K) (v : V) :
    ∀ l : List (K × V), findEntry k l = some v → (k, v) ∈ l
  | [], h => by simp [findEntry] at h
  | a :: t, h => by
    unfold findEntry at h
    by_cases h1 : a.1 = k
    · simp only [h1, if_true, Option.some.injEq] at h
      have : a = (k, v) := by rw [← h1, ← h]
      rw [this]
      exact List.mem_cons_self _ _
    · simp only [h1, if_false] at h
      exact List.mem_cons_of_mem _ (mem_of_findEntry_some k v t h)

theorem getSize_with_useCount (item : Item Agent) (count : Int) :
    getSize { item with mUseCount := count } = getSize item := rfl

theorem acquireItemUnsafe_busy (c : NavMeshTilesCache Agent) (node : Nat) (item : Item Agent)
    (hb : findEntry node c.mBusyItems = some item) :
    acquireItemUnsafe c (some node) =
      { c with mBusyItems :=
          assignEntry node { item with mUseCount := item.mUseCount + 1 } c.mBusyItems } := by
  simp only [acquireItemUnsafe, hb]

theorem acquireItemUnsafe_free (c : NavMeshTilesCache Agent) (node : Nat) (item : Item Agent)
    (hb : findEntry node c.mBusyItems = none) (hf : findEntry node c.mFreeItems = some item) :
    acquireItemUnsafe c (some node) =
      { c with
        mFreeItems := eraseEntry node c.mFreeItems,
        mBusyItems := c.mBusyItems ++ [(node, { item with mUseCount := item.mUseCount + 1 })],
        mFreeNavMeshDataSize := c.mFreeNavMeshDataSize - getSize item } := by
  simp only [acquireItemUnsafe, hb, hf]

theorem acquireItemUnsafe_absent (c : NavMeshTilesCache Agent) (node : Nat)
    (hb : findEntry node c.mBusyItems = none) (hf : findEntry node c.mFreeItems = none) :
    acquireItemUnsafe c (some node) = c := by
  simp only [acquireItemUnsafe, hb, hf]

theorem releaseItem_absent (c : NavMeshTilesCache Agent) (node : Nat)
    (hb : findEntry node c.mBusyItems = none) : releaseItem c (some node) = c := by
  simp only [releaseItem, hb]

theorem releaseItem_last (c : NavMeshTilesCache Agent) (node : Nat) (item : Item Agent)
    (hb : findEntry node c.mBusyItems = some item) (hz : item.mUseCount - 1 = 0) :
    releaseItem c (some node) =
      { c with
        mBusyItems := eraseEntry node c.mBusyItems,
        mFreeItems := c.mFreeItems ++ [(node, { item with mUseCount := item.mUseCount - 1 })],
        mFreeNavMeshDataSize := c.mFreeNavMeshDataSize + getSize item } := by
  simp only [releaseItem, hb, hz, if_true]

theorem releaseItem_shared (c : NavMeshTilesCache Agent) (node : Nat) (item : Item Agent)
    (hb : findEntry node c.mBusyItems = some item) (hz : ¬ item.mUseCount - 1 = 0) :
    releaseItem c (some node) =
      { c with mBusyItems :=
          assignEntry node { item with mUseCount := item.mUseCount - 1 } c.mBusyItems } := by
  simp only [releaseItem, hb, hz, if_false]

theorem acquireItemUnsafe_keeps_max (c : NavMeshTilesCache Agent) (it : ItemIterator) :
    (acquireItemUnsafe c it).mMaxNavMeshDataSize = c.mMaxNavMeshDataSize := by
  cases it with
  | none => rfl
  | some node =>
    cases hb : findEntry node c.mBusyItems with
    | some item => rw [acquireItemUnsafe_busy c node item hb]
    | none =>
      cases hf : findEntry node c.mFreeItems with
      | some item => rw [acquireItemUnsafe_free c node item hb hf]
      | none => rw [acquireItemUnsafe_absent c node hb hf]

theorem cacheInvariant_acquireItemUnsafe (c : NavMeshTilesCache Agent) (it : ItemIterator)
    (h : CacheInvariant c) : CacheInvariant (acquireItemUnsafe c it) := by
  obtain ⟨hused, hmax, hbusy, hfree⟩ := h
  cases it with
  | none => exact ⟨hused, hmax, hbusy, hfree⟩
  | some node =>
    cases hb : findEntry node c.mBusyItems with
    | some item =>
      rw [acquireItemUnsafe_busy c node item hb]
      refine ⟨?_, hmax, ?_, hfree⟩
      · show c.mUsedNavMeshDataSize = chargedSize _ + chargedSize c.mFreeItems
        rw [chargedSize_assignEntry node item _ (getSize_with_useCount item _) _ hb]
        exact hused
      · intro e he
        rcases mem_assignEntry node _ _ e he with h1 | h1
        · exact hbusy e h1
        · rw [h1]
          have := hbusy _ (mem_of_findEntry_some node item _ hb)
          show 1 ≤ item.mUseCount + 1
          simp only at this
          omega
    | none =>
      cases hf : findEntry node c.mFreeItems with
      | none =>
        rw [acquireItemUnsafe_absent c node hb hf]
        exact ⟨hused, hmax, hbusy, hfree⟩
      | some item =>
        rw [acquireItemUnsafe_free c node item hb hf]
        refine ⟨?_, hmax, ?_, ?_⟩
        · show c.mUsedNavMeshDataSize =
            chargedSize (c.mBusyItems ++ [_]) + chargedSize (eraseEntry node c.mFreeItems)
          have h1 := chargedSize_eraseEntry node item _ hf
          rw [chargedSize_append]
          have h2 : chargedSize [(node, { item with mUseCount := item.mUseCount + 1 })] =
              getSize item := by simp [chargedSize, getSize_with_useCount]
          rw [h2, hused]
          show chargedSize c.mBusyItems + chargedSize c.mFreeItems = _
          omega
        · intro e he
          show 1 ≤ e.2.mUseCount
          rcases List.mem_append.mp he with h1 | h1
          · exact hbusy e h1
          · rw [List.mem_singleton.mp h1]
            have := hfree _ (mem_of_findEntry_some node item _ hf)
            show 1 ≤ item.mUseCount + 1
            simp only at this
            omega
        · intro e he
          exact hfree e (mem_of_mem_eraseEntry node _ e he)

theorem releaseItem_keeps_max (c : NavMeshTilesCache Agent) (it : ItemIterator) :
    (releaseItem c it).mMaxNavMeshDataSize = c.mMaxNavMeshDataSize := by
  cases it with
  | none => rfl
  | some node =>
    cases hb : findEntry node c.mBusyItems with
    | none => rw [releaseItem_absent c node hb]
    | some item =>
      by_cases hz : item.mUseCount - 1 = 0
      · rw [releaseItem_last c node item hb hz]
      · rw [releaseItem_shared c node item hb hz]

theorem cacheInvariant_releaseItem (c : NavMeshTilesCache Agent) (it : ItemIterator)
    (h : CacheInvariant c) : CacheInvariant (releaseItem c it) := by
  obtain ⟨hused, hmax, hbusy, hfree⟩ := h
  cases it with
  | none => exact ⟨hused, hmax, hbusy, hfree⟩
  | some node =>
    cases hb : findEntry node c.mBusyItems with
    | none =>
      rw [releaseItem_absent c node hb]
      exact ⟨hused, hmax, hbusy, hfree⟩
    | some item =>
      by_cases hz : item.mUseCount - 1 = 0
      · rw [releaseItem_last c node item hb hz]
        refine ⟨?_, hmax, ?_, ?_⟩
        · show c.mUsedNavMeshDataSize =
            chargedSize (eraseEntry node c.mBusyItems) + chargedSize (c.mFreeItems ++ [_])
          have h1 := chargedSize_eraseEntry node item _ hb
          rw [chargedSize_append]
          have h2 : chargedSize [(node, { item with mUseCount := item.mUseCount - 1 })] =
              getSize item := by simp [chargedSize, getSize_with_useCount]
          rw [h2, hused]
          show chargedSize c.mBusyItems + chargedSize c.mFreeItems = _
          omega
        · intro e he
          exact hbusy e (mem_of_mem_eraseEntry node _ e he)
        · intro e he
          rcases List.mem_append.mp he with h1 | h1
          · exact hfree e h1
          · rw [List.mem_singleton.mp h1]
            exact hz
      · rw [releaseItem_shared c node item hb hz]
        refine ⟨?_, hmax, ?_, hfree⟩
        · show c.mUsedNavMeshDataSize = chargedSize _ + chargedSize c.mFreeItems
          rw [chargedSize_assignEntry node item _ (getSize_with_useCount item _) _ hb]
          exact hused
        · intro e he
          rcases mem_assignEntry node _ _ e he with h1 | h1
          · exact hbusy e h1
          · rw [h1]
            have := hbusy _ (mem_of_findEntry_some node item _ hb)
            show 1 ≤ item.mUseCount - 1
            simp only at this
            omega

theorem cacheInvariant_removeLeastRecentlyUsed (c : NavMeshTilesCache Agent)
    (h : CacheInvariant c) : CacheInvariant (removeLeastRecentlyUsed c) := by
  obtain ⟨hused, hmax, hbusy, hfree⟩ := h
  unfold removeLeastRecentlyUsed
  cases hf : c.mFreeItems with
  | nil =>
    simp only
    exact ⟨hused, hmax, hbusy, hfree⟩
  | cons e rest =>
    simp only
    have htotal : c.totalSize = chargedSize c.mBusyItems + (getSize e.2 + chargedSize rest) := by
      unfold NavMeshTilesCache.totalSize
      rw [hf]
      simp [chargedSize]
    refine ⟨?_, ?_, hbusy, ?_⟩
    · show c.mUsedNavMeshDataSize - getSize e.2 = chargedSize c.mBusyItems + chargedSize rest
      omega
    · show c.mUsedNavMeshDataSize - getSize e.2 ≤ c.mMaxNavMeshDataSize
      omega
    · intro x hx
      exact hfree x (by rw [hf]; exact List.mem_cons_of_mem _ hx)

theorem evictLoop_frame (itemSize : Nat) :
    ∀ (fuel : Nat) (c : NavMeshTilesCache Agent),
      (evictLoop itemSize fuel c).mBusyItems = c.mBusyItems ∧
      (evictLoop itemSize fuel c).mMaxNavMeshDataSize = c.mMaxNavMeshDataSize ∧
      ∃ evicted, c.mFreeItems = evicted ++ (evictLoop itemSize fuel c).mFreeItems
  | 0, c => ⟨rfl, rfl, [], rfl⟩
  | fuel + 1, c => by
    unfold evictLoop
    by_cases hc : c.mFreeItems.isEmpty = false ∧
        c.mUsedNavMeshDataSize + itemSize > c.mMaxNavMeshDataSize
    · rw [if_pos hc]
      obtain ⟨hb, hm, evicted, he⟩ := evictLoop_frame itemSize fuel (removeLeastRecentlyUsed c)
      cases hf : c.mFreeItems with
      | nil => rw [hf] at hc; simp at hc
      | cons e rest =>
        have hr : removeLeastRecentlyUsed c =
            { c with
              mFreeItems := rest,
              mUsedNavMeshDataSize := c.mUsedNavMeshDataSize - getSize e.2,
              mFreeNavMeshDataSize := c.mFreeNavMeshDataSize - getSize e.2 } := by
          simp only [removeLeastRecentlyUsed, hf]
        rw [hr] at hb hm he ⊢
        refine ⟨hb, hm, e :: evicted, ?_⟩
        exact congrArg (List.cons e) he
    · rw [if_neg hc]
      exact ⟨rfl, rfl, [], rfl⟩

theorem cacheInvariant_evictLoop (itemSize : Nat) :
    ∀ (fuel : Nat) (c : NavMeshTilesCache Agent),
      CacheInvariant c → CacheInvariant (evictLoop itemSize fuel c)
  | 0, _, h => h
  | fuel + 1, c, h => by
    unfold evictLoop
    split_ifs
    · exact cacheInvariant_evictLoop itemSize fuel _ (cacheInvariant_removeLeastRecentlyUsed c h)
    · exact h

theorem evictLoop_done (itemSize : Nat) :
    ∀ (fuel : Nat) (c : NavMeshTilesCache Agent), c.mFreeItems.length ≤ fuel →
      (evictLoop itemSize fuel c).mFreeItems = [] ∨
      (evictLoop itemSize fuel c).mUsedNavMeshDataSize + itemSize ≤
        (evictLoop itemSize fuel c).mMaxNavMeshDataSize
  | 0, c, h => by
    left
    show c.mFreeItems = []
    exact List.length_eq_zero.mp (Nat.le_zero.mp h)
  | fuel + 1, c, h => by
    unfold evictLoop
    by_cases hc : c.mFreeItems.isEmpty = false ∧
        c.mUsedNavMeshDataSize + itemSize > c.mMaxNavMeshDataSize
    · rw [if_pos hc]
      apply evictLoop_done itemSize fuel
      cases hf : c.mFreeItems with
      | nil => rw [hf] at hc; simp at hc
      | cons e rest =>
        rw [hf] at h
        simp only [removeLeastRecentlyUsed, hf]
        simp only [List.length_cons] at h
        omega
    · rw [if_neg hc]
      cases hn : c.mFreeItems with
      | nil => left; rfl
      | cons e rest =>
        right
        have : ¬ (c.mUsedNavMeshDataSize + itemSize > c.mMaxNavMeshDataSize) :=
          fun hgt => hc ⟨by rw [hn]; rfl, hgt⟩
        omega

theorem cacheInvariant_create (maxNavMeshDataSize : Nat) :
    CacheInvariant (NavMeshTilesCache.create maxNavMeshDataSize : NavMeshTilesCache Agent) := by
  refine ⟨rfl, Nat.zero_le _, ?_, ?_⟩ <;> intro e he <;> cases he

end CacheListLemmas

section CacheLemmas

variable {Owner Agent Mesh Connections : Type} [DecidableEq Agent]

omit [DecidableEq Agent] in
theorem set_rejected (self : Owner) (makeNavMeshKey : Mesh → Connections → List Nat)
    (c : NavMeshTilesCache Agent) (agent : Agent) (tile : Vec2i) (mesh : Mesh)
    (connections : Connections) (value : NavMeshData)
    (hfull : (makeRoom (getSize (⟨1, agent, tile, makeNavMeshKey mesh connections, value⟩ :
        Item Agent)) c).mUsedNavMeshDataSize +
        getSize (⟨1, agent, tile, makeNavMeshKey mesh connections, value⟩ : Item Agent) >
      (makeRoom (getSize (⟨1, agent, tile, makeNavMeshKey mesh connections, value⟩ :
        Item Agent)) c).mMaxNavMeshDataSize) :
    NavMeshTilesCache.set self makeNavMeshKey c agent tile mesh connections value =
      (Value.empty,
        makeRoom (getSize (⟨1, agent, tile, makeNavMeshKey mesh connections, value⟩ :
          Item Agent)) c) := by
  simp only [NavMeshTilesCache.set, hfull, if_true]

omit [DecidableEq Agent] in
theorem set_inserted (self : Owner) (makeNavMeshKey : Mesh → Connections → List Nat)
    (c : NavMeshTilesCache Agent) (agent : Agent) (tile : Vec2i) (mesh : Mesh)
    (connections : Connections) (value : NavMeshData)
    (hfits : ¬ ((makeRoom (getSize (⟨1, agent, tile, makeNavMeshKey mesh connections, value⟩ :
        Item Agent)) c).mUsedNavMeshDataSize +
        getSize (⟨1, agent, tile, makeNavMeshKey mesh connections, value⟩ : Item Agent) >
      (makeRoom (getSize (⟨1, agent, tile, makeNavMeshKey mesh connections, value⟩ :
        Item Agent)) c).mMaxNavMeshDataSize)) :
    NavMeshTilesCache.set self makeNavMeshKey c agent tile mesh connections value =
      (Value.make self (some (makeRoom (getSize (⟨1, agent, tile,
          makeNavMeshKey mesh connections, value⟩ : Item Agent)) c).freshNode),
        { makeRoom (getSize (⟨1, agent, tile, makeNavMeshKey mesh connections, value⟩ :
            Item Agent)) c with
          mBusyItems :=
            (makeRoom (getSize (⟨1, agent, tile, makeNavMeshKey mesh connections, value⟩ :
              Item Agent)) c).mBusyItems ++
            [((makeRoom (getSize (⟨1, agent, tile, makeNavMeshKey mesh connections, value⟩ :
              Item Agent)) c).freshNode,
              ⟨1, agent, tile, makeNavMeshKey mesh connections, value⟩)],
          mUsedNavMeshDataSize :=
            (makeRoom (getSize (⟨1, agent, tile, makeNavMeshKey mesh connections, value⟩ :
              Item Agent)) c).mUsedNavMeshDataSize +
            getSize (⟨1, agent, tile, makeNavMeshKey mesh connections, value⟩ : Item Agent) }) := by
  simp only [NavMeshTilesCache.set, hfits, if_false]

omit [DecidableEq Agent] in
theorem cacheInvariant_set (self : Owner) (makeNavMeshKey : Mesh → Connections → List Nat)
    (c : NavMeshTilesCache Agent) (agent : Agent) (tile : Vec2i) (mesh : Mesh)
    (connections : Connections) (value : NavMeshData) (h : CacheInvariant c) :
    CacheInvariant
        (NavMeshTilesCache.set self makeNavMeshKey c agent tile mesh connections value).2 ∧
    (NavMeshTilesCache.set self makeNavMeshKey c agent tile mesh connections
      value).2.mMaxNavMeshDataSize = c.mMaxNavMeshDataSize := by
  have hroom := cacheInvariant_evictLoop
    (getSize (⟨1, agent, tile, makeNavMeshKey mesh connections, value⟩ : Item Agent))
    c.mFreeItems.length c h
  have hframe := evictLoop_frame
    (getSize (⟨1, agent, tile, makeNavMeshKey mesh connections, value⟩ : Item Agent))
    c.mFreeItems.length c
  by_cases hfull : (makeRoom (getSize (⟨1, agent, tile, makeNavMeshKey mesh connections,
      value⟩ : Item Agent)) c).mUsedNavMeshDataSize +
      getSize (⟨1, agent, tile, makeNavMeshKey mesh connections, value⟩ : Item Agent) >
    (makeRoom (getSize (⟨1, agent, tile, makeNavMeshKey mesh connections, value⟩ :
      Item Agent)) c).mMaxNavMeshDataSize
  · rw [set_rejected self makeNavMeshKey c agent tile mesh connections value hfull]
    exact ⟨hroom, hframe.2.1⟩
  · rw [set_inserted self makeNavMeshKey c agent tile mesh connections value hfull]
    refine ⟨?_, hframe.2.1⟩
    obtain ⟨hused, hmax, hbusy, hfree⟩ := hroom
    refine ⟨?_, ?_, ?_, hfree⟩
    · show (makeRoom _ c).mUsedNavMeshDataSize + _ =
        chargedSize ((makeRoom _ c).mBusyItems ++ [_]) + chargedSize (makeRoom _ c).mFreeItems
      rw [chargedSize_append]
      have hused' : (makeRoom (getSize (⟨1, agent, tile, makeNavMeshKey mesh connections,
          value⟩ : Item Agent)) c).mUsedNavMeshDataSize =
          chargedSize (makeRoom _ c).mBusyItems + chargedSize (makeRoom _ c).mFreeItems := hused
      rw [hused']
      simp [chargedSize]
      omega
    · show (makeRoom _ c).mUsedNavMeshDataSize + _ ≤ (makeRoom _ c).mMaxNavMeshDataSize
      omega
    · intro e he
      rcases List.mem_append.mp he with h1 | h1
      · exact hbusy e h1
      · rw [List.mem_singleton.mp h1]

theorem cacheInvariant_get (self : Owner) (makeNavMeshKey : Mesh → Connections → List Nat)
    (c : NavMeshTilesCache Agent) (agent : Agent) (tile : Vec2i) (mesh : Mesh)
    (connections : Connections) (h : CacheInvariant c) :
    CacheInvariant (NavMeshTilesCache.get self makeNavMeshKey c agent tile mesh connections).2 ∧
    (NavMeshTilesCache.get self makeNavMeshKey c agent tile mesh
      connections).2.mMaxNavMeshDataSize = c.mMaxNavMeshDataSize := by
  unfold NavMeshTilesCache.get
  cases c.lookup agent tile (makeNavMeshKey mesh connections) with
  | none => exact ⟨h, rfl⟩
  | some node =>
    exact ⟨cacheInvariant_acquireItemUnsafe c _ h, acquireItemUnsafe_keeps_max c _⟩

theorem cacheInvariant_step (self : Owner) (makeNavMeshKey : Mesh → Connections → List Nat)
    (σ : CacheSession Owner Agent) (call : CacheCall Agent Mesh Connections)
    (h : CacheInvariant σ.cache) :
    CacheInvariant (σ.step self makeNavMeshKey call).cache ∧
    (σ.step self makeNavMeshKey call).cache.mMaxNavMeshDataSize =
      σ.cache.mMaxNavMeshDataSize := by
  cases call with
  | get agent tile mesh connections =>
    exact cacheInvariant_get self makeNavMeshKey σ.cache agent tile mesh connections h
  | set agent tile mesh connections value =>
    exact cacheInvariant_set self makeNavMeshKey σ.cache agent tile mesh connections value h
  | release handle =>
    simp only [CacheSession.step]
    cases σ.handles.get? handle with
    | none => exact ⟨h, rfl⟩
    | some v =>
      simp only [Value.destroy, applyReleases]
      cases v.mOwner with
      | none => exact ⟨h, rfl⟩
      | some owner =>
        exact ⟨cacheInvariant_releaseItem σ.cache _ h, releaseItem_keeps_max σ.cache _⟩

theorem cacheInvariant_run (self : Owner) (makeNavMeshKey : Mesh → Connections → List Nat) :
    ∀ (calls : List (CacheCall Agent Mesh Connections)) (σ : CacheSession Owner Agent),
      CacheInvariant σ.cache →
      CacheInvariant (σ.run self makeNavMeshKey calls).cache ∧
      (σ.run self makeNavMeshKey calls).cache.mMaxNavMeshDataSize =
        σ.cache.mMaxNavMeshDataSize
  | [], _, h => ⟨h, rfl⟩
  | call :: rest, σ, h => by
    obtain ⟨h1, h2⟩ := cacheInvariant_step self makeNavMeshKey σ call h
    obtain ⟨h3, h4⟩ := cacheInvariant_run self makeNavMeshKey rest _ h1
    exact ⟨h3, by rw [← h2, ← h4]; rfl⟩

end CacheLemmas

section CacheTheorems

variable {Owner Agent Mesh Connections : Type} [DecidableEq Agent]

theorem cacheInvariant_reachedCache (self : Owner)
    (makeNavMeshKey : Mesh → Connections → List Nat) (maxNavMeshDataSize : Nat)
    (calls : List (CacheCall Agent Mesh Connections)) :
    CacheInvariant (reachedCache self makeNavMeshKey maxNavMeshDataSize calls) ∧
    (reachedCache self makeNavMeshKey maxNavMeshDataSize calls).mMaxNavMeshDataSize =
      maxNavMeshDataSize :=
  cacheInvariant_run self makeNavMeshKey calls
    (⟨NavMeshTilesCache.create maxNavMeshDataSize, []⟩ : CacheSession Owner Agent)
    (cacheInvariant_create maxNavMeshDataSize)

theorem eraseEntry_sublist {K V : Type} [DecidableEq K] (k : K) :
    ∀ l : List (K × V), (eraseEntry k l).Sublist l
  | [] => List.Sublist.slnil
  | a :: t => by
    unfold eraseEntry
    by_cases h1 : a.1 = k
    · rw [if_pos h1]
      exact List.sublist_cons_self a t
    · rw [if_neg h1]
      exact (eraseEntry_sublist k t).cons₂ a

/-- C15: in every state reachable from an empty cache with maximum `M` by
`get`, `set` and handle releases, the charged sizes (`getSize`) of all live
entries, Busy and Free, sum to at most `M`. A `set` whose entry would exceed
`M` even with every Free entry evicted returns an empty handle and inserts
nothing; a `set` of a triple that is not cached and fits once the Free
entries are evicted returns a non-empty handle. -/
theorem cache_total_charged_size_le_max (self : Owner)
    (makeNavMeshKey : Mesh → Connections → List Nat) (maxNavMeshDataSize : Nat)
    (calls : List (CacheCall Agent Mesh Connections)) :
    (reachedCache self makeNavMeshKey maxNavMeshDataSize calls).totalSize ≤ maxNavMeshDataSize ∧
    (∀ (agent : Agent) (tile : Vec2i) (mesh : Mesh) (connections : Connections)
      (value : NavMeshData),
      chargedSize (reachedCache self makeNavMeshKey maxNavMeshDataSize calls).mBusyItems +
          getSize (⟨1, agent, tile, makeNavMeshKey mesh connections, value⟩ : Item Agent) >
        maxNavMeshDataSize →
      (NavMeshTilesCache.set self makeNavMeshKey
        (reachedCache self makeNavMeshKey maxNavMeshDataSize calls)
        agent tile mesh connections value).1 = Value.empty ∧
      (NavMeshTilesCache.set self makeNavMeshKey
        (reachedCache self makeNavMeshKey maxNavMeshDataSize calls)
        agent tile mesh connections value).2.mBusyItems =
          (reachedCache self makeNavMeshKey maxNavMeshDataSize calls).mBusyItems) ∧
    (∀ (agent : Agent) (tile : Vec2i) (mesh : Mesh) (connections : Connections)
      (value : NavMeshData),
      (reachedCache self makeNavMeshKey maxNavMeshDataSize calls).lookup agent tile
          (makeNavMeshKey mesh connections) = none →
      chargedSize (reachedCache self makeNavMeshKey maxNavMeshDataSize calls).mBusyItems +
          getSize (⟨1, agent, tile, makeNavMeshKey mesh connections, value⟩ : Item Agent) ≤
        maxNavMeshDataSize →
      (NavMeshTilesCache.set self makeNavMeshKey
        (reachedCache self makeNavMeshKey maxNavMeshDataSize calls)
        agent tile mesh connections value).1.toBool = true) := by
  obtain ⟨hinv, hmaxeq⟩ := cacheInvariant_reachedCache self makeNavMeshKey maxNavMeshDataSize calls
  generalize reachedCache self makeNavMeshKey maxNavMeshDataSize calls = c at hinv hmaxeq ⊢
  have hroom : ∀ size, CacheInvariant (makeRoom size c) ∧
      (makeRoom size c).mBusyItems = c.mBusyItems ∧
      (makeRoom size c).mMaxNavMeshDataSize = maxNavMeshDataSize := fun size =>
    ⟨cacheInvariant_evictLoop size _ c hinv, (evictLoop_frame size _ c).1,
      (evictLoop_frame size _ c).2.1.trans hmaxeq⟩
  refine ⟨?_, ?_, ?_⟩
  · rw [← hinv.1, ← hmaxeq]
    exact hinv.2.1
  · intro agent tile mesh connections value hbig
    obtain ⟨hinv1, hbusy1, hmax1⟩ :=
      hroom (getSize (⟨1, agent, tile, makeNavMeshKey mesh connections, value⟩ : Item Agent))
    have hfull : (makeRoom (getSize (⟨1, agent, tile, makeNavMeshKey mesh connections,
        value⟩ : Item Agent)) c).mUsedNavMeshDataSize +
        getSize (⟨1, agent, tile, makeNavMeshKey mesh connections, value⟩ : Item Agent) >
        (makeRoom (getSize (⟨1, agent, tile, makeNavMeshKey mesh connections, value⟩ :
          Item Agent)) c).mMaxNavMeshDataSize := by
      rw [hmax1, hinv1.1]
      unfold NavMeshTilesCache.totalSize
      rw [hbusy1]
      omega
    rw [set_rejected self makeNavMeshKey c agent tile mesh connections value hfull]
    exact ⟨rfl, hbusy1⟩
  · intro agent tile mesh connections value hl hfit
    obtain ⟨hinv1, hbusy1, hmax1⟩ :=
      hroom (getSize (⟨1, agent, tile, makeNavMeshKey mesh connections, value⟩ : Item Agent))
    have hfits : ¬ ((makeRoom (getSize (⟨1, agent, tile, makeNavMeshKey mesh connections,
        value⟩ : Item Agent)) c).mUsedNavMeshDataSize +
        getSize (⟨1, agent, tile, makeNavMeshKey mesh connections, value⟩ : Item Agent) >
        (makeRoom (getSize (⟨1, agent, tile, makeNavMeshKey mesh connections, value⟩ :
          Item Agent)) c).mMaxNavMeshDataSize) := by
      rcases evictLoop_done (getSize (⟨1, agent, tile, makeNavMeshKey mesh connections,
        value⟩ : Item Agent)) c.mFreeItems.length c (le_refl _) with hdone | hdone
      · have hfree : (makeRoom (getSize (⟨1, agent, tile, makeNavMeshKey mesh connections,
            value⟩ : Item Agent)) c).mFreeItems = [] := hdone
        rw [hmax1, hinv1.1]
        unfold NavMeshTilesCache.totalSize
        rw [hbusy1, hfree]
        simp only [chargedSize, List.map_nil, List.sum_nil, Nat.add_zero] at hfit ⊢
        omega
      · have hle : (makeRoom (getSize (⟨1, agent, tile, makeNavMeshKey mesh connections,
            value⟩ : Item Agent)) c).mUsedNavMeshDataSize +
            getSize (⟨1, agent, tile, makeNavMeshKey mesh connections, value⟩ : Item Agent) ≤
            (makeRoom (getSize (⟨1, agent, tile, makeNavMeshKey mesh connections, value⟩ :
              Item Agent)) c).mMaxNavMeshDataSize := hdone
        omega
    rw [set_inserted self makeNavMeshKey c agent tile mesh connections value hfits]
    rfl

/-- Witness for C15 on `sampleCacheCalls` and a cache of maximum 40: the
live entries are charged 28 at the end; after the first two insertions, both
Busy and charged 14 each, a third entry of charge 14 is refused. -/
theorem cache_total_charged_size_le_max_witness :
    (reachedCache (0 : Nat) sampleKey 40 sampleCacheCalls).totalSize = 28 ∧
    (reachedCache (0 : Nat) sampleKey 40 sampleCacheCalls).totalSize ≤ 40 ∧
    chargedSize (reachedCache (0 : Nat) sampleKey 40 (sampleCacheCalls.take 2)).mBusyItems +
      getSize (⟨1, 1, ⟨0, 2⟩, sampleKey [3] 0, ⟨[7, 7, 7, 7, 7, 7, 7, 7, 7, 7], 10⟩⟩ : Item Nat)
      > 40 ∧
    (NavMeshTilesCache.set (0 : Nat) sampleKey
      (reachedCache (0 : Nat) sampleKey 40 (sampleCacheCalls.take 2))
      1 ⟨0, 2⟩ [3] 0 ⟨[7, 7, 7, 7, 7, 7, 7, 7, 7, 7], 10⟩).1 = Value.empty :=
  ⟨by decide,
    (cache_total_charged_size_le_max (0 : Nat) sampleKey 40 sampleCacheCalls).1,
    by decide,
    ((cache_total_charged_size_le_max (0 : Nat) sampleKey 40 (sampleCacheCalls.take 2)).2.1
      1 ⟨0, 2⟩ [3] 0 ⟨[7, 7, 7, 7, 7, 7, 7, 7, 7, 7], 10⟩ (by decide)).1⟩

/-- C16: eviction removes Free entries only, oldest first. For every
reachable cache state and every `set`, the Free list before the call is the
entries evicted, in order from its head, followed by the Free list after the
call; the evicted entries have borrow count zero; every Busy entry and every
entry with a positive borrow count is still Busy afterwards. The Free list
is in the order of becoming Free: `releaseItem` appends the entry that
reaches zero at the tail, and `acquireItemUnsafe` keeps the relative order of
the entries that stay Free. -/
theorem eviction_removes_oldest_free_entries_only (self : Owner)
    (makeNavMeshKey : Mesh → Connections → List Nat) (maxNavMeshDataSize : Nat)
    (calls : List (CacheCall Agent Mesh Connections))
    (agent : Agent) (tile : Vec2i) (mesh : Mesh) (connections : Connections)
    (value : NavMeshData) :
    (∃ evicted,
      (reachedCache self makeNavMeshKey maxNavMeshDataSize calls).mFreeItems =
        evicted ++ (NavMeshTilesCache.set self makeNavMeshKey
          (reachedCache self makeNavMeshKey maxNavMeshDataSize calls)
          agent tile mesh connections value).2.mFreeItems ∧
      ∀ e ∈ evicted, e.2.mUseCount = 0) ∧
    (∀ e ∈ (reachedCache self makeNavMeshKey maxNavMeshDataSize calls).mBusyItems ++
        (reachedCache self makeNavMeshKey maxNavMeshDataSize calls).mFreeItems,
      (e ∈ (reachedCache self makeNavMeshKey maxNavMeshDataSize calls).mBusyItems ∨
        0 < e.2.mUseCount) →
      e ∈ (NavMeshTilesCache.set self makeNavMeshKey
        (reachedCache self makeNavMeshKey maxNavMeshDataSize calls)
        agent tile mesh connections value).2.mBusyItems) ∧
    (∀ it : ItemIterator,
      (releaseItem (reachedCache self makeNavMeshKey maxNavMeshDataSize calls) it).mFreeItems =
          (reachedCache self makeNavMeshKey maxNavMeshDataSize calls).mFreeItems ∨
      ∃ e, e.2.mUseCount = 0 ∧
        (releaseItem (reachedCache self makeNavMeshKey maxNavMeshDataSize calls) it).mFreeItems =
          (reachedCache self makeNavMeshKey maxNavMeshDataSize calls).mFreeItems ++ [e]) ∧
    (∀ it : ItemIterator,
      (acquireItemUnsafe (reachedCache self makeNavMeshKey maxNavMeshDataSize calls)
        it).mFreeItems.Sublist
        (reachedCache self makeNavMeshKey maxNavMeshDataSize calls).mFreeItems) := by
  obtain ⟨hinv, _⟩ := cacheInvariant_reachedCache self makeNavMeshKey maxNavMeshDataSize calls
  generalize reachedCache self makeNavMeshKey maxNavMeshDataSize calls = c at hinv ⊢
  obtain ⟨_, _, hbusycount, hfreecount⟩ := hinv
  have hframe := evictLoop_frame
    (getSize (⟨1, agent, tile, makeNavMeshKey mesh connections, value⟩ : Item Agent))
    c.mFreeItems.length c
  have hset : (NavMeshTilesCache.set self makeNavMeshKey c agent tile mesh connections
        value).2.mFreeItems = c.mFreeItems ∧
      (NavMeshTilesCache.set self makeNavMeshKey c agent tile mesh connections
        value).2.mBusyItems = c.mBusyItems ∨
      (NavMeshTilesCache.set self makeNavMeshKey c agent tile mesh connections
        value).2.mFreeItems = (makeRoom (getSize (⟨1, agent, tile,
          makeNavMeshKey mesh connections, value⟩ : Item Agent)) c).mFreeItems ∧
      ∃ added, (NavMeshTilesCache.set self makeNavMeshKey c agent tile mesh connections
        value).2.mBusyItems = c.mBusyItems ++ added := by
    right
    by_cases hfull : (makeRoom (getSize (⟨1, agent, tile, makeNavMeshKey mesh connections,
        value⟩ : Item Agent)) c).mUsedNavMeshDataSize +
        getSize (⟨1, agent, tile, makeNavMeshKey mesh connections, value⟩ : Item Agent) >
      (makeRoom (getSize (⟨1, agent, tile, makeNavMeshKey mesh connections, value⟩ :
        Item Agent)) c).mMaxNavMeshDataSize
    · rw [set_rejected self makeNavMeshKey c agent tile mesh connections value hfull]
      exact ⟨rfl, [], by rw [List.append_nil]; exact hframe.1⟩
    · rw [set_inserted self makeNavMeshKey c agent tile mesh connections value hfull]
      have hb : (makeRoom (getSize (⟨1, agent, tile, makeNavMeshKey mesh connections,
        value⟩ : Item Agent)) c).mBusyItems = c.mBusyItems := hframe.1
      refine ⟨rfl, [((makeRoom (getSize (⟨1, agent, tile, makeNavMeshKey mesh connections,
        value⟩ : Item Agent)) c).freshNode,
        ⟨1, agent, tile, makeNavMeshKey mesh connections, value⟩)], ?_⟩
      show (makeRoom _ c).mBusyItems ++ [_] = c.mBusyItems ++ [_]
      rw [hb]
  refine ⟨?_, ?_, ?_, ?_⟩
  · rcases hset with ⟨hf, _⟩ | ⟨hf, _⟩
    · exact ⟨[], by rw [hf]; rfl, fun e he => by cases he⟩
    · obtain ⟨evicted, hev⟩ := hframe.2.2
      refine ⟨evicted, by rw [hf]; exact hev, ?_⟩
      intro e he
      exact hfreecount e (by rw [hev]; exact List.mem_append_left _ he)
  · intro e he hkeep
    have hb : e ∈ c.mBusyItems := by
      rcases hkeep with hk | hk
      · exact hk
      · rcases List.mem_append.mp he with h1 | h1
        · exact h1
        · have := hfreecount e h1
          omega
    rcases hset with ⟨_, hbusy⟩ | ⟨_, added, hbusy⟩
    · rw [hbusy]; exact hb
    · rw [hbusy]; exact List.mem_append_left _ hb
  · intro it
    cases it with
    | none => left; rfl
    | some node =>
      cases hb : findEntry node c.mBusyItems with
      | none => left; rw [releaseItem_absent c node hb]
      | some item =>
        by_cases hz : item.mUseCount - 1 = 0
        · right
          rw [releaseItem_last c node item hb hz]
          exact ⟨_, hz, rfl⟩
        · left
          rw [releaseItem_shared c node item hb hz]
  · intro it
    cases it with
    | none => exact List.Sublist.refl _
    | some node =>
      cases hb : findEntry node c.mBusyItems with
      | some item =>
        rw [acquireItemUnsafe_busy c node item hb]
      | none =>
        cases hf : findEntry node c.mFreeItems with
        | some item =>
          rw [acquireItemUnsafe_free c node item hb hf]
          exact eraseEntry_sublist node c.mFreeItems
        | none => rw [acquireItemUnsafe_absent c node hb hf]

/-- Witness for C16: after the first four calls of `sampleCacheCalls` both
entries are Free, node 2 released first; a third insertion evicts node 2 and
keeps node 1. -/
theorem eviction_removes_oldest_free_entries_only_witness :
    (reachedCache (0 : Nat) sampleKey 40 (sampleCacheCalls.take 4)).mFreeItems.map
      (fun e => e.1) = [2, 1] ∧
    (NavMeshTilesCache.set (0 : Nat) sampleKey
      (reachedCache (0 : Nat) sampleKey 40 (sampleCacheCalls.take 4))
      1 ⟨0, 2⟩ [3] 0 ⟨[7, 7, 7, 7, 7, 7, 7, 7, 7, 7], 10⟩).2.mFreeItems.map
      (fun e => e.1) = [1] ∧
    (∃ evicted,
      (reachedCache (0 : Nat) sampleKey 40 (sampleCacheCalls.take 4)).mFreeItems =
        evicted ++ (NavMeshTilesCache.set (0 : Nat) sampleKey
          (reachedCache (0 : Nat) sampleKey 40 (sampleCacheCalls.take 4))
          1 ⟨0, 2⟩ [3] 0 ⟨[7, 7, 7, 7, 7, 7, 7, 7, 7, 7], 10⟩).2.mFreeItems ∧
      ∀ e ∈ evicted, e.2.mUseCount = 0) :=
  ⟨by decide, by decide,
    (eviction_removes_oldest_free_entries_only (0 : Nat) sampleKey 40 (sampleCacheCalls.take 4)
      1 ⟨0, 2⟩ [3] 0 ⟨[7, 7, 7, 7, 7, 7, 7, 7, 7, 7], 10⟩).1⟩

end CacheTheorems

/-! ## `NavMeshTilesCache`: a borrowed entry stays cached -/

section EntryKeptLemmas

variable {Owner Agent Mesh Connections : Type} [DecidableEq Agent]

theorem findItem_some_mem (agent : Agent) (tile : Vec2i) (key : List Nat) :
    ∀ (l : List (Nat × Item Agent)) (n : Nat), findItem agent tile key l = some n →
      ∃ e ∈ l, e.1 = n ∧ e.2.mAgentHalfExtents = agent ∧ e.2.mChangedTile = tile ∧
        e.2.mNavMeshKey = key
  | [], n, h => by simp [findItem] at h
  | a :: t, n, h => by
    unfold findItem at h
    by_cases h1 : a.2.mAgentHalfExtents = agent ∧ a.2.mChangedTile = tile ∧ a.2.mNavMeshKey = key
    · rw [if_pos h1] at h
      exact ⟨a, List.mem_cons_self _ _, Option.some.inj h, h1⟩
    · rw [if_neg h1] at h
      obtain ⟨e, he, hrest⟩ := findItem_some_mem agent tile key t n h
      exact ⟨e, List.mem_cons_of_mem _ he, hrest⟩

theorem findItem_isSome_of_mem (agent : Agent) (tile : Vec2i) (key : List Nat) :
    ∀ (l : List (Nat × Item Agent)) (e : Nat × Item Agent), e ∈ l →
      e.2.mAgentHalfExtents = agent → e.2.mChangedTile = tile → e.2.mNavMeshKey = key →
      (findItem agent tile key l).isSome = true
  | [], e, he, _, _, _ => by cases he
  | a :: t, e, he, h1, h2, h3 => by
    unfold findItem
    by_cases hc : a.2.mAgentHalfExtents = agent ∧ a.2.mChangedTile = tile ∧ a.2.mNavMeshKey = key
    · rw [if_pos hc]; rfl
    · rw [if_neg hc]
      rcases List.mem_cons.mp he with h | h
      · exact absurd (by rw [← h]; exact ⟨h1, h2, h3⟩) hc
      · exact findItem_isSome_of_mem agent tile key t e h h1 h2 h3

omit [DecidableEq Agent] in
theorem acquireItemUnsafe_origin (c : NavMeshTilesCache Agent) (it : ItemIterator) :
    ∀ e' ∈ (acquireItemUnsafe c it).mBusyItems ++ (acquireItemUnsafe c it).mFreeItems,
      ∃ e ∈ c.mBusyItems ++ c.mFreeItems, e.1 = e'.1 ∧
        e.2.mAgentHalfExtents = e'.2.mAgentHalfExtents ∧ e.2.mChangedTile = e'.2.mChangedTile ∧
        e.2.mNavMeshKey = e'.2.mNavMeshKey := by
  cases it with
  | none => exact fun e' he' => ⟨e', he', rfl, rfl, rfl, rfl⟩
  | some node =>
    cases hb : findEntry node c.mBusyItems with
    | some item =>
      rw [acquireItemUnsafe_busy c node item hb]
      intro e' he'
      rcases List.mem_append.mp he' with h1 | h1
      · rcases mem_assignEntry node _ _ e' h1 with h2 | h2
        · exact ⟨e', List.mem_append_left _ h2, rfl, rfl, rfl, rfl⟩
        · refine ⟨(node, item),
            List.mem_append_left _ (mem_of_findEntry_some node item _ hb), ?_⟩
          rw [h2]
          exact ⟨rfl, rfl, rfl, rfl⟩
      · exact ⟨e', List.mem_append_right _ h1, rfl, rfl, rfl, rfl⟩
    | none =>
      cases hf : findEntry node c.mFreeItems with
      | none =>
        rw [acquireItemUnsafe_absent c node hb hf]
        exact fun e' he' => ⟨e', he', rfl, rfl, rfl, rfl⟩
      | some item =>
        rw [acquireItemUnsafe_free c node item hb hf]
        intro e' he'
        rcases List.mem_append.mp he' with h1 | h1
        · rcases List.mem_append.mp h1 with h2 | h2
          · exact ⟨e', List.mem_append_left _ h2, rfl, rfl, rfl, rfl⟩
          · refine ⟨(node, item),
              List.mem_append_right _ (mem_of_findEntry_some node item _ hf), ?_⟩
            rw [List.mem_singleton.mp h2]
            exact ⟨rfl, rfl, rfl, rfl⟩
        · exact ⟨e', List.mem_append_right _ (mem_of_mem_eraseEntry node _ e' h1),
            rfl, rfl, rfl, rfl⟩

omit [DecidableEq Agent] in
theorem releaseItem_origin (c : NavMeshTilesCache Agent) (it : ItemIterator) :
    ∀ e' ∈ (releaseItem c it).mBusyItems ++ (releaseItem c it).mFreeItems,
      ∃ e ∈ c.mBusyItems ++ c.mFreeItems, e.1 = e'.1 ∧
        e.2.mAgentHalfExtents = e'.2.mAgentHalfExtents ∧ e.2.mChangedTile = e'.2.mChangedTile ∧
        e.2.mNavMeshKey = e'.2.mNavMeshKey := by
  cases it with
  | none => exact fun e' he' => ⟨e', he', rfl, rfl, rfl, rfl⟩
  | some node =>
    cases hb : findEntry node c.mBusyItems with
    | none =>
      rw [releaseItem_absent c node hb]
      exact fun e' he' => ⟨e', he', rfl, rfl, rfl, rfl⟩
    | some item =>
      by_cases hz : item.mUseCount - 1 = 0
      · rw [releaseItem_last c node item hb hz]
        intro e' he'
        rcases List.mem_append.mp he' with h1 | h1
        · exact ⟨e', List.mem_append_left _ (mem_of_mem_eraseEntry node _ e' h1),
            rfl, rfl, rfl, rfl⟩
        · rcases List.mem_append.mp h1 with h2 | h2
          · exact ⟨e', List.mem_append_right _ h2, rfl, rfl, rfl, rfl⟩
          · refine ⟨(node, item),
              List.mem_append_left _ (mem_of_findEntry_some node item _ hb), ?_⟩
            rw [List.mem_singleton.mp h2]
            exact ⟨rfl, rfl, rfl, rfl⟩
      · rw [releaseItem_shared c node item hb hz]
        intro e' he'
        rcases List.mem_append.mp he' with h1 | h1
        · rcases mem_assignEntry node _ _ e' h1 with h2 | h2
          · exact ⟨e', List.mem_append_left _ h2, rfl, rfl, rfl, rfl⟩
          · refine ⟨(node, item),
              List.mem_append_left _ (mem_of_findEntry_some node item _ hb), ?_⟩
            rw [h2]
            exact ⟨rfl, rfl, rfl, rfl⟩
        · exact ⟨e', List.mem_append_right _ h1, rfl, rfl, rfl, rfl⟩

end EntryKeptLemmas

section EntryKeptTheorems

variable {Owner Agent Mesh Connections : Type} [DecidableEq Agent]

end EntryKeptTheorems

/-! ## What each manager operation leaves untouched -/

section FrameTheorems

variable {Settings Bounds Shape Transform AreaType : Type}

theorem addObject_frame (s : RecastMeshManager Settings Bounds Shape Transform AreaType)
    (id : ObjectId) (shape : Shape) (transform : Transform) (areaType : AreaType) :
    (addObject s id shape transform areaType).2.mWater = s.mWater ∧
    (addObject s id shape transform areaType).2.mLastNavMeshReportedChange =
      s.mLastNavMeshReportedChange ∧
    (addObject s id shape transform areaType).2.mLastNavMeshReport = s.mLastNavMeshReport ∧
    (addObject s id shape transform areaType).2.mTileBounds = s.mTileBounds ∧
    (addObject s id shape transform areaType).2.mGeneration = s.mGeneration ∧
    (addObject s id shape transform areaType).2.mSettings = s.mSettings := by
  simp only [addObject]
  cases hat : pointsAt (s.mObjects.lowerBound id) id <;> simp [hat]

theorem updateObject_frame (update : UpdateRule Bounds Shape Transform AreaType)
    (s : RecastMeshManager Settings Bounds Shape Transform AreaType)
    (id : ObjectId) (transform : Transform) (areaType : AreaType) :
    (updateObject update s id transform areaType).2.mWater = s.mWater ∧
    (updateObject update s id transform areaType).2.mLastNavMeshReportedChange =
      s.mLastNavMeshReportedChange ∧
    (updateObject update s id transform areaType).2.mLastNavMeshReport = s.mLastNavMeshReport ∧
    (updateObject update s id transform areaType).2.mTileBounds = s.mTileBounds ∧
    (updateObject update s id transform areaType).2.mGeneration = s.mGeneration ∧
    (updateObject update s id transform areaType).2.mSettings = s.mSettings := by
  simp only [updateObject]
  cases s.mObjects.find id with
  | none => simp
  | some object =>
    cases hacc : (update object transform areaType (lastChangeRevision s) s.mTileBounds).1 <;>
      simp [hacc]

theorem removeObject_frame (s : RecastMeshManager Settings Bounds Shape Transform AreaType)
    (id : ObjectId) :
    (removeObject s id).2.mWater = s.mWater ∧
    (removeObject s id).2.mLastNavMeshReportedChange = s.mLastNavMeshReportedChange ∧
    (removeObject s id).2.mLastNavMeshReport = s.mLastNavMeshReport ∧
    (removeObject s id).2.mTileBounds = s.mTileBounds ∧
    (removeObject s id).2.mGeneration = s.mGeneration ∧
    (removeObject s id).2.mSettings = s.mSettings := by
  simp only [removeObject]
  cases hf : s.mObjects.find id <;> simp

theorem addWater_frame (s : RecastMeshManager Settings Bounds Shape Transform AreaType)
    (cellPosition : Vec2i) (cellSize : Int) (transform : Transform) :
    (addWater s cellPosition cellSize transform).2.mObjects = s.mObjects ∧
    (addWater s cellPosition cellSize transform).2.mLastNavMeshReportedChange =
      s.mLastNavMeshReportedChange ∧
    (addWater s cellPosition cellSize transform).2.mLastNavMeshReport = s.mLastNavMeshReport ∧
    (addWater s cellPosition cellSize transform).2.mTileBounds = s.mTileBounds ∧
    (addWater s cellPosition cellSize transform).2.mGeneration = s.mGeneration ∧
    (addWater s cellPosition cellSize transform).2.mSettings = s.mSettings := by
  simp only [addWater]
  cases hflag : (s.mWater.emplace cellPosition ⟨cellSize, transform⟩).2 <;> simp [hflag]

theorem removeWater_frame (s : RecastMeshManager Settings Bounds Shape Transform AreaType)
    (cellPosition : Vec2i) :
    (removeWater s cellPosition).2.mObjects = s.mObjects ∧
    (removeWater s cellPosition).2.mLastNavMeshReportedChange = s.mLastNavMeshReportedChange ∧
    (removeWater s cellPosition).2.mLastNavMeshReport = s.mLastNavMeshReport ∧
    (removeWater s cellPosition).2.mTileBounds = s.mTileBounds ∧
    (removeWater s cellPosition).2.mGeneration = s.mGeneration ∧
    (removeWater s cellPosition).2.mSettings = s.mSettings := by
  simp only [removeWater]
  cases hf : s.mWater.find cellPosition <;> simp

theorem reportNavMeshChange_frame (s : RecastMeshManager Settings Bounds Shape Transform AreaType)
    (recastMeshVersion navMeshVersion : Version) :
    (reportNavMeshChange s recastMeshVersion navMeshVersion).mObjects = s.mObjects ∧
    (reportNavMeshChange s recastMeshVersion navMeshVersion).mWater = s.mWater ∧
    (reportNavMeshChange s recastMeshVersion navMeshVersion).mRevision = s.mRevision ∧
    (reportNavMeshChange s recastMeshVersion navMeshVersion).mTileBounds = s.mTileBounds ∧
    (reportNavMeshChange s recastMeshVersion navMeshVersion).mGeneration = s.mGeneration ∧
    (reportNavMeshChange s recastMeshVersion navMeshVersion).mSettings = s.mSettings := by
  by_cases hg : recastMeshVersion.mGeneration = s.mGeneration
  · cases hl : reportedLater s.mLastNavMeshReport navMeshVersion
    · rw [reportNavMeshChange_recorded s recastMeshVersion navMeshVersion hg hl]
      exact ⟨rfl, rfl, rfl, rfl, rfl, rfl⟩
    · unfold reportNavMeshChange
      simp [hg, hl]
  · unfold reportNavMeshChange
    rw [if_pos hg]
    exact ⟨rfl, rfl, rfl, rfl, rfl, rfl⟩

/-- C30: each manager operation changes only its own part of the state.
`addObject`, `updateObject` and `removeObject` keep the water map and both
report records; `addWater` and `removeWater` keep the object map and both
report records; `reportNavMeshChange` keeps the object map, the water map and
the revision; and none of them, nor `getMesh`, changes the tile bounds or the
generation. -/
theorem operations_change_only_their_part
    (rescale : Bounds → Settings → Bounds)
    (update : UpdateRule Bounds Shape Transform AreaType)
    (s : RecastMeshManager Settings Bounds Shape Transform AreaType) :
    (∀ id shape transform areaType,
      (addObject s id shape transform areaType).2.mWater = s.mWater ∧
      (addObject s id shape transform areaType).2.mLastNavMeshReportedChange =
        s.mLastNavMeshReportedChange ∧
      (addObject s id shape transform areaType).2.mLastNavMeshReport = s.mLastNavMeshReport ∧
      (addObject s id shape transform areaType).2.mTileBounds = s.mTileBounds ∧
      (addObject s id shape transform areaType).2.mGeneration = s.mGeneration) ∧
    (∀ id transform areaType,
      (updateObject update s id transform areaType).2.mWater = s.mWater ∧
      (updateObject update s id transform areaType).2.mLastNavMeshReportedChange =
        s.mLastNavMeshReportedChange ∧
      (updateObject update s id transform areaType).2.mLastNavMeshReport =
        s.mLastNavMeshReport ∧
      (updateObject update s id transform areaType).2.mTileBounds = s.mTileBounds ∧
      (updateObject update s id transform areaType).2.mGeneration = s.mGeneration) ∧
    (∀ id,
      (removeObject s id).2.mWater = s.mWater ∧
      (removeObject s id).2.mLastNavMeshReportedChange = s.mLastNavMeshReportedChange ∧
      (removeObject s id).2.mLastNavMeshReport = s.mLastNavMeshReport ∧
      (removeObject s id).2.mTileBounds = s.mTileBounds ∧
      (removeObject s id).2.mGeneration = s.mGeneration) ∧
    (∀ cellPosition cellSize transform,
      (addWater s cellPosition cellSize transform).2.mObjects = s.mObjects ∧
      (addWater s cellPosition cellSize transform).2.mLastNavMeshReportedChange =
        s.mLastNavMeshReportedChange ∧
      (addWater s cellPosition cellSize transform).2.mLastNavMeshReport =
        s.mLastNavMeshReport ∧
      (addWater s cellPosition cellSize transform).2.mTileBounds = s.mTileBounds ∧
      (addWater s cellPosition cellSize transform).2.mGeneration = s.mGeneration) ∧
    (∀ cellPosition,
      (removeWater s cellPosition).2.mObjects = s.mObjects ∧
      (removeWater s cellPosition).2.mLastNavMeshReportedChange =
        s.mLastNavMeshReportedChange ∧
      (removeWater s cellPosition).2.mLastNavMeshReport = s.mLastNavMeshReport ∧
      (removeWater s cellPosition).2.mTileBounds = s.mTileBounds ∧
      (removeWater s cellPosition).2.mGeneration = s.mGeneration) ∧
    (∀ recastMeshVersion navMeshVersion,
      (reportNavMeshChange s recastMeshVersion navMeshVersion).mObjects = s.mObjects ∧
      (reportNavMeshChange s recastMeshVersion navMeshVersion).mWater = s.mWater ∧
      (reportNavMeshChange s recastMeshVersion navMeshVersion).mRevision = s.mRevision ∧
      (reportNavMeshChange s recastMeshVersion navMeshVersion).mTileBounds = s.mTileBounds ∧
      (reportNavMeshChange s recastMeshVersion navMeshVersion).mGeneration = s.mGeneration) ∧
    ((getMesh rescale s).2.mTileBounds = s.mTileBounds ∧
      (getMesh rescale s).2.mGeneration = s.mGeneration) := by
  refine ⟨?_, ?_, ?_, ?_, ?_, ?_, rfl, rfl⟩
  · intro id shape transform areaType
    obtain ⟨h1, h2, h3, h4, h5, _⟩ := addObject_frame s id shape transform areaType
    exact ⟨h1, h2, h3, h4, h5⟩
  · intro id transform areaType
    obtain ⟨h1, h2, h3, h4, h5, _⟩ := updateObject_frame update s id transform areaType
    exact ⟨h1, h2, h3, h4, h5⟩
  · intro id
    obtain ⟨h1, h2, h3, h4, h5, _⟩ := removeObject_frame s id
    exact ⟨h1, h2, h3, h4, h5⟩
  · intro cellPosition cellSize transform
    obtain ⟨h1, h2, h3, h4, h5, _⟩ := addWater_frame s cellPosition cellSize transform
    exact ⟨h1, h2, h3, h4, h5⟩
  · intro cellPosition
    obtain ⟨h1, h2, h3, h4, h5, _⟩ := removeWater_frame s cellPosition
    exact ⟨h1, h2, h3, h4, h5⟩
  · intro recastMeshVersion navMeshVersion
    obtain ⟨h1, h2, h3, h4, h5, _⟩ :=
      reportNavMeshChange_frame s recastMeshVersion navMeshVersion
    exact ⟨h1, h2, h3, h4, h5⟩

end FrameTheorems

/-! ## The two report records agree on the navmesh version -/

section ReportHistoryTheorems

variable {Settings Bounds Shape Transform AreaType : Type}

theorem Version.eq_of_not_lt (a b : Version) (h1 : a.lt b = false) (h2 : b.lt a = false) :
    a = b := by
  have h1' : ¬ (a.lt b = true) := by simp [h1]
  have h2' : ¬ (b.lt a = true) := by simp [h2]
  rw [Version.lt_iff] at h1' h2'
  cases a; cases b
  simp only [Version.mk.injEq]
  simp only at h1' h2'
  omega

theorem Version.le_trans (a b c : Version) (h1 : a.le b) (h2 : b.le c) : a.le c := by
  unfold Version.le at *
  omega

theorem Version.ne_of_lt (a b : Version) (h : a.lt b = true) : a ≠ b := by
  intro e
  rw [e, Version.lt_irrefl] at h
  cases h

theorem applyCall_geometry_keeps_reports (rescale : Bounds → Settings → Bounds)
    (update : UpdateRule Bounds Shape Transform AreaType)
    (s : RecastMeshManager Settings Bounds Shape Transform AreaType)
    (call : GeometryCall Shape Transform AreaType) :
    (applyCall rescale update s (.geometry call)).mLastNavMeshReport = s.mLastNavMeshReport ∧
    (applyCall rescale update s (.geometry call)).mLastNavMeshReportedChange =
      s.mLastNavMeshReportedChange := by
  cases call with
  | addObject id shape transform areaType =>
    exact ⟨(addObject_frame s id shape transform areaType).2.2.1,
      (addObject_frame s id shape transform areaType).2.1⟩
  | updateObject id transform areaType =>
    exact ⟨(updateObject_frame update s id transform areaType).2.2.1,
      (updateObject_frame update s id transform areaType).2.1⟩
  | removeObject id =>
    exact ⟨(removeObject_frame s id).2.2.1, (removeObject_frame s id).2.1⟩
  | addWater cellPosition cellSize transform =>
    exact ⟨(addWater_frame s cellPosition cellSize transform).2.2.1,
      (addWater_frame s cellPosition cellSize transform).2.1⟩
  | removeWater cellPosition =>
    exact ⟨(removeWater_frame s cellPosition).2.2.1, (removeWater_frame s cellPosition).2.1⟩

theorem firstOfLastVersion_concat_later (history : List Report) (report : Report)
    (h : ∀ r ∈ history, r.mNavMeshVersion ≠ report.mNavMeshVersion) :
    firstOfLastVersion (history ++ [report]) = some report := by
  unfold firstOfLastVersion
  rw [List.getLast?_concat]
  simp only [Option.some_bind, List.find?_append]
  have hnone : history.find? (fun r => decide (r.mNavMeshVersion = report.mNavMeshVersion))
      = none := by
    rw [List.find?_eq_none]
    intro r hr
    simpa using h r hr
  rw [hnone]
  simp

theorem firstOfLastVersion_concat_same (history : List Report) (last report : Report)
    (hlast : history.getLast? = some last)
    (hsame : report.mNavMeshVersion = last.mNavMeshVersion) :
    firstOfLastVersion (history ++ [report]) = firstOfLastVersion history := by
  unfold firstOfLastVersion
  rw [List.getLast?_concat, hlast]
  simp only [Option.some_bind, List.find?_append, hsame]
  have hsome : (history.find? (fun r => decide (r.mNavMeshVersion = last.mNavMeshVersion))).isSome
      = true := by
    rw [List.find?_isSome]
    exact ⟨last, List.mem_of_getLast?_eq_some hlast, by simp⟩
  cases hf : history.find? (fun r => decide (r.mNavMeshVersion = last.mNavMeshVersion)) with
  | none => rw [hf] at hsome; cases hsome
  | some c => rfl

theorem report_history_step (rescale : Bounds → Settings → Bounds)
    (update : UpdateRule Bounds Shape Transform AreaType)
    (s : RecastMeshManager Settings Bounds Shape Transform AreaType)
    (history : List Report) (call : ManagerCall Shape Transform AreaType)
    (hreport : s.mLastNavMeshReport = history.getLast?)
    (hchange : s.mLastNavMeshReportedChange = firstOfLastVersion history)
    (hmono : ∀ last, history.getLast? = some last →
      ∀ r ∈ history, r.mNavMeshVersion.le last.mNavMeshVersion) :
    (applyCall rescale update s call).mLastNavMeshReport =
      (history ++ recordedBy s call).getLast? ∧
    (applyCall rescale update s call).mLastNavMeshReportedChange =
      firstOfLastVersion (history ++ recordedBy s call) ∧
    (∀ last, (history ++ recordedBy s call).getLast? = some last →
      ∀ r ∈ history ++ recordedBy s call, r.mNavMeshVersion.le last.mNavMeshVersion) := by
  cases call with
  | geometry call =>
    obtain ⟨h1, h2⟩ := applyCall_geometry_keeps_reports rescale update s call
    simp only [recordedBy, List.append_nil]
    exact ⟨h1.trans hreport, h2.trans hchange, hmono⟩
  | getMesh =>
    simp only [recordedBy, List.append_nil]
    exact ⟨hreport, hchange, hmono⟩
  | reportNavMeshChange recastMeshVersion navMeshVersion =>
    simp only [applyCall, recordedBy, recordsReport]
    by_cases hg : recastMeshVersion.mGeneration = s.mGeneration
    · rcases Bool.eq_false_or_eq_true (reportedLater s.mLastNavMeshReport navMeshVersion)
        with hl | hl
      rotate_left
      · rw [reportNavMeshChange_recorded s recastMeshVersion navMeshVersion hg hl]
        simp only [hg, hl, decide_True, Bool.not_false, Bool.and_self, if_true]
        cases hlast : history.getLast? with
        | none =>
          have hnil : history = [] := List.getLast?_eq_none_iff.mp hlast
          subst hnil
          have hc : s.mLastNavMeshReportedChange = none := by
            rw [hchange]; rfl
          refine ⟨rfl, ?_, ?_⟩
          · simp [hc, reportedEarlier, firstOfLastVersion]
          · intro last hl2 r hr
            simp only [List.nil_append, List.getLast?_singleton, Option.some.injEq] at hl2
            simp only [List.nil_append, List.mem_singleton] at hr
            rw [hr, ← hl2]
            exact Version.le_refl _
        | some last =>
          have hrep : s.mLastNavMeshReport = some last := hreport.trans hlast
          rw [hrep] at hl
          have hnotlater : navMeshVersion.lt last.mNavMeshVersion = false := hl
          have hlastmem : last ∈ history := List.mem_of_getLast?_eq_some hlast
          have hfound : ∃ c, firstOfLastVersion history = some c ∧
              c.mNavMeshVersion = last.mNavMeshVersion := by
            unfold firstOfLastVersion
            rw [hlast]
            simp only [Option.some_bind]
            cases hf : history.find?
                (fun r => decide (r.mNavMeshVersion = last.mNavMeshVersion)) with
            | none =>
              rw [List.find?_eq_none] at hf
              exact absurd (by simp) (hf last hlastmem)
            | some c =>
              exact ⟨c, rfl, by simpa using List.find?_some hf⟩
          obtain ⟨c, hc, hcv⟩ := hfound
          have hchange' : s.mLastNavMeshReportedChange = some c := hchange.trans hc
          refine ⟨by rw [List.getLast?_concat], ?_, ?_⟩
          · simp only [hchange', reportedEarlier, hcv]
            cases hearlier : last.mNavMeshVersion.lt navMeshVersion
            · have heq : navMeshVersion = last.mNavMeshVersion :=
                Version.eq_of_not_lt _ _ hnotlater hearlier
              simp only [Bool.false_eq_true, if_false]
              rw [firstOfLastVersion_concat_same history last _ hlast heq, hc]
            · simp only [if_true]
              rw [firstOfLastVersion_concat_later]
              intro r hr
              have hle := hmono last hlast r hr
              intro hreq
              have hlt : r.mNavMeshVersion.lt navMeshVersion = false := by
                rw [hreq]; exact Version.lt_irrefl _
              have hle2 : r.mNavMeshVersion.le last.mNavMeshVersion := hle
              rw [hreq] at hle2
              have := Version.not_lt_of_le _ _ hle2
              rw [this] at hearlier
              cases hearlier
          · intro last2 hl2 r hr
            rw [List.getLast?_concat] at hl2
            have hl3 : last2 = ⟨recastMeshVersion.mRevision, navMeshVersion⟩ :=
              (Option.some.inj hl2).symm
            rw [hl3]
            rcases List.mem_append.mp hr with h1 | h1
            · exact Version.le_trans _ _ _ (hmono last hlast r h1)
                (Version.le_of_not_lt _ _ hnotlater)
            · rw [List.mem_singleton.mp h1]
              exact Version.le_refl _
      · have hs : reportNavMeshChange s recastMeshVersion navMeshVersion = s := by
          unfold reportNavMeshChange
          simp [hg, hl]
        rw [hs]
        simp only [hg, hl, decide_True, Bool.not_true, Bool.and_false, Bool.false_eq_true,
          if_false, List.append_nil]
        exact ⟨hreport, hchange, hmono⟩
    · have hs : reportNavMeshChange s recastMeshVersion navMeshVersion = s := by
        unfold reportNavMeshChange
        rw [if_pos hg]
      rw [hs]
      simp only [hg, decide_False, Bool.false_and, Bool.false_eq_true, if_false,
        List.append_nil]
      exact ⟨hreport, hchange, hmono⟩

theorem report_history_run (rescale : Bounds → Settings → Bounds)
    (update : UpdateRule Bounds Shape Transform AreaType) :
    ∀ (calls : List (ManagerCall Shape Transform AreaType))
      (s : RecastMeshManager Settings Bounds Shape Transform AreaType)
      (history : List Report),
      s.mLastNavMeshReport = history.getLast? →
      s.mLastNavMeshReportedChange = firstOfLastVersion history →
      (∀ last, history.getLast? = some last →
        ∀ r ∈ history, r.mNavMeshVersion.le last.mNavMeshVersion) →
      (applyCalls rescale update s calls).mLastNavMeshReport =
        (history ++ acceptedReports rescale update s calls).getLast? ∧
      (applyCalls rescale update s calls).mLastNavMeshReportedChange =
        firstOfLastVersion (history ++ acceptedReports rescale update s calls)
  | [], s, history, h1, h2, _ => by
    simp only [applyCalls, acceptedReports, List.append_nil]
    exact ⟨h1, h2⟩
  | call :: rest, s, history, h1, h2, h3 => by
    obtain ⟨k1, k2, k3⟩ := report_history_step rescale update s history call h1 h2 h3
    have ih := report_history_run rescale update rest (applyCall rescale update s call)
      (history ++ recordedBy s call) k1 k2 k3
    simp only [applyCalls, acceptedReports]
    rw [← List.append_assoc]
    exact ih

/-- C29: in every state reached from a freshly constructed manager by any
sequence of calls, the last-report record has a value exactly when the
last-reported-change record has one, and when they do both carry the same
navmesh version. The last-report record is the last accepted report, and the
last-reported-change record is the first accepted report that carries the
navmesh version of the last accepted one, so the two revisions may differ. -/
theorem report_records_carry_same_navmesh_version (rescale : Bounds → Settings → Bounds)
    (update : UpdateRule Bounds Shape Transform AreaType)
    (settings : Settings) (bounds : Bounds) (generation initialRevision : Nat)
    (calls : List (ManagerCall Shape Transform AreaType)) :
    ((applyCalls rescale update
        (RecastMeshManager.construct settings bounds generation initialRevision)
        calls).mLastNavMeshReport.isSome = true ↔
      (applyCalls rescale update
        (RecastMeshManager.construct settings bounds generation initialRevision)
        calls).mLastNavMeshReportedChange.isSome = true) ∧
    (∀ report change,
      (applyCalls rescale update
        (RecastMeshManager.construct settings bounds generation initialRevision)
        calls).mLastNavMeshReport = some report →
      (applyCalls rescale update
        (RecastMeshManager.construct settings bounds generation initialRevision)
        calls).mLastNavMeshReportedChange = some change →
      report.mNavMeshVersion = change.mNavMeshVersion) ∧
    (applyCalls rescale update
        (RecastMeshManager.construct settings bounds generation initialRevision)
        calls).mLastNavMeshReport =
      (acceptedReports rescale update
        (RecastMeshManager.construct settings bounds generation initialRevision)
        calls).getLast? ∧
    (applyCalls rescale update
        (RecastMeshManager.construct settings bounds generation initialRevision)
        calls).mLastNavMeshReportedChange =
      firstOfLastVersion (acceptedReports rescale update
        (RecastMeshManager.construct settings bounds generation initialRevision)
        calls) := by
  obtain ⟨h1, h2⟩ := report_history_run rescale update calls
    (RecastMeshManager.construct settings bounds generation initialRevision) []
    rfl rfl (by intro last hl; cases hl)
  rw [List.nil_append] at h1 h2
  generalize applyCalls rescale update
    (RecastMeshManager.construct settings bounds generation initialRevision) calls = s at h1 h2
  generalize acceptedReports rescale update
    (RecastMeshManager.construct settings bounds generation initialRevision) calls
    = history at h1 h2
  refine ⟨?_, ?_, h1, h2⟩
  · rw [h1, h2]
    unfold firstOfLastVersion
    cases hlast : history.getLast? with
    | none => simp
    | some last =>
      simp only [Option.isSome_some, Option.some_bind, true_iff]
      rw [List.find?_isSome]
      exact ⟨last, List.mem_of_getLast?_eq_some hlast, by simp⟩
  · intro report change hr hc
    rw [h1] at hr
    rw [h2] at hc
    unfold firstOfLastVersion at hc
    rw [hr] at hc
    simp only [Option.some_bind] at hc
    have hfound := List.find?_some hc
    simp only [decide_eq_true_eq] at hfound
    exact hfound.symm

theorem report_records_carry_same_navmesh_version_witness :
    (applyCalls (fun (b : Unit) (_ : Unit) => b) sampleUpdate
        (RecastMeshManager.construct () () 2 0) sampleReportCalls).mLastNavMeshReport =
      some ⟨2, ⟨0, 5⟩⟩ ∧
    (applyCalls (fun (b : Unit) (_ : Unit) => b) sampleUpdate
        (RecastMeshManager.construct () () 2 0) sampleReportCalls).mLastNavMeshReportedChange =
      some ⟨1, ⟨0, 5⟩⟩ ∧
    acceptedReports (fun (b : Unit) (_ : Unit) => b) sampleUpdate
        (RecastMeshManager.construct () () 2 0) sampleReportCalls =
      [⟨1, ⟨0, 5⟩⟩, ⟨2, ⟨0, 5⟩⟩] ∧
    ∀ report change,
      (applyCalls (fun (b : Unit) (_ : Unit) => b) sampleUpdate
        (RecastMeshManager.construct () () 2 0) sampleReportCalls).mLastNavMeshReport =
        some report →
      (applyCalls (fun (b : Unit) (_ : Unit) => b) sampleUpdate
        (RecastMeshManager.construct () () 2 0) sampleReportCalls).mLastNavMeshReportedChange =
        some change →
      report.mNavMeshVersion = change.mNavMeshVersion :=
  ⟨by decide, by decide, by decide,
    (report_records_carry_same_navmesh_version (fun (b : Unit) (_ : Unit) => b) sampleUpdate
      () () 2 0 sampleReportCalls).2.1⟩

end ReportHistoryTheorems

/-! ## The key comparison is the lexicographic one -/

section KeyOrderTheorems

variable {Probe : Type}

theorem compareBytes_nil_nil : compareBytes [] [] = 0 := by
  simp [compareBytes, memcmp]

theorem compareBytes_nil_cons (y : Nat) (b : List Nat) : compareBytes [] (y :: b) = -1 := by
  simp [compareBytes, memcmp]

theorem compareBytes_cons_nil (x : Nat) (a : List Nat) : compareBytes (x :: a) [] = 1 := by
  simp [compareBytes, memcmp]

theorem compareBytes_cons_cons (x y : Nat) (a b : List Nat) :
    compareBytes (x :: a) (y :: b) =
      if x = y then compareBytes a b else (x : Int) - (y : Int) := by
  unfold compareBytes
  simp only [List.length_cons, Nat.succ_min_succ, memcmp]
  by_cases hxy : x = y
  · simp only [hxy, if_true, Nat.add_lt_add_iff_right, gt_iff_lt]
  · have hne : (x : Int) - (y : Int) ≠ 0 := by omega
    simp only [hxy, if_false, hne, ne_eq, not_false_eq_true, if_true]

theorem lexLess_irrefl : ∀ a : List Nat, lexLess a a = false
  | [] => rfl
  | x :: a => by simp [lexLess, lexLess_irrefl a]

theorem lexLess_asymm : ∀ a b : List Nat, lexLess a b = true → lexLess b a = false
  | [], [], h => by cases h
  | [], _ :: _, _ => rfl
  | _ :: _, [], h => by cases h
  | x :: a, y :: b, h => by
    simp only [lexLess] at h ⊢
    by_cases hxy : x = y
    · have hyx : y = x := hxy.symm
      simp only [hxy, if_true] at h
      simp only [hyx, if_true]
      exact lexLess_asymm a b h
    · have hyx : ¬ y = x := fun e => hxy e.symm
      simp only [hxy, if_false, decide_eq_true_eq] at h
      simp only [hyx, if_false, decide_eq_false_iff_not]
      omega

theorem lexLess_trans : ∀ a b c : List Nat,
    lexLess a b = true → lexLess b c = true → lexLess a c = true
  | [], [], _, h, _ => by cases h
  | [], _ :: _, [], _, h => by cases h
  | [], _ :: _, _ :: _, _, _ => rfl
  | _ :: _, [], _, h, _ => by cases h
  | _ :: _, _ :: _, [], _, h => by cases h
  | x :: a, y :: b, z :: c, h1, h2 => by
    simp only [lexLess] at h1 h2 ⊢
    by_cases hxy : x = y
    · subst hxy
      simp only [if_true] at h1
      by_cases hxz : x = z
      · subst hxz
        simp only [if_true] at h2 ⊢
        exact lexLess_trans a b c h1 h2
      · simp only [hxz, if_false] at h2 ⊢
        exact h2
    · simp only [hxy, if_false, decide_eq_true_eq] at h1
      by_cases hyz : y = z
      · subst hyz
        simp only [hxy, if_false, decide_eq_true_eq]
        exact h1
      · simp only [hyz, if_false, decide_eq_true_eq] at h2
        have hxz : ¬ x = z := by omega
        simp only [hxz, if_false, decide_eq_true_eq]
        omega

theorem lexLess_total : ∀ a b : List Nat,
    lexLess a b = true ∨ a = b ∨ lexLess b a = true
  | [], [] => Or.inr (Or.inl rfl)
  | [], _ :: _ => Or.inl rfl
  | _ :: _, [] => Or.inr (Or.inr rfl)
  | x :: a, y :: b => by
    simp only [lexLess, List.cons.injEq]
    by_cases hxy : x = y
    · subst hxy
      simp only [if_true, true_and]
      exact lexLess_total a b
    · have hyx : ¬ y = x := fun e => hxy e.symm
      simp only [hxy, hyx, if_false, decide_eq_true_eq, false_and]
      omega

theorem lexLess_of_first_difference (common : List Nat) (x y : Nat) (restA restB : List Nat)
    (h : x < y) : lexLess (common ++ x :: restA) (common ++ y :: restB) = true := by
  induction common with
  | nil =>
    have hxy : ¬ x = y := by omega
    simp [lexLess, hxy, h]
  | cons c common ih => simpa [lexLess] using ih

theorem lexLess_of_proper_prefix : ∀ (a rest : List Nat), rest ≠ [] →
    lexLess a (a ++ rest) = true
  | [], [], h => absurd rfl h
  | [], _ :: _, _ => rfl
  | x :: a, rest, h => by
    simpa [lexLess] using lexLess_of_proper_prefix a rest h

theorem lexLess_iff_first_difference_or_prefix : ∀ a b : List Nat,
    lexLess a b = true ↔
      ((∃ common x restA y restB,
          a = common ++ x :: restA ∧ b = common ++ y :: restB ∧ x < y) ∨
        (∃ rest, rest ≠ [] ∧ b = a ++ rest)) := by
  intro a b
  constructor
  · induction a generalizing b with
    | nil =>
      cases b with
      | nil => intro h; cases h
      | cons y b => intro _; exact Or.inr ⟨y :: b, by simp, rfl⟩
    | cons x a ih =>
      cases b with
      | nil => intro h; cases h
      | cons y b =>
        intro h
        simp only [lexLess] at h
        by_cases hxy : x = y
        · subst hxy
          simp only [if_true] at h
          rcases ih b h with ⟨common, u, restA, v, restB, h1, h2, h3⟩ | ⟨rest, h1, h2⟩
          · exact Or.inl ⟨x :: common, u, restA, v, restB, by rw [h1]; rfl, by rw [h2]; rfl, h3⟩
          · exact Or.inr ⟨rest, h1, by rw [h2]; rfl⟩
        · simp only [hxy, if_false, decide_eq_true_eq] at h
          exact Or.inl ⟨[], x, a, y, b, rfl, rfl, h⟩
  · rintro (⟨common, x, restA, y, restB, h1, h2, h3⟩ | ⟨rest, h1, h2⟩)
    · rw [h1, h2]
      exact lexLess_of_first_difference common x y restA restB h3
    · rw [h2]
      exact lexLess_of_proper_prefix a rest h1

theorem compareBytes_sign : ∀ a b : List Nat,
    (compareBytes a b < 0 ↔ lexLess a b = true) ∧
    (compareBytes a b = 0 ↔ a = b) ∧
    (compareBytes a b > 0 ↔ lexLess b a = true)
  | [], [] => by simp [compareBytes_nil_nil, lexLess]
  | [], y :: b => by simp [compareBytes_nil_cons, lexLess]
  | x :: a, [] => by simp [compareBytes_cons_nil, lexLess]
  | x :: a, y :: b => by
    rw [compareBytes_cons_cons]
    simp only [lexLess, List.cons.injEq]
    by_cases hxy : x = y
    · subst hxy
      simp only [if_true, true_and]
      exact compareBytes_sign a b
    · have hyx : ¬ y = x := fun e => hxy e.symm
      simp only [hxy, hyx, if_false, decide_eq_true_eq, false_and, iff_false]
      omega

/-- C27: the call `KeyView(a).compare(b)` is the three-way lexicographic
comparison of the byte sequences: negative exactly when `a` is
lexicographically less than `b` (the byte of `a` is smaller at the first
differing position, or `a` is a proper prefix of `b`), zero exactly when
`a = b`, positive exactly when `b` is lexicographically less than `a`; and
its sign is the opposite of the sign of `KeyView(b).compare(a)`. -/
theorem compare_is_three_way_lexicographic (probeCompare : Probe → List Nat → Int)
    (a b : List Nat) :
    (KeyView.compare probeCompare (.stored a) b < 0 ↔ lexLess a b = true) ∧
    (KeyView.compare probeCompare (.stored a) b = 0 ↔ a = b) ∧
    (KeyView.compare probeCompare (.stored a) b > 0 ↔ lexLess b a = true) ∧
    (lexLess a b = true ↔
      ((∃ common x restA y restB,
          a = common ++ x :: restA ∧ b = common ++ y :: restB ∧ x < y) ∨
        (∃ rest, rest ≠ [] ∧ b = a ++ rest))) ∧
    (KeyView.compare probeCompare (.stored a) b < 0 ↔
      KeyView.compare probeCompare (.stored b) a > 0) ∧
    (KeyView.compare probeCompare (.stored a) b = 0 ↔
      KeyView.compare probeCompare (.stored b) a = 0) ∧
    (KeyView.compare probeCompare (.stored a) b > 0 ↔
      KeyView.compare probeCompare (.stored b) a < 0) := by
  simp only [KeyView.compare]
  obtain ⟨h1, h2, h3⟩ := compareBytes_sign a b
  obtain ⟨k1, k2, k3⟩ := compareBytes_sign b a
  refine ⟨h1, h2, h3, lexLess_iff_first_difference_or_prefix a b, ?_, ?_, ?_⟩
  · rw [h1, k3]
  · rw [h2, k2]
    exact eq_comm
  · rw [h3, k1]

theorem less_stored_eq_lexLess (probeCompare : Probe → List Nat → Int) (a b : List Nat) :
    KeyView.less probeCompare (.stored a) (.stored b) = some (lexLess a b) := by
  simp only [KeyView.less, KeyView.isLess, KeyView.compare, Option.some.injEq]
  have h := (compareBytes_sign b a).2.2
  cases hl : lexLess a b
  · rw [decide_eq_false_iff_not, h, hl]
    simp
  · rw [decide_eq_true_eq, h, hl]

/-- C28: on byte-backed keys `operator<`, computed as
`rhs.compare(lhs bytes) > 0`, is strict lexicographic less-than on the byte
sequences; it is irreflexive and transitive, and for any two byte sequences
exactly one of `KeyView(a) < KeyView(b)`, `a = b`, `KeyView(b) < KeyView(a)`
holds, so two stored keys are equivalent for the ordered map only when their
bytes are equal. -/
theorem less_on_stored_keys_is_strict_lexicographic_order
    (probeCompare : Probe → List Nat → Int) :
    (∀ a b, KeyView.less probeCompare (.stored a) (.stored b) =
      some (decide (KeyView.compare probeCompare (.stored b) a > 0))) ∧
    (∀ a b, KeyView.less probeCompare (.stored a) (.stored b) = some (lexLess a b)) ∧
    (∀ a, KeyView.less probeCompare (.stored a) (.stored a) = some false) ∧
    (∀ a b c, KeyView.less probeCompare (.stored a) (.stored b) = some true →
      KeyView.less probeCompare (.stored b) (.stored c) = some true →
      KeyView.less probeCompare (.stored a) (.stored c) = some true) ∧
    (∀ a b,
      (KeyView.less probeCompare (.stored a) (.stored b) = some true ∧ a ≠ b ∧
        KeyView.less probeCompare (.stored b) (.stored a) = some false) ∨
      (KeyView.less probeCompare (.stored a) (.stored b) = some false ∧ a = b ∧
        KeyView.less probeCompare (.stored b) (.stored a) = some false) ∨
      (KeyView.less probeCompare (.stored a) (.stored b) = some false ∧ a ≠ b ∧
        KeyView.less probeCompare (.stored b) (.stored a) = some true)) ∧
    (∀ a b, KeyView.less probeCompare (.stored a) (.stored b) = some false →
      KeyView.less probeCompare (.stored b) (.stored a) = some false → a = b) := by
  have hne : ∀ a b : List Nat, lexLess a b = true → a ≠ b := by
    intro a b h e
    rw [e, lexLess_irrefl] at h
    cases h
  refine ⟨fun a b => rfl, less_stored_eq_lexLess probeCompare, ?_, ?_, ?_, ?_⟩
  · intro a
    rw [less_stored_eq_lexLess, lexLess_irrefl]
  · intro a b c h1 h2
    rw [less_stored_eq_lexLess, Option.some.injEq] at h1 h2 ⊢
    exact lexLess_trans a b c h1 h2
  · intro a b
    simp only [less_stored_eq_lexLess, Option.some.injEq]
    rcases lexLess_total a b with h | h | h
    · exact Or.inl ⟨h, hne a b h, lexLess_asymm a b h⟩
    · subst h
      exact Or.inr (Or.inl ⟨lexLess_irrefl a, rfl, lexLess_irrefl a⟩)
    · exact Or.inr (Or.inr ⟨lexLess_asymm b a h, fun e => hne b a h e.symm, h⟩)
  · intro a b h1 h2
    rw [less_stored_eq_lexLess, Option.some.injEq] at h1 h2
    rcases lexLess_total a b with h | h | h
    · rw [h] at h1; cases h1
    · exact h
    · rw [h] at h2; cases h2

end KeyOrderTheorems

/-! ## A borrow is released exactly once -/

section HandleMoveTheorems

variable {Owner : Type}

theorem held_append (a b : List (Option (Value Owner))) : held (a ++ b) = held a ++ held b := by
  induction a with
  | nil => rfl
  | cons x rest ih =>
    show heldBy x ++ held (rest ++ b) = (heldBy x ++ held rest) ++ held b
    rw [ih, List.append_assoc]

theorem held_set_perm : ∀ (handles : List (Option (Value Owner))) (i : Nat)
    (old new : Option (Value Owner)), handles[i]? = some old →
    (heldBy old ++ held (handles.set i new)).Perm (heldBy new ++ held handles)
  | [], i, _, _, h => by simp at h
  | x :: rest, 0, old, new, h => by
    simp only [List.getElem?_cons_zero, Option.some.injEq] at h
    subst h
    simp only [List.set_cons_zero, held]
    exact List.perm_append_comm_assoc _ _ _
  | x :: rest, i + 1, old, new, h => by
    simp only [List.getElem?_cons_succ] at h
    simp only [List.set_cons_succ, held]
    have ih := held_set_perm rest i old new h
    exact (List.perm_append_comm_assoc _ _ _).trans
      ((ih.append_left (heldBy x)).trans (List.perm_append_comm_assoc _ _ _))

theorem held_of_all_none : ∀ (handles : List (Option (Value Owner))),
    handles.all Option.isNone = true → held handles = []
  | [], _ => rfl
  | none :: rest, h => by
    simp only [List.all_cons, Option.isNone_none, Bool.true_and] at h
    simp only [held, heldBy, List.nil_append]
    exact held_of_all_none rest h
  | some _ :: rest, h => by
    simp only [List.all_cons, Option.isNone_some, Bool.false_and] at h
    cases h

theorem heldBy_emptied (v : Value Owner) :
    heldBy (some ({ v with mOwner := none } : Value Owner)) = [] := rfl

theorem heldBy_moved (v : Value Owner) :
    heldBy (some (⟨v.mOwner, v.mIterator⟩ : Value Owner)) = heldBy (some v) := rfl

theorem step_accounts_for_borrows (σ : HandleStore Owner) (op : HandleOp Owner) :
    ((σ.step op).mReleased ++ held (σ.step op).mHandles).Perm
      ((σ.mReleased ++ held σ.mHandles) ++ createdBy op) := by
  cases op with
  | make owner iterator =>
    simp only [HandleStore.step, createdBy, held_append, held, heldBy, Value.make, Value.destroy,
      List.append_nil, List.append_assoc]
    exact List.Perm.refl _
  | makeEmpty =>
    simp only [HandleStore.step, createdBy, held_append, held, heldBy, Value.empty,
      Value.destroy, List.append_nil]
    exact List.Perm.refl _
  | moveConstruct source =>
    simp only [createdBy, List.append_nil]
    cases hs : σ.mHandles[source]? with
    | none =>
      have e : σ.step (.moveConstruct source) = σ := by simp only [HandleStore.step, hs]
      rw [e]
    | some slot =>
      cases slot with
      | none =>
        have e : σ.step (.moveConstruct source) = σ := by simp only [HandleStore.step, hs]
        rw [e]
      | some other =>
        have e : σ.step (.moveConstruct source) =
            { σ with
              mHandles := σ.mHandles.set source (some (Value.moveConstruct other).2) ++
                [some (Value.moveConstruct other).1] } := by
          simp only [HandleStore.step, hs]
        rw [e]
        simp only [held_append, held, List.append_nil, Value.moveConstruct]
        rw [heldBy_moved]
        have hp := held_set_perm σ.mHandles source (some other)
          (some ({ other with mOwner := none } : Value Owner)) hs
        rw [heldBy_emptied, List.nil_append] at hp
        exact List.Perm.append_left _ ((List.perm_append_comm).trans hp)
  | moveAssign target source =>
    simp only [createdBy, List.append_nil]
    have keep : ∀ τ : HandleStore Owner, τ = σ →
        (τ.mReleased ++ held τ.mHandles).Perm (σ.mReleased ++ held σ.mHandles) := by
      intro τ e
      rw [e]
    cases ht : σ.mHandles[target]? with
    | none => exact keep _ (by simp only [HandleStore.step, ht])
    | some slotT =>
      cases slotT with
      | none => exact keep _ (by simp only [HandleStore.step, ht])
      | some self =>
        cases hs : σ.mHandles[source]? with
        | none => exact keep _ (by simp only [HandleStore.step, ht, hs])
        | some slotS =>
          cases slotS with
          | none => exact keep _ (by simp only [HandleStore.step, ht, hs])
          | some other =>
            by_cases hts : target = source
            · have hso : self = other := by
                rw [hts, hs] at ht
                exact (Option.some.inj (Option.some.inj ht)).symm
              have e : σ.step (.moveAssign target source) =
                  { mHandles := σ.mHandles.set target (some (Value.moveAssignSelf self).2)
                    mReleased := σ.mReleased ++ (Value.moveAssignSelf self).1 } := by
                simp only [HandleStore.step, ht, hs, hts, hso, if_true]
              rw [e]
              have hp := held_set_perm σ.mHandles target (some self)
                (some ({ self with mOwner := none } : Value Owner)) ht
              rw [heldBy_emptied, List.nil_append] at hp
              simp only [Value.moveAssignSelf, List.append_assoc]
              exact List.Perm.append_left _ hp
            · have e : σ.step (.moveAssign target source) =
                  { mHandles :=
                      (σ.mHandles.set target (some (Value.moveAssign self other).2.1)).set
                        source (some (Value.moveAssign self other).2.2)
                    mReleased := σ.mReleased ++ (Value.moveAssign self other).1 } := by
                simp only [HandleStore.step, ht, hs, hts, if_false]
              rw [e]
              simp only [Value.moveAssign, List.append_assoc]
              have h1 := held_set_perm σ.mHandles target (some self)
                (some (⟨other.mOwner, other.mIterator⟩ : Value Owner)) ht
              have hs2 : (σ.mHandles.set target
                  (some (⟨other.mOwner, other.mIterator⟩ : Value Owner)))[source]? =
                  some (some other) := by
                rw [List.getElem?_set_ne hts]
                exact hs
              have h2 := held_set_perm _ source (some other)
                (some ({ other with mOwner := none } : Value Owner)) hs2
              rw [heldBy_emptied, List.nil_append] at h2
              rw [heldBy_moved] at h1
              have h3 := (h2.append_left (heldBy (some self))).trans h1
              have h4 := (List.perm_append_comm_assoc _ _ _).trans h3
              exact List.Perm.append_left _ ((List.perm_append_left_iff _).mp h4)
  | destroy slot =>
    simp only [createdBy, List.append_nil]
    cases hs : σ.mHandles[slot]? with
    | none =>
      have e : σ.step (.destroy slot) = σ := by simp only [HandleStore.step, hs]
      rw [e]
    | some handle =>
      cases handle with
      | none =>
        have e : σ.step (.destroy slot) = σ := by simp only [HandleStore.step, hs]
        rw [e]
      | some v =>
        have e : σ.step (.destroy slot) =
            { mHandles := σ.mHandles.set slot none
              mReleased := σ.mReleased ++ v.destroy } := by
          simp only [HandleStore.step, hs]
        rw [e]
        have hp := held_set_perm σ.mHandles slot (some v) none hs
        simp only [List.append_assoc]
        exact List.Perm.append_left _ hp

theorem run_accounts_for_borrows : ∀ (ops : List (HandleOp Owner)) (σ : HandleStore Owner),
    ((σ.run ops).mReleased ++ held (σ.run ops).mHandles).Perm
      ((σ.mReleased ++ held σ.mHandles) ++ created ops)
  | [], σ => by
    simp only [HandleStore.run, List.foldl_nil, created, List.append_nil]
    exact List.Perm.refl _
  | op :: rest, σ => by
    have ih := run_accounts_for_borrows rest (σ.step op)
    have hstep := step_accounts_for_borrows σ op
    have e : σ.run (op :: rest) = (σ.step op).run rest := rfl
    rw [e]
    simp only [created, ← List.append_assoc]
    exact ih.trans (hstep.append_right _)

/-- C21: a borrow has one owner and is released once. Move-constructing
from `h` gives a handle holding what `h` held and leaves `h` empty, with no
`releaseItem` call; move-assigning `h` into `a` calls `releaseItem` for what
`a` held (once, and only when `a` was not empty), leaves `a` holding what `h`
held and `h` empty; assigning a handle to itself releases what it held and
leaves it empty. Hence in any program of constructions, move constructions,
move assignments and destructions the calls made so far together with the
borrows still held are the borrows created, and once every handle is
destroyed `releaseItem` has been called exactly once per handle created from
`(owner, iterator)`. -/
theorem borrow_released_exactly_once (ops : List (HandleOp Owner)) :
    (∀ h : Value Owner,
      (Value.moveConstruct h).1 = h ∧ (Value.moveConstruct h).2.toBool = false) ∧
    (∀ (σ : HandleStore Owner) (source : Nat),
      (σ.step (.moveConstruct source)).mReleased = σ.mReleased) ∧
    (∀ a h : Value Owner,
      (Value.moveAssign a h).1 = a.destroy ∧
      (a.toBool = false → (Value.moveAssign a h).1 = []) ∧
      (∀ owner, a.mOwner = some owner →
        (Value.moveAssign a h).1 = [(owner, a.mIterator)]) ∧
      (Value.moveAssign a h).2.1 = h ∧
      (Value.moveAssign a h).2.2.toBool = false) ∧
    (∀ a : Value Owner,
      (Value.moveAssignSelf a).1 = a.destroy ∧ (Value.moveAssignSelf a).2.toBool = false) ∧
    ((HandleStore.initial.run ops).mReleased ++
        held (HandleStore.initial.run ops).mHandles).Perm (created ops) ∧
    ((HandleStore.initial.run ops).allDestroyed = true →
      ((HandleStore.initial.run ops).mReleased).Perm (created ops)) := by
  have hrun := run_accounts_for_borrows ops (HandleStore.initial : HandleStore Owner)
  simp only [HandleStore.initial, held, List.append_nil, List.nil_append] at hrun
  refine ⟨fun h => ⟨rfl, rfl⟩, ?_, ?_, fun a => ⟨rfl, rfl⟩, hrun, ?_⟩
  · intro σ source
    cases hs : σ.mHandles[source]? with
    | none => simp only [HandleStore.step, hs]
    | some slot =>
      cases slot with
      | none => simp only [HandleStore.step, hs]
      | some other => simp only [HandleStore.step, hs]
  · intro a h
    refine ⟨rfl, ?_, ?_, rfl, rfl⟩
    · intro ha
      cases a with
      | mk mOwner mIterator =>
        cases mOwner with
        | none => rfl
        | some owner => cases ha
    · intro owner ha
      simp only [Value.moveAssign, ha]
  · intro hall
    have hnone := held_of_all_none _ hall
    simp only [HandleStore.initial] at hnone
    rw [hnone, List.append_nil] at hrun
    exact hrun

theorem borrow_released_exactly_once_witness :
    (HandleStore.initial.run sampleHandleOps).allDestroyed = true ∧
    (HandleStore.initial.run sampleHandleOps).mReleased = [(1, some 11), (1, some 10)] ∧
    created sampleHandleOps = [(1, some 10), (1, some 11)] ∧
    ((HandleStore.initial.run sampleHandleOps).mReleased).Perm (created sampleHandleOps) :=
  ⟨by decide, by decide, by decide,
    (borrow_released_exactly_once sampleHandleOps).2.2.2.2.2 (by decide)⟩

end HandleMoveTheorems

/-! ## The tile store: conflicts, lookups and updates -/

section TileStoreTheorems

theorem hasId_iff (db : NavMeshDb) (tileId : Int) :
    db.hasId tileId = true ↔ ∃ row ∈ db.mRows, row.mTileId = tileId := by
  simp [NavMeshDb.hasId]

theorem hasKey_iff (db : NavMeshDb) (worldspace : String) (tilePosition : Vec2i)
    (input : List Nat) :
    db.hasKey worldspace tilePosition input = true ↔
      ∃ row ∈ db.mRows, row.key = (worldspace, tilePosition, input) := by
  simp [NavMeshDb.hasKey]

theorem key_eq_iff (row : StoredTileRow) (worldspace : String) (tilePosition : Vec2i)
    (input : List Nat) :
    row.key = (worldspace, tilePosition, input) ↔
      row.mWorldspace = worldspace ∧ row.mTilePosition = tilePosition ∧ row.mInput = input := by
  simp [StoredTileRow.key]

theorem hasId_false_iff (db : NavMeshDb) (tileId : Int) :
    db.hasId tileId = false ↔ ∀ row ∈ db.mRows, row.mTileId ≠ tileId := by
  rw [← Bool.not_eq_true, hasId_iff]
  simp

theorem hasKey_false_iff (db : NavMeshDb) (worldspace : String) (tilePosition : Vec2i)
    (input : List Nat) :
    db.hasKey worldspace tilePosition input = false ↔
      ∀ row ∈ db.mRows, row.key ≠ (worldspace, tilePosition, input) := by
  rw [← Bool.not_eq_true, hasKey_iff]
  simp

theorem insertTile_conflict (db : NavMeshDb) (tileId : Int) (worldspace : String)
    (tilePosition : Vec2i) (version : Int) (input data : List Nat)
    (h : (db.hasId tileId || db.hasKey worldspace tilePosition input) = true) :
    db.insertTile tileId worldspace tilePosition version input data =
      (.error .conflict, db) := by
  simp only [NavMeshDb.insertTile, h, if_true]

theorem insertTile_fresh (db : NavMeshDb) (tileId : Int) (worldspace : String)
    (tilePosition : Vec2i) (version : Int) (input data : List Nat)
    (h1 : db.hasId tileId = false) (h2 : db.hasKey worldspace tilePosition input = false) :
    db.insertTile tileId worldspace tilePosition version input data =
      (.ok 1, ⟨db.mRows ++ [⟨tileId, worldspace, tilePosition, version, input, data⟩]⟩) := by
  simp [NavMeshDb.insertTile, h1, h2]

theorem insertTile_ok_fresh (db : NavMeshDb) (tileId : Int) (worldspace : String)
    (tilePosition : Vec2i) (version : Int) (input data : List Nat) (n : Nat)
    (h : (db.insertTile tileId worldspace tilePosition version input data).1 = .ok n) :
    db.hasId tileId = false ∧ db.hasKey worldspace tilePosition input = false := by
  cases hc : (db.hasId tileId || db.hasKey worldspace tilePosition input)
  · simpa using hc
  · rw [insertTile_conflict db tileId worldspace tilePosition version input data hc] at h
    cases h

theorem find?_of_nodup_map {α β : Type} [DecidableEq β] (f : α → β) :
    ∀ (l : List α) (x : α), (l.map f).Nodup → x ∈ l →
      l.find? (fun y => decide (f y = f x)) = some x
  | [], _, _, h => by cases h
  | y :: l, x, hn, hx => by
    simp only [List.map_cons, List.nodup_cons] at hn
    rcases List.mem_cons.mp hx with e | hl
    · subst e
      simp
    · have hne : ¬ f y = f x := by
        intro e
        exact hn.1 (e ▸ List.mem_map_of_mem f hl)
      rw [List.find?_cons_of_neg _ (by simpa using hne)]
      exact find?_of_nodup_map f l x hn.2 hl

theorem filter_length_of_nodup_map {α β : Type} [DecidableEq β] (f : α → β) :
    ∀ (l : List α) (x : α), (l.map f).Nodup → x ∈ l →
      (l.filter (fun y => decide (f y = f x))).length = 1
  | [], _, _, h => by cases h
  | y :: l, x, hn, hx => by
    simp only [List.map_cons, List.nodup_cons] at hn
    rcases List.mem_cons.mp hx with e | hl
    · subst e
      have hnone : l.filter (fun y => decide (f y = f x)) = [] := by
        rw [List.filter_eq_nil_iff]
        intro z hz hfz
        exact hn.1 ((of_decide_eq_true hfz) ▸ List.mem_map_of_mem f hz)
      simp [hnone]
    · have hne : ¬ f y = f x := by
        intro e
        exact hn.1 (e ▸ List.mem_map_of_mem f hl)
      rw [List.filter_cons_of_neg (by simpa using hne)]
      exact filter_length_of_nodup_map f l x hn.2 hl

theorem updateTile_rows_ids (db : NavMeshDb) (tileId : Int) (version : Int) (data : List Nat) :
    (db.updateTile tileId version data).2.mRows.map (fun row => row.mTileId) =
      db.mRows.map (fun row => row.mTileId) := by
  simp only [NavMeshDb.updateTile, List.map_map]
  apply List.map_congr_left
  intro row _
  simp only [Function.comp]
  split_ifs <;> rfl

theorem updateTile_rows_keys (db : NavMeshDb) (tileId : Int) (version : Int) (data : List Nat) :
    (db.updateTile tileId version data).2.mRows.map StoredTileRow.key =
      db.mRows.map StoredTileRow.key := by
  simp only [NavMeshDb.updateTile, List.map_map]
  apply List.map_congr_left
  intro row _
  simp only [Function.comp]
  split_ifs <;> rfl

theorem updateTile_absent (db : NavMeshDb) (tileId : Int) (version : Int) (data : List Nat)
    (h : db.hasId tileId = false) : db.updateTile tileId version data = (0, db) := by
  rw [hasId_false_iff] at h
  have hfilter : db.mRows.filter (fun row => decide (row.mTileId = tileId)) = [] := by
    rw [List.filter_eq_nil_iff]
    intro row hrow
    simpa using h row hrow
  have hmap : db.mRows.map (fun row =>
      if row.mTileId = tileId then { row with mVersion := version, mData := data } else row)
      = db.mRows := by
    have e : db.mRows.map (fun row =>
        if row.mTileId = tileId then { row with mVersion := version, mData := data } else row)
        = db.mRows.map id := by
      apply List.map_congr_left
      intro row hrow
      rw [if_neg (h row hrow)]
      rfl
    rw [e, List.map_id]
  simp only [NavMeshDb.updateTile, hfilter, hmap, List.length_nil]

theorem wellFormed_create : NavMeshDb.create.WellFormed := by
  simp [NavMeshDb.create, NavMeshDb.WellFormed]

theorem wellFormed_apply (db : NavMeshDb) (call : DbCall) (h : db.WellFormed) :
    (db.apply call).WellFormed := by
  cases call with
  | insertTile tileId worldspace tilePosition version input data =>
    simp only [NavMeshDb.apply]
    cases hc : (db.hasId tileId || db.hasKey worldspace tilePosition input)
    · have h1 : db.hasId tileId = false := by simpa using (Bool.or_eq_false_iff.mp hc).1
      have h2 : db.hasKey worldspace tilePosition input = false := by
        simpa using (Bool.or_eq_false_iff.mp hc).2
      rw [insertTile_fresh db tileId worldspace tilePosition version input data h1 h2]
      rw [hasId_false_iff] at h1
      rw [hasKey_false_iff] at h2
      unfold NavMeshDb.WellFormed at h ⊢
      simp only [List.map_append, List.map_cons, List.map_nil]
      constructor
      · rw [List.nodup_append]
        refine ⟨h.1, List.nodup_singleton _, ?_⟩
        intro a ha hb
        rw [List.mem_singleton] at hb
        obtain ⟨row, hrow, e⟩ := List.mem_map.mp ha
        exact h1 row hrow (e.trans hb)
      · rw [List.nodup_append]
        refine ⟨h.2, List.nodup_singleton _, ?_⟩
        intro a ha hb
        rw [List.mem_singleton] at hb
        obtain ⟨row, hrow, e⟩ := List.mem_map.mp ha
        exact h2 row hrow (e.trans hb)
    · rw [insertTile_conflict db tileId worldspace tilePosition version input data hc]
      exact h
  | updateTile tileId version data =>
    simp only [NavMeshDb.apply]
    unfold NavMeshDb.WellFormed at h ⊢
    rw [updateTile_rows_ids, updateTile_rows_keys]
    exact h

theorem wellFormed_run : ∀ (calls : List DbCall) (db : NavMeshDb), db.WellFormed →
    (db.run calls).WellFormed
  | [], _, h => h
  | call :: rest, db, h => wellFormed_run rest (db.apply call) (wellFormed_apply db call h)

theorem foldl_max_bounds : ∀ (rest : List StoredTileRow) (init : Int),
    init ≤ rest.foldl (fun best other => max best other.mTileId) init ∧
    (∀ row ∈ rest, row.mTileId ≤ rest.foldl (fun best other => max best other.mTileId) init) ∧
    (rest.foldl (fun best other => max best other.mTileId) init = init ∨
      ∃ row ∈ rest, row.mTileId = rest.foldl (fun best other => max best other.mTileId) init)
  | [], init => by simp
  | row :: rest, init => by
    obtain ⟨h1, h2, h3⟩ := foldl_max_bounds rest (max init row.mTileId)
    simp only [List.foldl_cons, List.mem_cons, forall_eq_or_imp, exists_eq_or_imp]
    refine ⟨le_trans (le_max_left _ _) h1, ⟨le_trans (le_max_right _ _) h1, h2⟩, ?_⟩
    rcases h3 with h3 | h3
    · rcases max_choice init row.mTileId with hm | hm
      · left
        rw [h3, hm]
      · right
        left
        rw [h3, hm]
    · right
      right
      exact h3

/-- C22: `insertTile` with an id that already has a row fails with the
conflict error, whatever the other arguments are; with an id that has no row
and a natural key that is not stored it returns 1 and the store gains exactly
the new row. -/
theorem insertTile_existing_id_conflicts_fresh_returns_one (db : NavMeshDb) (tileId : Int)
    (worldspace : String) (tilePosition : Vec2i) (version : Int) (input data : List Nat) :
    ((∃ row ∈ db.mRows, row.mTileId = tileId) →
      (db.insertTile tileId worldspace tilePosition version input data).1 =
        .error .conflict) ∧
    ((∀ row ∈ db.mRows, row.mTileId ≠ tileId) →
      (∀ row ∈ db.mRows, ¬ (row.mWorldspace = worldspace ∧ row.mTilePosition = tilePosition ∧
        row.mInput = input)) →
      (db.insertTile tileId worldspace tilePosition version input data).1 = .ok 1 ∧
      (db.insertTile tileId worldspace tilePosition version input data).2.mRows =
        db.mRows ++ [⟨tileId, worldspace, tilePosition, version, input, data⟩]) := by
  constructor
  · intro h
    have hid : db.hasId tileId = true := (hasId_iff db tileId).mpr h
    rw [insertTile_conflict db tileId worldspace tilePosition version input data (by simp [hid])]
  · intro h1 h2
    have hid : db.hasId tileId = false := (hasId_false_iff db tileId).mpr h1
    have hkey : db.hasKey worldspace tilePosition input = false := by
      rw [hasKey_false_iff]
      intro row hrow e
      exact h2 row hrow ((key_eq_iff row worldspace tilePosition input).mp e)
    rw [insertTile_fresh db tileId worldspace tilePosition version input data hid hkey]
    exact ⟨rfl, rfl⟩

theorem insertTile_existing_id_conflicts_fresh_returns_one_witness :
    (∃ row ∈ (NavMeshDb.create.run sampleDbCalls).mRows, row.mTileId = 53) ∧
    ((NavMeshDb.create.run sampleDbCalls).insertTile 53 "other" ⟨0, 0⟩ 7 [9] [8]).1 =
      .error .conflict ∧
    ((NavMeshDb.create.run sampleDbCalls).insertTile 146 "sys::default" ⟨3, 4⟩ 1 [20] [21]).1 =
      .ok 1 :=
  ⟨by decide,
    (insertTile_existing_id_conflicts_fresh_returns_one (NavMeshDb.create.run sampleDbCalls)
      53 "other" ⟨0, 0⟩ 7 [9] [8]).1 (by decide),
    ((insertTile_existing_id_conflicts_fresh_returns_one (NavMeshDb.create.run sampleDbCalls)
      146 "sys::default" ⟨3, 4⟩ 1 [20] [21]).2 (by decide) (by decide)).1⟩

/-- C23: a failed duplicate `insertTile` is atomic: when the id already has
a row the call fails and the store afterwards is the store before, so every
row keeps its region, tile position, version, input hash and payload and no
row is added or removed; a following `insertTile` with an id and a natural
key that are not stored returns 1. -/
theorem failed_insertTile_leaves_store_unchanged (db : NavMeshDb) (tileId : Int)
    (worldspace : String) (tilePosition : Vec2i) (version : Int) (input data : List Nat)
    (hexists : ∃ row ∈ db.mRows, row.mTileId = tileId) :
    (db.insertTile tileId worldspace tilePosition version input data).1 = .error .conflict ∧
    (db.insertTile tileId worldspace tilePosition version input data).2 = db ∧
    (db.insertTile tileId worldspace tilePosition version input data).2.mRows = db.mRows ∧
    (∀ (freshId : Int) (region : String) (position : Vec2i) (freshVersion : Int)
        (freshInput freshData : List Nat),
      (∀ row ∈ db.mRows, row.mTileId ≠ freshId) →
      (∀ row ∈ db.mRows, ¬ (row.mWorldspace = region ∧ row.mTilePosition = position ∧
        row.mInput = freshInput)) →
      ((db.insertTile tileId worldspace tilePosition version input data).2.insertTile
        freshId region position freshVersion freshInput freshData).1 = .ok 1 ∧
      ((db.insertTile tileId worldspace tilePosition version input data).2.insertTile
        freshId region position freshVersion freshInput freshData).2.mRows =
        db.mRows ++ [⟨freshId, region, position, freshVersion, freshInput, freshData⟩]) := by
  have hid : db.hasId tileId = true := (hasId_iff db tileId).mpr hexists
  rw [insertTile_conflict db tileId worldspace tilePosition version input data (by simp [hid])]
  refine ⟨rfl, rfl, rfl, ?_⟩
  intro freshId region position freshVersion freshInput freshData h1 h2
  have hfid : db.hasId freshId = false := (hasId_false_iff db freshId).mpr h1
  have hkey : db.hasKey region position freshInput = false := by
    rw [hasKey_false_iff]
    intro row hrow e
    exact h2 row hrow ((key_eq_iff row region position freshInput).mp e)
  show (db.insertTile freshId region position freshVersion freshInput freshData).1 = .ok 1 ∧ _
  rw [insertTile_fresh db freshId region position freshVersion freshInput freshData hfid hkey]
  exact ⟨rfl, rfl⟩

theorem failed_insertTile_leaves_store_unchanged_witness :
    (∃ row ∈ (NavMeshDb.create.run (sampleDbCalls.take 1)).mRows, row.mTileId = 53) ∧
    ((NavMeshDb.create.run (sampleDbCalls.take 1)).insertTile 53 "sys::default" ⟨3, 4⟩ 1
      [1, 2, 3] [4, 5, 6]).2.mRows = [⟨53, "sys::default", ⟨3, 4⟩, 1, [1, 2, 3], [4, 5, 6]⟩] ∧
    (((NavMeshDb.create.run (sampleDbCalls.take 1)).insertTile 53 "sys::default" ⟨3, 4⟩ 1
      [1, 2, 3] [4, 5, 6]).2.insertTile 54 "sys::default" ⟨3, 4⟩ 1 [7, 8, 9] [10, 11]).1 =
      .ok 1 :=
  ⟨by decide, by decide,
    ((failed_insertTile_leaves_store_unchanged (NavMeshDb.create.run (sampleDbCalls.take 1))
      53 "sys::default" ⟨3, 4⟩ 1 [1, 2, 3] [4, 5, 6] (by decide)).2.2.2
      54 "sys::default" ⟨3, 4⟩ 1 [7, 8, 9] [10, 11] (by decide) (by decide)).1⟩

/-- C24: `getMaxTileId` returns 0 for a store without rows and otherwise the
greatest id of a row: the id of some row, and no row has a greater one. After
`insertTile` with id `n` into the empty store, which succeeds, it returns
`n`. -/
theorem getMaxTileId_zero_or_greatest_id (db : NavMeshDb) :
    (db.mRows = [] → db.getMaxTileId = 0) ∧
    (db.mRows ≠ [] →
      (∃ row ∈ db.mRows, row.mTileId = db.getMaxTileId) ∧
      (∀ row ∈ db.mRows, row.mTileId ≤ db.getMaxTileId)) ∧
    (∀ (n : Int) (worldspace : String) (tilePosition : Vec2i) (version : Int)
        (input data : List Nat),
      (NavMeshDb.create.insertTile n worldspace tilePosition version input data).1 = .ok 1 ∧
      (NavMeshDb.create.insertTile n worldspace tilePosition version input
        data).2.getMaxTileId = n) := by
  refine ⟨?_, ?_, ?_⟩
  · intro h
    simp only [NavMeshDb.getMaxTileId, h]
  · intro h
    cases hrows : db.mRows with
    | nil => exact absurd hrows h
    | cons row rest =>
      obtain ⟨h1, h2, h3⟩ := foldl_max_bounds rest row.mTileId
      simp only [NavMeshDb.getMaxTileId, hrows, List.mem_cons, exists_eq_or_imp,
        forall_eq_or_imp]
      refine ⟨?_, h1, h2⟩
      rcases h3 with h3 | h3
      · left
        exact h3.symm
      · right
        exact h3
  · intro n worldspace tilePosition version input data
    exact ⟨rfl, rfl⟩

theorem getMaxTileId_zero_or_greatest_id_witness :
    (NavMeshDb.create.run sampleDbCalls).mRows ≠ [] ∧
    (NavMeshDb.create.run sampleDbCalls).getMaxTileId = 54 ∧
    NavMeshDb.create.getMaxTileId = 0 ∧
    (NavMeshDb.create.insertTile 53 "sys::default" ⟨3, 4⟩ 1 [1, 2, 3]
      [4, 5, 6]).2.getMaxTileId = 53 ∧
    (∀ row ∈ (NavMeshDb.create.run sampleDbCalls).mRows,
      row.mTileId ≤ (NavMeshDb.create.run sampleDbCalls).getMaxTileId) :=
  ⟨by decide, by decide, by decide, by decide,
    ((getMaxTileId_zero_or_greatest_id (NavMeshDb.create.run sampleDbCalls)).2.1
      (by decide)).2⟩

/-- C25: `findTile` is a lookup by the natural key only. It returns a result
exactly when some row has that region, tile position and input hash, and the
result is the id and version of such a row; in every store reached from the
empty one each row is found under its own natural key; a tile inserted with
`insertTile(id, r, p, v, h, d)` is found by `findTile(r, p, h)` with `id` and
`v`; and a query that differs from every row in one of the three components
returns nothing. -/
theorem findTile_is_lookup_by_natural_key (db : NavMeshDb) (calls : List DbCall) :
    (∀ worldspace tilePosition input,
      (db.findTile worldspace tilePosition input).isSome = true ↔
        ∃ row ∈ db.mRows, row.mWorldspace = worldspace ∧
          row.mTilePosition = tilePosition ∧ row.mInput = input) ∧
    (∀ worldspace tilePosition input tile,
      db.findTile worldspace tilePosition input = some tile →
        ∃ row ∈ db.mRows, row.mWorldspace = worldspace ∧
          row.mTilePosition = tilePosition ∧ row.mInput = input ∧
          tile = ⟨row.mTileId, row.mVersion⟩) ∧
    (∀ row ∈ (NavMeshDb.create.run calls).mRows,
      (NavMeshDb.create.run calls).findTile row.mWorldspace row.mTilePosition row.mInput =
        some ⟨row.mTileId, row.mVersion⟩) ∧
    (∀ tileId worldspace tilePosition version input data,
      (db.insertTile tileId worldspace tilePosition version input data).1 = .ok 1 →
      (db.insertTile tileId worldspace tilePosition version input data).2.findTile
        worldspace tilePosition input = some ⟨tileId, version⟩) ∧
    (∀ worldspace tilePosition input,
      (∀ row ∈ db.mRows, row.mWorldspace ≠ worldspace ∨
        row.mTilePosition ≠ tilePosition ∨ row.mInput ≠ input) →
      db.findTile worldspace tilePosition input = none) := by
  refine ⟨?_, ?_, ?_, ?_, ?_⟩
  · intro worldspace tilePosition input
    simp only [NavMeshDb.findTile, Option.isSome_map', List.find?_isSome, decide_eq_true_eq,
      key_eq_iff]
  · intro worldspace tilePosition input tile h
    simp only [NavMeshDb.findTile, Option.map_eq_some'] at h
    obtain ⟨row, hfind, htile⟩ := h
    have hkey := List.find?_some hfind
    simp only [decide_eq_true_eq, key_eq_iff] at hkey
    exact ⟨row, List.mem_of_find?_eq_some hfind, hkey.1, hkey.2.1, hkey.2.2, htile.symm⟩
  · intro row hrow
    have hwf := wellFormed_run calls NavMeshDb.create wellFormed_create
    have hfind := find?_of_nodup_map StoredTileRow.key _ row hwf.2 hrow
    simp only [NavMeshDb.findTile]
    have e : (row.mWorldspace, row.mTilePosition, row.mInput) = row.key := rfl
    rw [e, hfind]
    rfl
  · intro tileId worldspace tilePosition version input data hok
    obtain ⟨h1, h2⟩ :=
      insertTile_ok_fresh db tileId worldspace tilePosition version input data 1 hok
    rw [insertTile_fresh db tileId worldspace tilePosition version input data h1 h2]
    rw [hasKey_false_iff] at h2
    have hnone : db.mRows.find?
        (fun row => decide (row.key = (worldspace, tilePosition, input))) = none := by
      rw [List.find?_eq_none]
      intro row hrow
      simpa using h2 row hrow
    simp only [NavMeshDb.findTile, List.find?_append, hnone, Option.none_or]
    simp [StoredTileRow.key]
  · intro worldspace tilePosition input h
    have hnone : db.mRows.find?
        (fun row => decide (row.key = (worldspace, tilePosition, input))) = none := by
      rw [List.find?_eq_none]
      intro row hrow
      simp only [decide_eq_true_eq, key_eq_iff]
      intro hk
      rcases h row hrow with h1 | h1 | h1
      · exact h1 hk.1
      · exact h1 hk.2.1
      · exact h1 hk.2.2
    simp only [NavMeshDb.findTile, hnone, Option.map_none']

theorem findTile_is_lookup_by_natural_key_witness :
    (NavMeshDb.create.insertTile 146 "sys::default" ⟨3, 4⟩ 1 [1, 2, 3] [4, 5, 6]).1 = .ok 1 ∧
    (NavMeshDb.create.insertTile 146 "sys::default" ⟨3, 4⟩ 1 [1, 2, 3] [4, 5, 6]).2.findTile
      "sys::default" ⟨3, 4⟩ [1, 2, 3] = some ⟨146, 1⟩ ∧
    (NavMeshDb.create.run sampleDbCalls).findTile "sys::default" ⟨3, 4⟩ [12, 13] =
      some ⟨13, 2⟩ ∧
    (NavMeshDb.create.run sampleDbCalls).findTile "sys::default" ⟨3, 5⟩ [12, 13] = none :=
  ⟨rfl,
    (findTile_is_lookup_by_natural_key NavMeshDb.create sampleDbCalls).2.2.2.1
      146 "sys::default" ⟨3, 4⟩ 1 [1, 2, 3] [4, 5, 6] rfl,
    by decide, by decide⟩

/-- C26: in every store reached from the empty one, `updateTile` returns 0
and changes nothing when no row has the id; when a row has the id it returns
1, and afterwards `getTileData` with the natural key of that row returns the
same id with the version and the payload passed to `updateTile`, while the
natural keys and ids of all rows, and every row with another id, are as
before. -/
theorem updateTile_overwrites_version_and_payload (calls : List DbCall) (tileId : Int)
    (version : Int) (data : List Nat) :
    ((∀ row ∈ (NavMeshDb.create.run calls).mRows, row.mTileId ≠ tileId) →
      (NavMeshDb.create.run calls).updateTile tileId version data =
        (0, NavMeshDb.create.run calls)) ∧
    (∀ row ∈ (NavMeshDb.create.run calls).mRows, row.mTileId = tileId →
      ((NavMeshDb.create.run calls).updateTile tileId version data).1 = 1 ∧
      ((NavMeshDb.create.run calls).updateTile tileId version data).2.getTileData
        row.mWorldspace row.mTilePosition row.mInput = some ⟨tileId, version, data⟩ ∧
      ((NavMeshDb.create.run calls).updateTile tileId version data).2.mRows.map
          StoredTileRow.key = (NavMeshDb.create.run calls).mRows.map StoredTileRow.key ∧
      ((NavMeshDb.create.run calls).updateTile tileId version data).2.mRows.map
          (fun other => other.mTileId) =
        (NavMeshDb.create.run calls).mRows.map (fun other => other.mTileId) ∧
      (∀ other ∈ (NavMeshDb.create.run calls).mRows, other.mTileId ≠ tileId →
        other ∈ ((NavMeshDb.create.run calls).updateTile tileId version data).2.mRows) ∧
      (∀ other ∈ ((NavMeshDb.create.run calls).updateTile tileId version data).2.mRows,
        other.mTileId ≠ tileId → other ∈ (NavMeshDb.create.run calls).mRows)) := by
  have hwf := wellFormed_run calls NavMeshDb.create wellFormed_create
  generalize NavMeshDb.create.run calls = db at hwf
  constructor
  · intro h
    exact updateTile_absent db tileId version data ((hasId_false_iff db tileId).mpr h)
  · intro row hrow hid
    refine ⟨?_, ?_, updateTile_rows_keys db tileId version data,
      updateTile_rows_ids db tileId version data, ?_, ?_⟩
    · have hlen := filter_length_of_nodup_map (fun r : StoredTileRow => r.mTileId)
        db.mRows row hwf.1 hrow
      simp only [hid] at hlen
      simpa [NavMeshDb.updateTile] using hlen
    · have hfind := find?_of_nodup_map StoredTileRow.key db.mRows row hwf.2 hrow
      have e : (row.mWorldspace, row.mTilePosition, row.mInput) = row.key := rfl
      simp only [NavMeshDb.getTileData, NavMeshDb.updateTile, List.find?_map, e]
      have hcomp : ((fun r : StoredTileRow => decide (r.key = row.key)) ∘
          fun r : StoredTileRow =>
            if r.mTileId = tileId then { r with mVersion := version, mData := data } else r)
          = fun r : StoredTileRow => decide (r.key = row.key) := by
        funext r
        simp only [Function.comp]
        split_ifs <;> rfl
      rw [hcomp, hfind]
      simp [hid]
    · intro other hother hne
      simp only [NavMeshDb.updateTile, List.mem_map]
      exact ⟨other, hother, by rw [if_neg hne]⟩
    · intro other hother hne
      simp only [NavMeshDb.updateTile, List.mem_map] at hother
      obtain ⟨r, hr, e⟩ := hother
      by_cases hrid : r.mTileId = tileId
      · rw [if_pos hrid] at e
        rw [← e] at hne
        exact absurd hrid hne
      · rw [if_neg hrid] at e
        rw [← e]
        exact hr

theorem updateTile_overwrites_version_and_payload_witness :
    (⟨13, "sys::default", ⟨3, 4⟩, 1, [12, 13], [14, 15]⟩ : StoredTileRow) ∈
      (NavMeshDb.create.run (sampleDbCalls.take 4)).mRows ∧
    ((NavMeshDb.create.run (sampleDbCalls.take 4)).updateTile 13 2 [16, 17]).1 = 1 ∧
    ((NavMeshDb.create.run (sampleDbCalls.take 4)).updateTile 13 2 [16, 17]).2.getTileData
      "sys::default" ⟨3, 4⟩ [12, 13] = some ⟨13, 2, [16, 17]⟩ ∧
    (NavMeshDb.create.run (sampleDbCalls.take 4)).updateTile 99 5 [18] =
      (0, NavMeshDb.create.run (sampleDbCalls.take 4)) :=
  ⟨by decide,
    ((updateTile_overwrites_version_and_payload (sampleDbCalls.take 4) 13 2 [16, 17]).2
      ⟨13, "sys::default", ⟨3, 4⟩, 1, [12, 13], [14, 15]⟩ (by decide) rfl).1,
    ((updateTile_overwrites_version_and_payload (sampleDbCalls.take 4) 13 2 [16, 17]).2
      ⟨13, "sys::default", ⟨3, 4⟩, 1, [12, 13], [14, 15]⟩ (by decide) rfl).2.1,
    (updateTile_overwrites_version_and_payload (sampleDbCalls.take 4) 99 5 [18]).1
      (by decide)⟩

end TileStoreTheorems

end DetourNavigator
